import Mathlib

/-
  Verification of the staging-to-published synchronization engine of the
  test-question generation backend (src/main.py, src/database.py).

  The SQLAlchemy tables become Lean lists of records; a database session is a
  value of type `DB` threaded through each endpoint.  Timestamps are natural
  numbers; every endpoint receives the current time `now` explicitly.  The LLM
  collaborator is passed as a function parameter.  Endpoints return the new
  database paired with an `Except` value; an error result carries the original
  database, which models the `db.rollback()` in every `except` branch (no
  mutation is visible unless `db.commit()` is reached).

  Session semantics mirrored from the code (sessionmaker with autoflush=False):
  rows added with `db.add` and not yet flushed are invisible to queries, while
  rows that were flushed or pre-existing are returned with their in-memory
  (identity-map) attribute state.  Folds below therefore keep pre-existing rows
  and freshly added unflushed rows in separate components where the code can
  observe the difference.  The `created_at` audit column is not modeled;
  `updated_at` is.  Python truthiness of nullable integer columns
  (`if row.staging_id:`) is modeled as: `none` and `some 0` are falsy.
-/

namespace QGen

/-- Staging question row (table `question_staging` in src/database.py).
`tags` holds tag ids of the `question_tags` association table. -/
structure QuestionStaging where
  id : Nat
  run_id : String
  question_text : String
  is_approved : Option Bool
  tags : List Nat
  updated_at : Nat
deriving Repr, DecidableEq

/-- Staging answer row (table `answer_staging`). -/
structure AnswerStaging where
  id : Nat
  run_id : String
  question_id : Nat
  answer_text : String
  is_approved : Option Bool
  updated_at : Nat
deriving Repr, DecidableEq

/-- Published question row (table `questions`).  `is_approved` is the
`has_approved_answer` flag; `staging_id` is the nullable reconciliation key;
`tags` holds tag ids of `actual_question_tags`. -/
structure Question where
  id : Nat
  run_id : String
  staging_id : Option Nat
  question_text : String
  is_approved : Bool
  tags : List Nat
  updated_at : Nat
deriving Repr, DecidableEq

/-- Published answer row (table `answers`). -/
structure Answer where
  id : Nat
  run_id : String
  question_id : Nat
  staging_id : Option Nat
  answer_text : String
  updated_at : Nat
deriving Repr, DecidableEq

/-- Run row (table `runs`). -/
structure Run where
  id : String
  summary : String
  last_sync_at : Option Nat
  last_staging_change_at : Option Nat
  updated_at : Nat
deriving Repr, DecidableEq

/-- Tag row (table `tags`). -/
structure Tag where
  id : Nat
  name : String
deriving Repr, DecidableEq

/-- The whole database.  The `next_*` counters model the SQLite autoincrement
primary-key allocators of each table. -/
structure DB where
  runs : List Run
  question_staging : List QuestionStaging
  answer_staging : List AnswerStaging
  questions : List Question
  answers : List Answer
  tags : List Tag
  next_staging_question_id : Nat
  next_staging_answer_id : Nat
  next_question_id : Nat
  next_answer_id : Nat
  next_tag_id : Nat
deriving Repr, DecidableEq

/-- Errors raised by the endpoints (HTTPException status classes). -/
inductive ApiError where
  | notFound
  | badRequest
  | serverError
deriving Repr, DecidableEq

/-- Mutate the first element satisfying `p`, exactly like mutating the object
returned by `query(...).first()`. -/
def update_first {α : Type} (p : α → Bool) (f : α → α) : List α → List α
  | [] => []
  | x :: xs => if p x then f x :: xs else x :: update_first p f xs

/-- Python dict lookup (`d.get(k)`): the most recent binding wins. -/
def dict_get (m : List (Nat × Nat)) (k : Nat) : Option Nat :=
  (m.find? (fun e => e.1 == k)).map (fun e => e.2)

/-- Python dict assignment (`d[k] = v`): new bindings shadow older ones. -/
def dict_set (m : List (Nat × Nat)) (k : Nat) (v : Nat) : List (Nat × Nat) :=
  (k, v) :: m

/-- Equality of the id sets of two tag lists
(`set of ids == set of ids` in step 2 of the sync). -/
def same_id_set (xs ys : List Nat) : Bool :=
  xs.all (fun i => ys.contains i) && ys.all (fun i => xs.contains i)

/- ==================== Sync engine (src/main.py, sync_to_actual) ==================== -/

/-- `db.query(QuestionStaging).filter(run_id == run_id, is_approved == True)`. -/
def approved_questions_of (db : DB) (r : String) : List QuestionStaging :=
  db.question_staging.filter (fun q => q.run_id == r && q.is_approved == some true)

/-- `db.query(AnswerStaging).filter(run_id == run_id, is_approved == True)`. -/
def approved_answers_of (db : DB) (r : String) : List AnswerStaging :=
  db.answer_staging.filter (fun a => a.run_id == r && a.is_approved == some true)

/-- The `staging_to_actual_question` dict: built from all published questions of
the run whose `staging_id` is not NULL, keyed by `staging_id`. -/
def initial_map (db : DB) (r : String) : List (Nat × Nat) :=
  (db.questions.filter (fun q => q.run_id == r && q.staging_id.isSome)).foldl
    (fun m q => dict_set m (q.staging_id.getD 0) q.id) []

/-- State of the step-2 loop over approved staging questions. -/
structure QPass where
  qs : List Question
  smap : List (Nat × Nat)
  cnt : Nat
  next_id : Nat
deriving Repr, DecidableEq

/-- One iteration of the step-2 loop of `sync_to_actual`: find or create the
published question for one approved staging question, update its text, count a
change when the `has_approved_answer` flag or the tag-id set differs, then set
the flag to `new_approved_state` and overwrite the tags. -/
def sync_one_question (r : String) (now : Nat) (wq : List Nat)
    (st : QPass) (sq : QuestionStaging) : QPass :=
  let new_flag := wq.contains sq.id
  match (dict_get st.smap sq.id).bind (fun aid => st.qs.find? (fun q => q.id == aid)) with
  | some aq =>
      let tags_changed := !(same_id_set aq.tags sq.tags)
      let cnt' := if aq.is_approved != new_flag || tags_changed then st.cnt + 1 else st.cnt
      { st with
        cnt := cnt',
        qs := update_first (fun q => q.id == aq.id)
          (fun q => { q with question_text := sq.question_text, updated_at := now,
                             is_approved := new_flag, tags := sq.tags }) st.qs }
  | none =>
      { qs := st.qs ++ [{ id := st.next_id, run_id := r, staging_id := some sq.id,
                          question_text := sq.question_text, is_approved := new_flag,
                          tags := sq.tags, updated_at := now }],
        smap := dict_set st.smap sq.id st.next_id,
        cnt := if new_flag then st.cnt + 1 else st.cnt,
        next_id := st.next_id + 1 }

/-- State of the step-3 loop over approved staging answers.  `old` holds the
pre-existing published answers (visible to queries, updated in place);
`created` holds rows added with `db.add` and never flushed, hence invisible to
the queries of steps 3 and 5. -/
structure APass where
  old : List Answer
  created : List Answer
  next_id : Nat
deriving Repr, DecidableEq

/-- The published-answer reconciliation key of step 3. -/
def alink (r : String) (aid : Nat) (k : Nat) (b : Answer) : Bool :=
  b.run_id == r && b.question_id == aid && b.staging_id == some k

/-- One iteration of the step-3 loop of `sync_to_actual`: publish one approved
staging answer whose staging question is also approved, keyed by
(run, published question id, staging answer id). -/
def sync_one_answer (r : String) (now : Nat) (aq_ids : List Nat)
    (smap : List (Nat × Nat)) (st : APass) (sa : AnswerStaging) : APass :=
  if !(aq_ids.contains sa.question_id) then st
  else
    match dict_get smap sa.question_id with
    | none => st
    | some aid =>
      if aid == 0 then st
      else
        let key := alink r aid sa.id
        match st.old.find? key with
        | some _ =>
          let old' := update_first key
            (fun b => { b with answer_text := sa.answer_text, updated_at := now }) st.old
          { st with old := old' }
        | none =>
          let newb : Answer :=
            { id := st.next_id, run_id := r, question_id := aid,
              staging_id := some sa.id, answer_text := sa.answer_text, updated_at := now }
          { st with created := st.created ++ [newb], next_id := st.next_id + 1 }

/-- Step 4 of `sync_to_actual`, applied to one published question of the run:
demote the `has_approved_answer` flag when the staging question is no longer
approved or no longer has an approved answer; return the demoted row and the
contribution to `questions_synced` (counted only on a true-to-false move). -/
def demote_one (r : String) (aq_ids wq : List Nat) (now : Nat) (q : Question) :
    Question × Nat :=
  if q.run_id == r then
    match q.staging_id with
    | some s =>
      if s != 0 then
        if !(aq_ids.contains s) then
          ({ q with is_approved := false, updated_at := now }, if q.is_approved then 1 else 0)
        else if !(wq.contains s) then
          ({ q with is_approved := false, updated_at := now }, if q.is_approved then 1 else 0)
        else (q, 0)
      else (q, 0)
    | none => (q, 0)
  else (q, 0)

/-- Step 4 loop: demote every stale published question of the run. -/
def demote_pass (r : String) (aq_ids wq : List Nat) (now : Nat)
    (qs : List Question) : List Question × Nat :=
  (qs.map (fun q => (demote_one r aq_ids wq now q).1),
   (qs.map (fun q => (demote_one r aq_ids wq now q).2)).sum)

/-- Step 5 deletion test for one published answer of the run: delete when its
own staging link is truthy and not approved, or when its owning published
question has a truthy staging link that is not approved. -/
def should_delete (aq_ids aa_ids : List Nat)
    (qs : List Question) (b : Answer) : Bool :=
  (match b.staging_id with
   | some k => k != 0 && !(aa_ids.contains k)
   | none => false) ||
  (if b.question_id != 0 then
    match qs.find? (fun q => q.id == b.question_id) with
    | some q =>
      match q.staging_id with
      | some s => s != 0 && !(aq_ids.contains s)
      | none => false
    | none => false
   else false)

/-- Step 5 loop: delete the stale published answers of the run. -/
def delete_pass (r : String) (aq_ids aa_ids : List Nat)
    (qs : List Question) (answers : List Answer) : List Answer :=
  answers.filter (fun b => !(b.run_id == r && should_delete aq_ids aa_ids qs b))

/-- The whole reconciliation inside the `try` block of `sync_to_actual`
(steps 1 to 6), returning the committed database and `questions_synced`. -/
def sync_core (db : DB) (r : String) (now : Nat) : DB × Nat :=
  let aqs := approved_questions_of db r
  let sas := approved_answers_of db r
  let aq_ids := aqs.map (fun q => q.id)
  let aa_ids := sas.map (fun a => a.id)
  let wq := sas.filterMap (fun a =>
    if aq_ids.contains a.question_id then some a.question_id else none)
  let st2 := aqs.foldl (sync_one_question r now wq)
    ⟨db.questions, initial_map db r, 0, db.next_question_id⟩
  let st3 := sas.foldl (sync_one_answer r now aq_ids st2.smap)
    ⟨db.answers, [], db.next_answer_id⟩
  let d4 := demote_pass r aq_ids wq now st2.qs
  let old5 := delete_pass r aq_ids aa_ids d4.1 st3.old
  ({ db with
      runs := update_first (fun ru => ru.id == r)
        (fun ru => { ru with last_sync_at := some now, updated_at := now }) db.runs,
      questions := d4.1,
      answers := old5 ++ st3.created,
      next_question_id := st2.next_id,
      next_answer_id := st3.next_id },
   st2.cnt + d4.2)

/-- Result body of the sync endpoint. -/
structure SyncResult where
  last_sync_at : Nat
  questions_synced : Nat
deriving Repr, DecidableEq

/-- Endpoint POST /api/runs/(run_id)/sync-to-actual.  `fault = true` models an
arbitrary exception thrown inside the `try` block; the handler rolls the
transaction back, so the caller sees the original database. -/
def sync_to_actual (db : DB) (r : String) (now : Nat) (fault : Bool) :
    DB × Except ApiError SyncResult :=
  match db.runs.find? (fun ru => ru.id == r) with
  | none => (db, Except.error ApiError.notFound)
  | some _ =>
    if fault then (db, Except.error ApiError.serverError)
    else
      let res := sync_core db r now
      (res.1, Except.ok { last_sync_at := now, questions_synced := res.2 })

/- ==================== Staging mutation endpoints ==================== -/

/-- Endpoint PATCH /api/questions/(id)/approval: set the tri-state approval to
`some flag`; on rejection delete every staging answer of the question; bump the
`last_staging_change_at` of the owning run. -/
def update_question_approval (db : DB) (question_id : Nat) (flag : Bool) (now : Nat) :
    DB × Except ApiError QuestionStaging :=
  match db.question_staging.find? (fun q => q.id == question_id) with
  | none => (db, Except.error ApiError.notFound)
  | some q0 =>
    let q1 : QuestionStaging := { q0 with is_approved := some flag, updated_at := now }
    let staged := update_first (fun q => q.id == question_id)
      (fun q => { q with is_approved := some flag, updated_at := now }) db.question_staging
    let answers' :=
      if flag = false then
        db.answer_staging.filter (fun a => !(a.question_id == question_id))
      else db.answer_staging
    let runs' := update_first (fun ru => ru.id == q0.run_id)
      (fun ru => { ru with last_staging_change_at := some now, updated_at := now }) db.runs
    ({ db with question_staging := staged, answer_staging := answers', runs := runs' },
     Except.ok q1)

/-- Endpoint PATCH /api/answers/(id)/approval: set the tri-state approval and
bump `last_staging_change_at` of the owning run. -/
def update_answer_approval (db : DB) (answer_id : Nat) (flag : Bool) (now : Nat) :
    DB × Except ApiError AnswerStaging :=
  match db.answer_staging.find? (fun a => a.id == answer_id) with
  | none => (db, Except.error ApiError.notFound)
  | some a0 =>
    let a1 : AnswerStaging := { a0 with is_approved := some flag, updated_at := now }
    let answers' := update_first (fun a => a.id == answer_id)
      (fun a => { a with is_approved := some flag, updated_at := now }) db.answer_staging
    let runs' := update_first (fun ru => ru.id == a0.run_id)
      (fun ru => { ru with last_staging_change_at := some now, updated_at := now }) db.runs
    ({ db with answer_staging := answers', runs := runs' }, Except.ok a1)

/-- Rows created by POST /api/runs/(run_id)/generate-questions: one pending
staging question per text returned by the collaborator, with sequential ids. -/
def make_staging_questions (r : String) (now : Nat) :
    Nat → List String → List QuestionStaging
  | _, [] => []
  | next, t :: ts =>
    { id := next, run_id := r, question_text := t, is_approved := none,
      tags := [], updated_at := now } :: make_staging_questions r now (next + 1) ts

/-- Endpoint POST /api/runs/(run_id)/generate-questions.  `llm_q` is the
collaborator `generate_questions(summary, num_questions)`.  Note that the
handler commits without touching `last_staging_change_at` of the run. -/
def generate_questions (db : DB) (r : String) (num_questions : Nat)
    (llm_q : String → Nat → List String) (now : Nat) :
    DB × Except ApiError (List QuestionStaging) :=
  match db.runs.find? (fun ru => ru.id == r) with
  | none => (db, Except.error ApiError.notFound)
  | some run =>
    let texts := llm_q run.summary num_questions
    let newqs := make_staging_questions r now db.next_staging_question_id texts
    ({ db with question_staging := db.question_staging ++ newqs,
               next_staging_question_id := db.next_staging_question_id + texts.length },
     Except.ok newqs)

/-- State of the loop of generate-answers.  `old` holds the pre-existing
staging answers (queried and deleted in place); `created` holds the rows added
with `db.add` and not flushed before commit. -/
structure GAPass where
  old : List AnswerStaging
  created : List AnswerStaging
  next_id : Nat
deriving Repr, DecidableEq

/-- One iteration of generate-answers for one approved staging question: skip
when some existing staging answer of the question is not actively rejected;
otherwise delete every (rejected) existing answer and generate one pending
answer. -/
def gen_one_answer (r : String) (summary : String) (llm : String → String → String)
    (now : Nat) (st : GAPass) (q : QuestionStaging) : GAPass :=
  let existing := st.old.filter (fun a => a.question_id == q.id)
  let has_non_rejected := existing.any (fun a => a.is_approved != some false)
  if has_non_rejected then st
  else
    let newa : AnswerStaging :=
      { id := st.next_id, run_id := r, question_id := q.id,
        answer_text := llm q.question_text summary, is_approved := none, updated_at := now }
    { old := st.old.filter (fun a => !(a.question_id == q.id)),
      created := st.created ++ [newa],
      next_id := st.next_id + 1 }

/-- Endpoint POST /api/runs/(run_id)/generate-answers.  `llm` is the
collaborator `generate_answer(question_text, summary)`.  Fails with 400 when
the run has no approved question.  Note that the handler commits without
touching `last_staging_change_at` of the run. -/
def generate_answers (db : DB) (r : String) (llm : String → String → String)
    (now : Nat) : DB × Except ApiError (List AnswerStaging) :=
  match db.runs.find? (fun ru => ru.id == r) with
  | none => (db, Except.error ApiError.notFound)
  | some run =>
    let approved := db.question_staging.filter
      (fun q => q.run_id == r && q.is_approved == some true)
    if approved.isEmpty then (db, Except.error ApiError.badRequest)
    else
      let st := approved.foldl (gen_one_answer r run.summary llm now)
        ⟨db.answer_staging, [], db.next_staging_answer_id⟩
      ({ db with answer_staging := st.old ++ st.created,
                 next_staging_answer_id := st.next_id },
       Except.ok st.created)

/-- State of the tag-resolution loop of PUT /api/questions/(id)/tags. -/
structure TagPass where
  tags : List Tag
  next_id : Nat
  tag_objects : List Nat
deriving Repr, DecidableEq

/-- Whitespace stripping of a tag name (`name.strip()` in the handler). -/
def py_strip (s : String) : String :=
  String.mk ((s.toList.dropWhile Char.isWhitespace).reverse.dropWhile
    Char.isWhitespace).reverse

/-- Resolve one tag name: strip it, silently skip it when empty, otherwise find
the tag by name or create it (the `db.flush` makes a tag created for an earlier
name of the same request visible here). -/
def resolve_tag (st : TagPass) (raw : String) : TagPass :=
  let name := py_strip raw
  if name == "" then st
  else
    match st.tags.find? (fun t => t.name == name) with
    | some t => { st with tag_objects := st.tag_objects ++ [t.id] }
    | none =>
      { tags := st.tags ++ [{ id := st.next_id, name := name }],
        next_id := st.next_id + 1,
        tag_objects := st.tag_objects ++ [st.next_id] }

/-- Endpoint PUT /api/questions/(id)/tags: clear the tag set of the staging
question, resolve each requested name, associate the resolved tags, and bump
`last_staging_change_at` of the owning run. -/
def update_question_tags (db : DB) (question_id : Nat) (tag_names : List String)
    (now : Nat) : DB × Except ApiError (List Nat) :=
  match db.question_staging.find? (fun q => q.id == question_id) with
  | none => (db, Except.error ApiError.notFound)
  | some q0 =>
    let st := tag_names.foldl resolve_tag ⟨db.tags, db.next_tag_id, []⟩
    let staged := update_first (fun q => q.id == question_id)
      (fun q => { q with tags := st.tag_objects, updated_at := now }) db.question_staging
    let runs' := update_first (fun ru => ru.id == q0.run_id)
      (fun ru => { ru with last_staging_change_at := some now, updated_at := now }) db.runs
    ({ db with question_staging := staged, runs := runs',
               tags := st.tags, next_tag_id := st.next_id },
     Except.ok st.tag_objects)

/- ==================== Content projections ==================== -/

/-- The reviewer-visible content of a published question: everything except the
`updated_at` audit stamp. -/
structure QContent where
  id : Nat
  run_id : String
  staging_id : Option Nat
  question_text : String
  is_approved : Bool
  tags : List Nat
deriving Repr, DecidableEq

/-- The reviewer-visible content of a published answer. -/
structure AContent where
  id : Nat
  run_id : String
  question_id : Nat
  staging_id : Option Nat
  answer_text : String
deriving Repr, DecidableEq

def Question.content (q : Question) : QContent :=
  ⟨q.id, q.run_id, q.staging_id, q.question_text, q.is_approved, q.tags⟩

def Answer.content (b : Answer) : AContent :=
  ⟨b.id, b.run_id, b.question_id, b.staging_id, b.answer_text⟩

/- ==================== Extensional descriptions of the sync passes ==================== -/

/-- The published-question reconciliation predicate: `p` is linked to staging
question id `s` within run `r`. -/
def qlink (r : String) (s : Nat) (p : Question) : Bool :=
  p.run_id == r && p.staging_id == some s

/-- Pointwise effect of step 2 on a pre-existing published question: when it is
the reconciliation target of an approved staging question, its text and tags
are overwritten and its flag becomes membership of `wq`. -/
def upd_question (r : String) (now : Nat) (wq : List Nat) (L : List QuestionStaging)
    (p : Question) : Question :=
  if p.run_id == r then
    match p.staging_id with
    | some s =>
      match L.find? (fun sq => sq.id == s) with
      | some sq => { p with question_text := sq.question_text, updated_at := now,
                            is_approved := wq.contains s, tags := sq.tags }
      | none => p
    | none => p
  else p

/-- Published questions created by step 2: one per approved staging question
without a pre-existing reconciliation target, with sequential fresh ids. -/
def new_questions (r : String) (now : Nat) (wq : List Nat) (qs0 : List Question) :
    Nat → List QuestionStaging → List Question
  | _, [] => []
  | next, sq :: rest =>
    if qs0.any (qlink r sq.id) then new_questions r now wq qs0 next rest
    else
      { id := next, run_id := r, staging_id := some sq.id,
        question_text := sq.question_text, is_approved := wq.contains sq.id,
        tags := sq.tags, updated_at := now } ::
      new_questions r now wq qs0 (next + 1) rest

/-- Contribution of step 2 to `questions_synced`: one per approved staging
question whose pre-existing target changes flag or tag set, plus one per
created question whose flag starts true. -/
def q_count (r : String) (wq : List Nat) (qs0 : List Question) :
    List QuestionStaging → Nat
  | [] => 0
  | sq :: rest =>
    (match qs0.find? (qlink r sq.id) with
     | some t =>
       if t.is_approved != wq.contains sq.id || !(same_id_set t.tags sq.tags) then 1 else 0
     | none => if wq.contains sq.id then 1 else 0) + q_count r wq qs0 rest

/-- The published question id under which step 3 files one approved staging
answer: its staging question must be approved, the lookup `ell` (the
`staging_to_actual_question` dict) must have an entry, and the entry must be a
truthy row id. -/
def ans_target (aq_ids : List Nat) (ell : Nat → Option Nat) (sa : AnswerStaging) :
    Option Nat :=
  if aq_ids.contains sa.question_id then
    match ell sa.question_id with
    | some aid => if aid == 0 then none else some aid
    | none => none
  else none

/-- Pointwise effect of step 3 on a pre-existing published answer: when it is
the keyed target of a publishable approved staging answer, its text is
overwritten. -/
def upd_answer (r : String) (now : Nat) (aq_ids : List Nat) (ell : Nat → Option Nat)
    (SA : List AnswerStaging) (b : Answer) : Answer :=
  match SA.find? (fun sa =>
      match ans_target aq_ids ell sa with
      | some aid => alink r aid sa.id b
      | none => false) with
  | some sa => { b with answer_text := sa.answer_text, updated_at := now }
  | none => b

/-- Published answers created by step 3: one per publishable approved staging
answer without a pre-existing keyed target, with sequential fresh ids. -/
def new_answers (r : String) (now : Nat) (aq_ids : List Nat) (ell : Nat → Option Nat)
    (old0 : List Answer) : Nat → List AnswerStaging → List Answer
  | _, [] => []
  | next, sa :: rest =>
    match ans_target aq_ids ell sa with
    | none => new_answers r now aq_ids ell old0 next rest
    | some aid =>
      if old0.any (alink r aid sa.id) then new_answers r now aq_ids ell old0 next rest
      else
        { id := next, run_id := r, question_id := aid, staging_id := some sa.id,
          answer_text := sa.answer_text, updated_at := now } ::
        new_answers r now aq_ids ell old0 (next + 1) rest

/-- Whether one call of generate-answers generates for a given approved staging
question, judged against a list of staging answers: true when no answer of the
question is in unset or approved state. -/
def regenerates (answers : List AnswerStaging) (q : QuestionStaging) : Bool :=
  !((answers.filter (fun a => a.question_id == q.id)).any
      (fun a => a.is_approved != some false))

/-- Staging answers created by one generate-answers call, with sequential ids. -/
def gen_created (r : String) (summary : String) (llm : String → String → String)
    (now : Nat) (old0 : List AnswerStaging) :
    Nat → List QuestionStaging → List AnswerStaging
  | _, [] => []
  | next, q :: rest =>
    if regenerates old0 q then
      { id := next, run_id := r, question_id := q.id,
        answer_text := llm q.question_text summary, is_approved := none,
        updated_at := now } :: gen_created r summary llm now old0 (next + 1) rest
    else gen_created r summary llm now old0 next rest

/- ==================== Well-formedness of a database state ==================== -/

/-- Primary-key and autoincrement discipline, as guaranteed by the SQLAlchemy
session (identity map keyed by primary key) and the SQLite schema. -/
def pk_wf (db : DB) : Prop :=
  (db.question_staging.map (fun q => q.id)).Nodup ∧
  (∀ q ∈ db.question_staging, 1 ≤ q.id) ∧
  (db.answer_staging.map (fun a => a.id)).Nodup ∧
  (∀ a ∈ db.answer_staging, 1 ≤ a.id) ∧
  (db.questions.map (fun q => q.id)).Nodup ∧
  (∀ q ∈ db.questions, 1 ≤ q.id ∧ q.id < db.next_question_id) ∧
  1 ≤ db.next_question_id

/-- The reconciliation-key invariants of the data model: within run `r`,
a non-null `staging_id` identifies at most one published question, and a
(published question, non-null `staging_id`) pair identifies at most one
published answer. -/
def links_wf (db : DB) (r : String) : Prop :=
  ((db.questions.filter (fun q => q.run_id == r && q.staging_id.isSome)).map
      (fun q => q.staging_id.getD 0)).Nodup ∧
  ((db.answers.filter (fun b => b.run_id == r && b.staging_id.isSome)).map
      (fun b => (b.question_id, b.staging_id.getD 0))).Nodup

/-- The hypotheses under which the sync pass is analysed. -/
def sync_wf (db : DB) (r : String) : Prop := pk_wf db ∧ links_wf db r

/-- Referential coherence of the published rows of run `r` with their staging
origins, as maintained by the data model (every published row of the run was
derived from a staging row of the same run). -/
def run_coherent (db : DB) (r : String) : Prop :=
  (∀ p ∈ db.questions, p.run_id = r → ∃ s, p.staging_id = some s ∧ 1 ≤ s) ∧
  (∀ b ∈ db.answers, b.run_id = r → ∃ k, b.staging_id = some k ∧ 1 ≤ k) ∧
  (∀ b ∈ db.answers, ∀ p ∈ db.questions, b.question_id = p.id → b.run_id = p.run_id) ∧
  (∀ b ∈ db.answers, b.run_id = r → ∃ p ∈ db.questions, p.id = b.question_id) ∧
  (∀ b ∈ db.answers, ∀ p ∈ db.questions, ∀ sa ∈ db.answer_staging,
      b.question_id = p.id → b.staging_id = some sa.id →
      p.staging_id = some sa.question_id) ∧
  (∀ p ∈ db.questions, ∀ sq ∈ db.question_staging,
      p.staging_id = some sq.id → p.run_id = sq.run_id) ∧
  (∀ sa ∈ db.answer_staging, ∀ sq ∈ db.question_staging,
      sa.question_id = sq.id → sa.run_id = sq.run_id)

/-- Spec-level reading of membership in `Aq`: staging question `s` of run `r`
is approved. -/
def staging_q_approved (db : DB) (r : String) (s : Nat) : Prop :=
  ∃ sq ∈ db.question_staging, sq.id = s ∧ sq.run_id = r ∧ sq.is_approved = some true

/-- Spec-level reading of membership in `Wq`: some approved staging answer of
run `r` references staging question `s`. -/
def staging_q_has_approved_answer (db : DB) (r : String) (s : Nat) : Prop :=
  ∃ sa ∈ db.answer_staging,
    sa.run_id = r ∧ sa.is_approved = some true ∧ sa.question_id = s

/- ==================== Derived descriptions of one sync pass ==================== -/

/-- `Aq`: ids of the approved staging questions of the run. -/
def sync_aq (db : DB) (r : String) : List Nat :=
  (approved_questions_of db r).map (fun q => q.id)

/-- `Aa`: ids of the approved staging answers of the run. -/
def sync_aa (db : DB) (r : String) : List Nat :=
  (approved_answers_of db r).map (fun a => a.id)

/-- `Wq`: ids of approved staging questions that have an approved staging
answer. -/
def sync_wq (db : DB) (r : String) : List Nat :=
  (approved_answers_of db r).filterMap (fun a =>
    if (sync_aq db r).contains a.question_id then some a.question_id else none)

/-- The published questions after step 2 of a sync pass. -/
def qs_after (db : DB) (r : String) (now : Nat) : List Question :=
  db.questions.map (upd_question r now (sync_wq db r) (approved_questions_of db r)) ++
    new_questions r now (sync_wq db r) db.questions db.next_question_id
      (approved_questions_of db r)

/-- The published questions after steps 2 and 4 of a sync pass. -/
def qs_final (db : DB) (r : String) (now : Nat) : List Question :=
  (qs_after db r now).map (fun q => (demote_one r (sync_aq db r) (sync_wq db r) now q).1)

/-- The count contributed by the demotions of step 4. -/
def demote_cnt (db : DB) (r : String) (now : Nat) : Nat :=
  ((qs_after db r now).map (fun q => (demote_one r (sync_aq db r) (sync_wq db r) now q).2)).sum

/-- The value of `questions_synced` of a sync pass. -/
def sync_cnt (db : DB) (r : String) (now : Nat) : Nat :=
  q_count r (sync_wq db r) db.questions (approved_questions_of db r) + demote_cnt db r now

/-- The reconciliation lookup of step 3 as seen through the final dict: the id
of the last published question of the run linked to staging question `s`. -/
def publish_map (db : DB) (r : String) (now : Nat) : Nat → Option Nat :=
  fun s => ((qs_after db r now).find? (qlink r s)).map (fun q => q.id)

/-- The pre-existing published answers after the text updates of step 3. -/
def answers_upd (db : DB) (r : String) (now : Nat) : List Answer :=
  db.answers.map (upd_answer r now (sync_aq db r) (publish_map db r now)
    (approved_answers_of db r))

/-- The published answers created in step 3. -/
def answers_new (db : DB) (r : String) (now : Nat) : List Answer :=
  new_answers r now (sync_aq db r) (publish_map db r now) db.answers
    db.next_answer_id (approved_answers_of db r)

/-- The published answers after a full sync pass. -/
def answers_final (db : DB) (r : String) (now : Nat) : List Answer :=
  delete_pass r (sync_aq db r) (sync_aa db r) (qs_final db r now)
    (answers_upd db r now) ++ answers_new db r now

/- ==================== Generic list lemmas ==================== -/

theorem find?_congr {α : Type} {p q : α → Bool} :
    ∀ {l : List α}, (∀ x ∈ l, p x = q x) → l.find? p = l.find? q
  | [], _ => rfl
  | x :: l, h => by
    have hx := h x (by simp)
    simp only [List.find?_cons, ← hx]
    cases hpx : p x with
    | true => rfl
    | false => exact find?_congr (fun y hy => h y (by simp [hy]))

theorem find?_eq_head?_filter {α : Type} (p : α → Bool) :
    ∀ (l : List α), l.find? p = (l.filter p).head?
  | [] => rfl
  | x :: l => by
    simp only [List.find?_cons, List.filter_cons]
    cases hpx : p x with
    | true => rfl
    | false => exact find?_eq_head?_filter p l

theorem find?_filter_comm {α : Type} (p q : α → Bool) (l : List α) :
    (l.filter p).find? q = l.find? (fun x => p x && q x) := by
  rw [find?_eq_head?_filter, find?_eq_head?_filter, List.filter_filter]
  congr 1
  exact List.filter_congr (fun a _ => by rw [Bool.and_comm])

theorem find?_reverse_of_len_le_one {α : Type} {p : α → Bool} {l : List α}
    (h : (l.filter p).length ≤ 1) : l.reverse.find? p = l.find? p := by
  rw [find?_eq_head?_filter, find?_eq_head?_filter, List.filter_reverse]
  cases hf : l.filter p with
  | nil => simp
  | cons a t =>
    cases t with
    | nil => simp
    | cons b t2 => rw [hf] at h; simp at h

theorem filter_key_len_le_one {α β : Type} [BEq β] [LawfulBEq β] (g : α → β) :
    ∀ (l : List α), (l.map g).Nodup → ∀ (b : β),
      (l.filter (fun x => g x == b)).length ≤ 1
  | [], _, _ => by simp
  | x :: l, h, b => by
    simp only [List.map_cons, List.nodup_cons] at h
    obtain ⟨hx, hl⟩ := h
    simp only [List.filter_cons]
    cases hgx : (g x == b) with
    | false => exact filter_key_len_le_one g l hl b
    | true =>
      have hgxb : g x = b := by simpa using hgx
      have : l.filter (fun y => g y == b) = [] := by
        apply List.filter_eq_nil_iff.mpr
        intro y hy
        simp only [beq_iff_eq]
        intro hyb
        exact hx (by rw [hgxb, ← hyb]; exact List.mem_map_of_mem g hy)
      simp [this]

theorem update_first_of_forall_not {α : Type} {p : α → Bool} {f : α → α} :
    ∀ {l : List α}, (∀ x ∈ l, ¬ p x) → update_first p f l = l
  | [], _ => rfl
  | x :: l, h => by
    have hx : p x = false := by
      have := h x (by simp)
      simpa using this
    rw [update_first, if_neg (by simp [hx]),
      update_first_of_forall_not (fun y hy => h y (by simp [hy]))]

theorem update_first_length {α : Type} (p : α → Bool) (f : α → α) :
    ∀ (l : List α), (update_first p f l).length = l.length
  | [] => rfl
  | x :: xs => by
    rw [update_first]
    split
    · rfl
    · rw [List.length_cons, List.length_cons, update_first_length p f xs]

theorem map_id_of_forall_not {α : Type} {p : α → Bool} {f : α → α} {l : List α}
    (h : ∀ x ∈ l, ¬ p x) : l.map (fun x => if p x then f x else x) = l := by
  rw [List.map_congr_left (g := id) ?_, List.map_id]
  intro a ha
  have hpa : p a = false := by simpa using h a ha
  simp [hpa]

theorem update_first_eq_map {α : Type} {p : α → Bool} {f : α → α} :
    ∀ {l : List α}, (l.filter p).length ≤ 1 →
      update_first p f l = l.map (fun x => if p x then f x else x)
  | [], _ => rfl
  | x :: l, h => by
    rw [List.filter_cons] at h
    rw [update_first, List.map_cons]
    cases hpx : p x with
    | false =>
      rw [if_neg (by simp [hpx]), if_neg (by simp [hpx]),
        update_first_eq_map (by simpa [hpx] using h)]
    | true =>
      have hrest : ∀ y ∈ l, ¬ p y := by
        rw [if_pos (by simp [hpx]), List.length_cons] at h
        intro y hy hpy
        have h0 : (l.filter p).length = 0 := by omega
        exact (List.filter_eq_nil_iff.mp (List.length_eq_zero.mp h0) y hy) hpy
      rw [if_pos (by simp [hpx]), if_pos (by simp [hpx]), map_id_of_forall_not hrest]

/- ==================== Dict and initial-map lemmas ==================== -/

theorem dict_get_set_same (m : List (Nat × Nat)) (k v : Nat) :
    dict_get (dict_set m k v) k = some v := by
  simp [dict_get, dict_set, List.find?_cons]

theorem dict_get_set_other (m : List (Nat × Nat)) (k v s : Nat) (h : ¬ s = k) :
    dict_get (dict_set m k v) s = dict_get m s := by
  have : ((k, v).1 == s) = false := by simpa using fun e => h e.symm
  simp [dict_get, dict_set, List.find?_cons, this]

theorem dict_get_fold (s : Nat) :
    ∀ (l : List Question) (m : List (Nat × Nat)),
      dict_get (l.foldl (fun m q => dict_set m (q.staging_id.getD 0) q.id) m) s =
        match l.reverse.find? (fun q => q.staging_id.getD 0 == s) with
        | some q => some q.id
        | none => dict_get m s
  | [], _ => rfl
  | q :: l, m => by
    rw [List.foldl_cons, dict_get_fold s l, List.reverse_cons, List.find?_append]
    cases hf : l.reverse.find? (fun q => q.staging_id.getD 0 == s) with
    | some t => simp [Option.or]
    | none =>
      cases hq : (q.staging_id.getD 0 == s) with
      | true =>
        have hs : q.staging_id.getD 0 = s := beq_iff_eq.mp hq
        simp only [Option.or, List.find?_cons, hq, List.find?_nil]
        rw [← hs, dict_get_set_same]
      | false =>
        have hs : ¬ s = q.staging_id.getD 0 := by
          intro e
          rw [e] at hq
          simp at hq
        simp only [Option.or, List.find?_cons, hq, List.find?_nil]
        exact dict_get_set_other m _ q.id s hs

theorem qlink_eq_conj (r : String) (s : Nat) (q : Question) :
    qlink r s q = ((q.run_id == r && q.staging_id.isSome) && q.staging_id.getD 0 == s) := by
  unfold qlink
  cases q.staging_id with
  | none => simp
  | some t =>
    simp only [Option.isSome_some, Bool.and_true, Option.getD_some]
    cases ht : (t == s) with
    | true =>
      have := beq_iff_eq.mp ht
      subst this
      simp
    | false =>
      have : ¬ (t = s) := by intro e; rw [e] at ht; simp at ht
      simp [ht, this]

theorem dict_get_initial_map (db : DB) (r : String) (s : Nat) :
    dict_get (initial_map db r) s =
      (db.questions.reverse.find? (qlink r s)).map (fun q => q.id) := by
  unfold initial_map
  rw [dict_get_fold]
  have h1 : (db.questions.filter (fun q => q.run_id == r && q.staging_id.isSome)).reverse.find?
      (fun q => q.staging_id.getD 0 == s) = db.questions.reverse.find? (qlink r s) := by
    rw [← List.filter_reverse, find?_filter_comm]
    exact find?_congr (fun q _ => (qlink_eq_conj r s q).symm)
  rw [h1]
  cases db.questions.reverse.find? (qlink r s) with
  | none => rfl
  | some t => rfl

theorem links_filter_q_le_one {db : DB} {r : String} (h : links_wf db r) (s : Nat) :
    (db.questions.filter (qlink r s)).length ≤ 1 := by
  have h2 : db.questions.filter (qlink r s) =
      (db.questions.filter (fun q => q.run_id == r && q.staging_id.isSome)).filter
        (fun q => q.staging_id.getD 0 == s) := by
    rw [List.filter_filter]
    exact List.filter_congr (fun q _ => by rw [qlink_eq_conj r s q, Bool.and_comm])
  rw [h2]
  exact filter_key_len_le_one _ _ h.1 s

theorem dict_get_initial_map_of_links {db : DB} {r : String} (h : links_wf db r) (s : Nat) :
    dict_get (initial_map db r) s = (db.questions.find? (qlink r s)).map (fun q => q.id) := by
  rw [dict_get_initial_map, find?_reverse_of_len_le_one (links_filter_q_le_one h s)]

theorem alink_eq_conj (r : String) (aid k : Nat) (b : Answer) :
    alink r aid k b = ((b.run_id == r && b.staging_id.isSome) &&
      ((b.question_id, b.staging_id.getD 0) == (aid, k))) := by
  unfold alink
  cases b.staging_id with
  | none => simp
  | some t =>
    show (b.run_id == r && b.question_id == aid && (some t == some k)) = _
    have hp : (((b.question_id, t) : Nat × Nat) == (aid, k)) = (b.question_id == aid && t == k) :=
      rfl
    have ho : ((some t : Option Nat) == some k) = (t == k) := rfl
    simp only [Option.isSome_some, Bool.and_true, Option.getD_some, hp, ho, Bool.and_assoc]

theorem links_filter_a_le_one {db : DB} {r : String} (h : links_wf db r) (aid k : Nat) :
    (db.answers.filter (alink r aid k)).length ≤ 1 := by
  have h2 : db.answers.filter (alink r aid k) =
      (db.answers.filter (fun b => b.run_id == r && b.staging_id.isSome)).filter
        (fun b => (b.question_id, b.staging_id.getD 0) == (aid, k)) := by
    rw [List.filter_filter]
    exact List.filter_congr (fun b _ => by rw [alink_eq_conj r aid k b, Bool.and_comm])
  rw [h2]
  exact filter_key_len_le_one _ _ h.2 (aid, k)

/- ==================== Helper lemmas for the fold characterizations ==================== -/

theorem find?_key_of_nodup {α β : Type} [BEq β] [LawfulBEq β] {g : α → β} :
    ∀ {l : List α}, (l.map g).Nodup → ∀ {t : α}, t ∈ l →
      l.find? (fun x => g x == g t) = some t
  | [], _, _, ht => by simp at ht
  | x :: l, h, t, ht => by
    simp only [List.map_cons, List.nodup_cons] at h
    obtain ⟨hx, hl⟩ := h
    rw [List.find?_cons]
    rcases List.mem_cons.mp ht with rfl | htl
    · simp
    · cases hgx : (g x == g t) with
      | false => exact find?_key_of_nodup hl htl
      | true =>
        exfalso
        exact hx (beq_iff_eq.mp hgx ▸ List.mem_map_of_mem g htl)

theorem eq_of_filter_le_one {α : Type} {p : α → Bool} :
    ∀ {l : List α}, (l.filter p).length ≤ 1 → ∀ {x y : α}, x ∈ l → y ∈ l →
      p x → p y → x = y
  | [], _, _, _, hx, _, _, _ => by simp at hx
  | a :: l, h, x, y, hx, hy, px, py => by
    rw [List.filter_cons] at h
    rcases List.mem_cons.mp hx with rfl | hxl <;> rcases List.mem_cons.mp hy with rfl | hyl
    · rfl
    · exfalso
      rw [if_pos (by simp [px])] at h
      have h0 : (l.filter p).length = 0 := by simpa using h
      exact (List.filter_eq_nil_iff.mp (List.length_eq_zero.mp h0) y hyl) py
    · exfalso
      rw [if_pos (by simp [py])] at h
      have h0 : (l.filter p).length = 0 := by simpa using h
      exact (List.filter_eq_nil_iff.mp (List.length_eq_zero.mp h0) x hxl) px
    · have hle : (l.filter p).length ≤ 1 := by
        cases hpa : p a with
        | false => rwa [if_neg (by simp [hpa])] at h
        | true =>
          rw [if_pos (by simp [hpa])] at h
          simp only [List.length_cons] at h
          omega
      exact eq_of_filter_le_one hle hxl hyl px py

theorem any_of_find?_some {α : Type} {p : α → Bool} {l : List α} {t : α}
    (h : l.find? p = some t) : l.any p = true := by
  rw [List.any_eq_true]
  exact ⟨t, List.mem_of_find?_eq_some h, List.find?_some h⟩

theorem any_of_find?_none {α : Type} {p : α → Bool} {l : List α}
    (h : l.find? p = none) : l.any p = false := by
  rw [Bool.eq_false_iff, Ne, List.any_eq_true]
  rintro ⟨x, hx, hpx⟩
  exact (List.find?_eq_none.mp h x hx) hpx

theorem new_questions_congr {r : String} {now : Nat} {wq : List Nat}
    {qs0 qs1 : List Question} :
    ∀ {L : List QuestionStaging} {n : Nat},
      (∀ sq ∈ L, qs0.any (qlink r sq.id) = qs1.any (qlink r sq.id)) →
      new_questions r now wq qs0 n L = new_questions r now wq qs1 n L
  | [], _, _ => rfl
  | sq :: L, n, h => by
    have hsq := h sq (by simp)
    rw [new_questions, new_questions, ← hsq]
    cases hq : qs0.any (qlink r sq.id) with
    | true =>
      simp only [if_pos rfl]
      exact new_questions_congr (fun x hx => h x (by simp [hx]))
    | false =>
      rw [if_neg (by simp), if_neg (by simp),
        new_questions_congr (fun x hx => h x (by simp [hx]))]

theorem q_count_congr {r : String} {wq : List Nat} {qs0 qs1 : List Question} :
    ∀ {L : List QuestionStaging},
      (∀ sq ∈ L, qs0.find? (qlink r sq.id) = qs1.find? (qlink r sq.id)) →
      q_count r wq qs0 L = q_count r wq qs1 L
  | [], _ => rfl
  | sq :: L, h => by
    have hsq := h sq (by simp)
    rw [q_count, q_count, ← hsq, q_count_congr (fun x hx => h x (by simp [hx]))]

theorem qlink_iff {r : String} {s : Nat} {q : Question} :
    qlink r s q = true ↔ (q.run_id = r ∧ q.staging_id = some s) := by
  unfold qlink
  rw [Bool.and_eq_true, beq_iff_eq, beq_iff_eq]

theorem upd_question_fields (r : String) (now : Nat) (wq : List Nat)
    (L : List QuestionStaging) (p : Question) :
    (upd_question r now wq L p).id = p.id ∧
    (upd_question r now wq L p).run_id = p.run_id ∧
    (upd_question r now wq L p).staging_id = p.staging_id := by
  unfold upd_question
  split
  · split
    · split
      · exact ⟨rfl, rfl, rfl⟩
      · exact ⟨rfl, rfl, rfl⟩
    · exact ⟨rfl, rfl, rfl⟩
  · exact ⟨rfl, rfl, rfl⟩

theorem upd_question_nil (r : String) (now : Nat) (wq : List Nat) (p : Question) :
    upd_question r now wq [] p = p := by
  unfold upd_question
  split
  · split
    · split
      · simp_all
      · rfl
    · rfl
  · rfl

theorem upd_question_of_link (r : String) (now : Nat) (wq : List Nat)
    {L : List QuestionStaging} {p : Question} {s : Nat} {sq : QuestionStaging}
    (hr : p.run_id = r) (hs : p.staging_id = some s)
    (hfind : L.find? (fun x => x.id == s) = some sq) :
    upd_question r now wq L p =
      { p with question_text := sq.question_text, updated_at := now,
               is_approved := wq.contains s, tags := sq.tags } := by
  unfold upd_question
  rw [if_pos (by simp [hr])]
  simp only [hs, hfind]

theorem upd_question_of_not_run (r : String) (now : Nat) (wq : List Nat)
    (L : List QuestionStaging) {p : Question} (hr : ¬ p.run_id = r) :
    upd_question r now wq L p = p := by
  unfold upd_question
  rw [if_neg (by simp [hr])]

theorem upd_question_of_none (r : String) (now : Nat) (wq : List Nat)
    (L : List QuestionStaging) {p : Question} (hs : p.staging_id = none) :
    upd_question r now wq L p = p := by
  unfold upd_question
  split
  · simp only [hs]
  · rfl

theorem upd_question_of_find_none (r : String) (now : Nat) (wq : List Nat)
    {L : List QuestionStaging} {p : Question} {s : Nat}
    (hs : p.staging_id = some s) (hfind : L.find? (fun x => x.id == s) = none) :
    upd_question r now wq L p = p := by
  unfold upd_question
  split
  · simp only [hs, hfind]
  · rfl

theorem find?_id_none_of_not_mem {L : List QuestionStaging} {s : Nat}
    (h : s ∉ L.map (fun x => x.id)) : L.find? (fun x => x.id == s) = none :=
  List.find?_eq_none.mpr (fun x hx hb =>
    h (beq_iff_eq.mp hb ▸ List.mem_map_of_mem (fun x => x.id) hx))

/-- Characterization of the step-2 loop of the sync engine: starting from a
state whose dict mirrors the reconciliation links of its question list, the
loop rewrites each pre-existing question pointwise, appends the newly created
questions with sequential ids, and counts exactly `q_count`. -/
theorem question_pass_char (r : String) (now : Nat) (wq : List Nat) :
    ∀ (L : List QuestionStaging) (st : QPass),
      (L.map (fun sq => sq.id)).Nodup →
      (st.qs.map (fun q => q.id)).Nodup →
      (∀ q ∈ st.qs, q.id < st.next_id) →
      (∀ s, (st.qs.filter (qlink r s)).length ≤ 1) →
      (∀ s, dict_get st.smap s = (st.qs.find? (qlink r s)).map (fun q => q.id)) →
      (L.foldl (sync_one_question r now wq) st).qs =
          st.qs.map (upd_question r now wq L) ++
            new_questions r now wq st.qs st.next_id L ∧
      (L.foldl (sync_one_question r now wq) st).cnt = st.cnt + q_count r wq st.qs L ∧
      (L.foldl (sync_one_question r now wq) st).next_id =
          st.next_id + (new_questions r now wq st.qs st.next_id L).length ∧
      (∀ s, dict_get (L.foldl (sync_one_question r now wq) st).smap s =
          ((L.foldl (sync_one_question r now wq) st).qs.find? (qlink r s)).map
            (fun q => q.id)) ∧
      ((L.foldl (sync_one_question r now wq) st).qs.map (fun q => q.id)).Nodup ∧
      (∀ q ∈ (L.foldl (sync_one_question r now wq) st).qs,
          q.id < (L.foldl (sync_one_question r now wq) st).next_id) ∧
      (∀ s, ((L.foldl (sync_one_question r now wq) st).qs.filter (qlink r s)).length ≤ 1)
  | [], st, _, hids, hlt, hlinks, hsmap => by
    refine ⟨?_, rfl, rfl, hsmap, hids, hlt, hlinks⟩
    show st.qs = st.qs.map (upd_question r now wq []) ++ new_questions r now wq st.qs st.next_id []
    rw [show upd_question r now wq [] = id from funext (upd_question_nil r now wq),
      List.map_id, new_questions, List.append_nil]
  | sq :: L', st, hL, hids, hlt, hlinks, hsmap => by
    obtain ⟨qs0, smap0, cnt0, next0⟩ := st
    simp only [List.map_cons, List.nodup_cons] at hL
    obtain ⟨hsqL, hLids⟩ := hL
    simp only at hids hlt hlinks hsmap ⊢
    rw [List.foldl_cons]
    have hfindL' : L'.find? (fun x => x.id == sq.id) = none := find?_id_none_of_not_mem hsqL
    have hfindcons : (sq :: L').find? (fun x => x.id == sq.id) = some sq := by
      rw [List.find?_cons, beq_self_eq_true]
    cases hfind : qs0.find? (qlink r sq.id) with
    | some t =>
      have htmem : t ∈ qs0 := List.mem_of_find?_eq_some hfind
      have htlink := qlink_iff.mp (List.find?_some hfind)
      have hdict : dict_get smap0 sq.id = some t.id := by
        rw [hsmap sq.id, hfind]; rfl
      have hfid : qs0.find? (fun q => q.id == t.id) = some t :=
        find?_key_of_nodup hids htmem
      have hle_id : (qs0.filter (fun q => q.id == t.id)).length ≤ 1 :=
        filter_key_len_le_one (fun q => q.id) qs0 hids t.id
      have hstep : sync_one_question r now wq ⟨qs0, smap0, cnt0, next0⟩ sq =
          ⟨qs0.map (fun q => if q.id == t.id then
              { q with question_text := sq.question_text, updated_at := now,
                       is_approved := wq.contains sq.id, tags := sq.tags } else q),
            smap0,
            (if t.is_approved != wq.contains sq.id || !(same_id_set t.tags sq.tags)
             then cnt0 + 1 else cnt0),
            next0⟩ := by
        unfold sync_one_question
        simp only [hdict, Option.some_bind, hfid]
        rw [update_first_eq_map hle_id]
      rw [hstep]
      set g1 : Question → Question := fun q => if q.id == t.id then
          { q with question_text := sq.question_text, updated_at := now,
                   is_approved := wq.contains sq.id, tags := sq.tags } else q with hg1
      have hg1_id : ∀ q, (g1 q).id = q.id := by
        intro q
        rw [hg1]
        cases hc : (q.id == t.id) <;> simp [hc]
      have hg1_frame : ∀ q, (g1 q).run_id = q.run_id ∧ (g1 q).staging_id = q.staging_id := by
        intro q
        rw [hg1]
        cases hc : (q.id == t.id) <;> simp [hc]
      have hg1_qlink : ∀ s q, qlink r s (g1 q) = qlink r s q := by
        intro s q
        unfold qlink
        rw [(hg1_frame q).1, (hg1_frame q).2]
      have hg1_fix : ∀ q ∈ qs0, q.id ≠ t.id → g1 q = q := by
        intro q _ hne
        have hb : (q.id == t.id) = false := by
          cases hc : (q.id == t.id) with
          | true => exact absurd (beq_iff_eq.mp hc) hne
          | false => rfl
        simp only [hg1, hb, Bool.false_eq_true, if_false]
      have hfind_map : ∀ s, s ≠ sq.id →
          (qs0.map g1).find? (qlink r s) = qs0.find? (qlink r s) := by
        intro s hne
        rw [List.find?_map g1 qs0]
        simp only [Function.comp_def]
        rw [find?_congr (fun q _ => hg1_qlink s q)]
        cases hfq : qs0.find? (qlink r s) with
        | none => rfl
        | some u =>
          have humem := List.mem_of_find?_eq_some hfq
          have hul := qlink_iff.mp (List.find?_some hfq)
          have hut : u.id ≠ t.id := by
            intro hid
            have huval : u = t := List.inj_on_of_nodup_map hids humem htmem hid
            rw [huval] at hul
            exact hne (by rw [htlink.2] at hul; exact (Option.some_inj.mp hul.2).symm)
          rw [show Option.map g1 (some u) = some (g1 u) from rfl, hg1_fix u humem hut]
      have hids1 : ((qs0.map g1).map (fun q => q.id)).Nodup := by
        rw [List.map_map,
          show ((fun (q : Question) => q.id) ∘ g1) = (fun q => q.id) from funext hg1_id]
        exact hids
      have hlt1 : ∀ q ∈ qs0.map g1, q.id < next0 := by
        intro q hq
        obtain ⟨q0, hq0, rfl⟩ := List.mem_map.mp hq
        rw [hg1_id]
        exact hlt q0 hq0
      have hlinks1 : ∀ s, ((qs0.map g1).filter (qlink r s)).length ≤ 1 := by
        intro s
        rw [List.map_filter g1 qs0, List.length_map]
        simp only [Function.comp_def]
        rw [List.filter_congr (fun q _ => hg1_qlink s q)]
        exact hlinks s
      have hsmap1 : ∀ s, dict_get smap0 s =
          ((qs0.map g1).find? (qlink r s)).map (fun q => q.id) := by
        intro s
        rw [List.find?_map g1 qs0]
        simp only [Function.comp_def]
        rw [find?_congr (fun q _ => hg1_qlink s q), hsmap s, Option.map_map]
        congr 1
        funext q
        exact (hg1_id q).symm
      obtain ⟨ihqs, ihcnt, ihnext, ihsmap, ihids2, ihlt2, ihlinks2⟩ :=
        question_pass_char r now wq L' ⟨qs0.map g1, smap0,
          (if t.is_approved != wq.contains sq.id || !(same_id_set t.tags sq.tags)
           then cnt0 + 1 else cnt0), next0⟩ hLids hids1 hlt1 hlinks1 hsmap1
      simp only [] at ihqs ihcnt ihnext ihsmap ihids2 ihlt2 ihlinks2
      have hmapeq : (qs0.map g1).map (upd_question r now wq L') =
          qs0.map (upd_question r now wq (sq :: L')) := by
        rw [List.map_map]
        apply List.map_congr_left
        intro q hq
        show upd_question r now wq L' (g1 q) = upd_question r now wq (sq :: L') q
        by_cases hc : q.id = t.id
        · have hqt : q = t := List.inj_on_of_nodup_map hids hq htmem hc
          subst hqt
          have hgt : g1 q =
              { q with question_text := sq.question_text, updated_at := now,
                       is_approved := wq.contains sq.id, tags := sq.tags } := by
            simp only [hg1, beq_self_eq_true, if_true]
          have hupdL : upd_question r now wq L'
              ({ q with question_text := sq.question_text, updated_at := now,
                        is_approved := wq.contains sq.id, tags := sq.tags }) =
              ({ q with question_text := sq.question_text, updated_at := now,
                        is_approved := wq.contains sq.id, tags := sq.tags }) :=
            upd_question_of_find_none r now wq htlink.2 hfindL'
          rw [hgt, hupdL, upd_question_of_link r now wq htlink.1 htlink.2 hfindcons]
        · rw [hg1_fix q hq hc]
          by_cases hr : q.run_id = r
          · cases hqs : q.staging_id with
            | none =>
              rw [upd_question_of_none r now wq L' hqs,
                upd_question_of_none r now wq (sq :: L') hqs]
            | some s =>
              have hsne : s ≠ sq.id := by
                intro he
                have heq : q = t := eq_of_filter_le_one (hlinks sq.id) hq htmem
                  (qlink_iff.mpr ⟨hr, by rw [hqs, he]⟩)
                  (qlink_iff.mpr ⟨htlink.1, htlink.2⟩)
                exact hc (by rw [heq])
              have hskip : (sq :: L').find? (fun x => x.id == s) =
                  L'.find? (fun x => x.id == s) := by
                rw [List.find?_cons]
                have hb : (sq.id == s) = false := by
                  cases hb : (sq.id == s) with
                  | true => exact absurd (beq_iff_eq.mp hb).symm hsne
                  | false => rfl
                rw [hb]
              cases hfL : L'.find? (fun x => x.id == s) with
              | some u =>
                rw [upd_question_of_link r now wq hr hqs hfL,
                  upd_question_of_link r now wq hr hqs (by rw [hskip]; exact hfL)]
              | none =>
                rw [upd_question_of_find_none r now wq hqs hfL,
                  upd_question_of_find_none r now wq hqs (by rw [hskip]; exact hfL)]
          · rw [upd_question_of_not_run r now wq L' hr,
              upd_question_of_not_run r now wq (sq :: L') hr]
      have hnew_eq : new_questions r now wq (qs0.map g1) next0 L' =
          new_questions r now wq qs0 next0 L' :=
        new_questions_congr (fun x _ => by
          rw [List.any_map,
            show (qlink r x.id ∘ g1) = qlink r x.id from funext (hg1_qlink x.id)])
      have hqcnt_eq : q_count r wq (qs0.map g1) L' = q_count r wq qs0 L' :=
        q_count_congr (fun x hx => hfind_map x.id
          (fun he => hsqL (he ▸ List.mem_map_of_mem (fun y => y.id) hx)))
      have hnewcons : new_questions r now wq qs0 next0 (sq :: L') =
          new_questions r now wq qs0 next0 L' := by
        rw [new_questions, if_pos (any_of_find?_some hfind)]
      refine ⟨?_, ?_, ?_, ihsmap, ihids2, ihlt2, ihlinks2⟩
      · rw [ihqs, hmapeq, hnew_eq, hnewcons]
      · rw [ihcnt, hqcnt_eq, q_count, hfind]
        simp only []
        cases hcond : (t.is_approved != wq.contains sq.id || !(same_id_set t.tags sq.tags)) with
        | true => rw [if_pos rfl, if_pos rfl]; omega
        | false =>
          rw [if_neg (by simp), if_neg (by simp)]
          omega
      · rw [ihnext, hnew_eq, hnewcons]
    | none =>
      have hdict : dict_get smap0 sq.id = none := by
        rw [hsmap sq.id, hfind]; rfl
      have hnoq : ∀ q ∈ qs0, ¬ qlink r sq.id q := List.find?_eq_none.mp hfind
      set newq : Question :=
        { id := next0, run_id := r, staging_id := some sq.id,
          question_text := sq.question_text, is_approved := wq.contains sq.id,
          tags := sq.tags, updated_at := now } with hnewq
      have hnewq_id : newq.id = next0 := by rw [hnewq]
      have hnewq_run : newq.run_id = r := by rw [hnewq]
      have hnewq_st : newq.staging_id = some sq.id := by rw [hnewq]
      have hql_new : ∀ s, qlink r s newq = (sq.id == s) := by
        intro s
        unfold qlink
        rw [hnewq_run, hnewq_st, beq_self_eq_true, Bool.true_and,
          show ((some sq.id == some s) = (sq.id == s)) from rfl]
      have hstep : sync_one_question r now wq ⟨qs0, smap0, cnt0, next0⟩ sq =
          ⟨qs0 ++ [newq], dict_set smap0 sq.id next0,
            (if wq.contains sq.id then cnt0 + 1 else cnt0), next0 + 1⟩ := by
        rw [hnewq]
        unfold sync_one_question
        simp only [hdict, Option.none_bind]
      rw [hstep]
      have hids1 : ((qs0 ++ [newq]).map (fun q => q.id)).Nodup := by
        have hnm : next0 ∉ qs0.map (fun q => q.id) := by
          intro hmem
          obtain ⟨q, hq, hq2⟩ := List.mem_map.mp hmem
          have := hlt q hq
          omega
        rw [List.map_append, List.nodup_append]
        refine ⟨hids, by simp, ?_⟩
        rw [show List.map (fun q => q.id) [newq] = [next0] by rw [List.map_cons, hnewq_id]; rfl,
          List.disjoint_singleton]
        exact hnm
      have hlt1 : ∀ q ∈ qs0 ++ [newq], q.id < next0 + 1 := by
        intro q hq
        rcases List.mem_append.mp hq with h | h
        · exact Nat.lt_succ_of_lt (hlt q h)
        · rw [List.mem_singleton.mp h, hnewq_id]
          omega
      have hlinks1 : ∀ s, ((qs0 ++ [newq]).filter (qlink r s)).length ≤ 1 := by
        intro s
        rw [List.filter_append]
        by_cases hs : s = sq.id
        · subst hs
          rw [List.filter_eq_nil_iff.mpr hnoq, List.nil_append]
          exact le_trans (List.length_filter_le _ _) (by simp)
        · have : List.filter (qlink r s) [newq] = [] := by
            rw [List.filter_eq_nil_iff]
            intro a ha
            rw [List.mem_singleton.mp ha, hql_new s]
            intro hb
            exact hs (beq_iff_eq.mp hb).symm
          rw [this, List.append_nil]
          exact hlinks s
      have hfind_new_none : ∀ s, ¬ s = sq.id → List.find? (qlink r s) [newq] = none := by
        intro s hs
        rw [List.find?_eq_none]
        intro a ha
        rw [List.mem_singleton.mp ha, hql_new s]
        intro hb
        exact hs (beq_iff_eq.mp hb).symm
      have hsmap1 : ∀ s, dict_get (dict_set smap0 sq.id next0) s =
          ((qs0 ++ [newq]).find? (qlink r s)).map (fun q => q.id) := by
        intro s
        by_cases hs : s = sq.id
        · subst hs
          rw [dict_get_set_same, List.find?_append, hfind, Option.none_or,
            List.find?_cons, hql_new sq.id, beq_self_eq_true]
          rw [show Option.map (fun q => q.id) (some newq) = some newq.id from rfl, hnewq_id]
        · rw [dict_get_set_other _ _ _ _ hs, hsmap s, List.find?_append,
            hfind_new_none s hs, Option.or_none]
      obtain ⟨ihqs, ihcnt, ihnext, ihsmap, ihids2, ihlt2, ihlinks2⟩ :=
        question_pass_char r now wq L' ⟨qs0 ++ [newq], dict_set smap0 sq.id next0,
          (if wq.contains sq.id then cnt0 + 1 else cnt0), next0 + 1⟩
          hLids hids1 hlt1 hlinks1 hsmap1
      simp only [] at ihqs ihcnt ihnext ihsmap ihids2 ihlt2 ihlinks2
      have hmap : (qs0 ++ [newq]).map (upd_question r now wq L') =
          qs0.map (upd_question r now wq (sq :: L')) ++ [newq] := by
        rw [List.map_append]
        congr 1
        · apply List.map_congr_left
          intro q hq
          by_cases hr : q.run_id = r
          · cases hqs : q.staging_id with
            | none =>
              rw [upd_question_of_none r now wq L' hqs,
                upd_question_of_none r now wq (sq :: L') hqs]
            | some s =>
              have hsne : s ≠ sq.id := by
                intro he
                exact hnoq q hq (qlink_iff.mpr ⟨hr, by rw [hqs, he]⟩)
              have hskip : (sq :: L').find? (fun x => x.id == s) =
                  L'.find? (fun x => x.id == s) := by
                rw [List.find?_cons]
                have hb : (sq.id == s) = false := by
                  cases hb : (sq.id == s) with
                  | true => exact absurd (beq_iff_eq.mp hb).symm hsne
                  | false => rfl
                rw [hb]
              cases hfL : L'.find? (fun x => x.id == s) with
              | some u =>
                rw [upd_question_of_link r now wq hr hqs hfL,
                  upd_question_of_link r now wq hr hqs (by rw [hskip]; exact hfL)]
              | none =>
                rw [upd_question_of_find_none r now wq hqs hfL,
                  upd_question_of_find_none r now wq hqs (by rw [hskip]; exact hfL)]
          · rw [upd_question_of_not_run r now wq L' hr,
              upd_question_of_not_run r now wq (sq :: L') hr]
        · rw [List.map_cons, List.map_nil,
            upd_question_of_find_none r now wq hnewq_st hfindL']
      have hnew : new_questions r now wq (qs0 ++ [newq]) (next0 + 1) L' =
          new_questions r now wq qs0 (next0 + 1) L' :=
        new_questions_congr (fun x hx => by
          rw [List.any_append]
          have hxne : ¬ x.id = sq.id := by
            intro he
            exact hsqL (he ▸ List.mem_map_of_mem (fun y => y.id) hx)
          have : [newq].any (qlink r x.id) = false := by
            rw [List.any_cons, List.any_nil, Bool.or_false, hql_new x.id]
            cases hb : (sq.id == x.id) with
            | true => exact absurd (beq_iff_eq.mp hb).symm hxne
            | false => rfl
          rw [this, Bool.or_false])
      have hqcnt : q_count r wq (qs0 ++ [newq]) L' = q_count r wq qs0 L' :=
        q_count_congr (fun x hx => by
          have hxne : ¬ x.id = sq.id := by
            intro he
            exact hsqL (he ▸ List.mem_map_of_mem (fun y => y.id) hx)
          rw [List.find?_append, hfind_new_none x.id hxne, Option.or_none])
      have hnewcons : new_questions r now wq qs0 next0 (sq :: L') =
          newq :: new_questions r now wq qs0 (next0 + 1) L' := by
        rw [new_questions,
          if_neg (by rw [any_of_find?_none hfind]; exact Bool.false_ne_true), hnewq]
      refine ⟨?_, ?_, ?_, ihsmap, ihids2, ihlt2, ihlinks2⟩
      · rw [ihqs, hmap, hnew, hnewcons, List.append_assoc]
        rfl
      · rw [ihcnt, hqcnt, q_count, hfind]
        simp only []
        cases hcond : wq.contains sq.id with
        | true => rw [if_pos rfl, if_pos rfl]; omega
        | false =>
          rw [if_neg (by simp), if_neg (by simp)]
          omega
      · rw [ihnext, hnew, hnewcons, List.length_cons]
        omega

/- ==================== Characterization of the step-3 loop ==================== -/

theorem alink_iff {r : String} {aid k : Nat} {b : Answer} :
    alink r aid k b = true ↔
      (b.run_id = r ∧ b.question_id = aid ∧ b.staging_id = some k) := by
  unfold alink
  rw [Bool.and_eq_true, Bool.and_eq_true, beq_iff_eq, beq_iff_eq, beq_iff_eq, and_assoc]

theorem upd_answer_nil (r : String) (now : Nat) (aq_ids : List Nat)
    (ell : Nat → Option Nat) (b : Answer) :
    upd_answer r now aq_ids ell [] b = b := rfl

theorem upd_answer_fields (r : String) (now : Nat) (aq_ids : List Nat)
    (ell : Nat → Option Nat) (SA : List AnswerStaging) (b : Answer) :
    (upd_answer r now aq_ids ell SA b).id = b.id ∧
    (upd_answer r now aq_ids ell SA b).run_id = b.run_id ∧
    (upd_answer r now aq_ids ell SA b).question_id = b.question_id ∧
    (upd_answer r now aq_ids ell SA b).staging_id = b.staging_id := by
  unfold upd_answer
  split
  · exact ⟨rfl, rfl, rfl, rfl⟩
  · exact ⟨rfl, rfl, rfl, rfl⟩

theorem upd_answer_cons_skip (r : String) (now : Nat) (aq_ids : List Nat)
    (ell : Nat → Option Nat) {sa : AnswerStaging} (SA : List AnswerStaging)
    (b : Answer) (h : ans_target aq_ids ell sa = none) :
    upd_answer r now aq_ids ell (sa :: SA) b = upd_answer r now aq_ids ell SA b := by
  unfold upd_answer
  rw [List.find?_cons]
  simp only [h]

theorem upd_answer_cons_nomatch (r : String) (now : Nat) (aq_ids : List Nat)
    (ell : Nat → Option Nat) {sa : AnswerStaging} (SA : List AnswerStaging)
    {b : Answer} {aid : Nat} (h : ans_target aq_ids ell sa = some aid)
    (hb : alink r aid sa.id b = false) :
    upd_answer r now aq_ids ell (sa :: SA) b = upd_answer r now aq_ids ell SA b := by
  unfold upd_answer
  rw [List.find?_cons]
  simp only [h, hb]

theorem upd_answer_cons_match (r : String) (now : Nat) (aq_ids : List Nat)
    (ell : Nat → Option Nat) {sa : AnswerStaging} (SA : List AnswerStaging)
    {b : Answer} {aid : Nat} (h : ans_target aq_ids ell sa = some aid)
    (hb : alink r aid sa.id b = true) :
    upd_answer r now aq_ids ell (sa :: SA) b =
      { b with answer_text := sa.answer_text, updated_at := now } := by
  unfold upd_answer
  rw [List.find?_cons]
  simp only [h, hb]

theorem new_answers_congr {r : String} {now : Nat} {aq_ids : List Nat}
    {ell : Nat → Option Nat} {old0 old1 : List Answer} :
    ∀ {SA : List AnswerStaging} {n : Nat},
      (∀ sa ∈ SA, ∀ aid, ans_target aq_ids ell sa = some aid →
        old0.any (alink r aid sa.id) = old1.any (alink r aid sa.id)) →
      new_answers r now aq_ids ell old0 n SA = new_answers r now aq_ids ell old1 n SA
  | [], _, _ => rfl
  | sa :: SA, n, h => by
    rw [new_answers, new_answers]
    cases ht : ans_target aq_ids ell sa with
    | none =>
      simp only []
      exact new_answers_congr (fun x hx => h x (by simp [hx]))
    | some aid =>
      simp only []
      rw [← h sa (by simp) aid ht]
      cases ha : old0.any (alink r aid sa.id) with
      | true =>
        simp only [if_pos rfl]
        exact new_answers_congr (fun x hx => h x (by simp [hx]))
      | false =>
        rw [if_neg (by simp), if_neg (by simp),
          new_answers_congr (fun x hx => h x (by simp [hx]))]

theorem ans_target_some_iff {aq_ids : List Nat} {ell : Nat → Option Nat}
    {sa : AnswerStaging} {aid : Nat} :
    ans_target aq_ids ell sa = some aid ↔
      (aq_ids.contains sa.question_id = true ∧
       ell sa.question_id = some aid ∧ (aid == 0) = false) := by
  unfold ans_target
  cases hc : aq_ids.contains sa.question_id with
  | false =>
    rw [if_neg Bool.false_ne_true]
    simp
  | true =>
    rw [if_pos rfl]
    cases hd : ell sa.question_id with
    | none => simp
    | some a2 =>
      simp only []
      cases hz : (a2 == 0) with
      | true =>
        rw [if_pos rfl]
        constructor
        · intro h
          exact absurd h (by simp)
        · rintro ⟨_, h2, h3⟩
          have ha : a2 = aid := Option.some_inj.mp h2
          rw [← ha, hz] at h3
          exact absurd h3 (by simp)
      | false =>
        rw [if_neg Bool.false_ne_true]
        constructor
        · intro h
          have ha : a2 = aid := Option.some_inj.mp h
          exact ⟨trivial, h, by rw [← ha]; exact hz⟩
        · rintro ⟨_, h2, _⟩
          exact h2

/-- Characterization of the step-3 loop of the sync engine: pre-existing
published answers are rewritten pointwise, rows for publishable staging answers
without a keyed target are created with sequential ids. -/
theorem answer_pass_char (r : String) (now : Nat) (aq_ids : List Nat)
    (smap : List (Nat × Nat)) :
    ∀ (SA : List AnswerStaging) (st : APass),
      (SA.map (fun a => a.id)).Nodup →
      (∀ aid k, (st.old.filter (alink r aid k)).length ≤ 1) →
      (SA.foldl (sync_one_answer r now aq_ids smap) st).old =
          st.old.map (upd_answer r now aq_ids (dict_get smap) SA) ∧
      (SA.foldl (sync_one_answer r now aq_ids smap) st).created =
          st.created ++ new_answers r now aq_ids (dict_get smap) st.old st.next_id SA ∧
      (SA.foldl (sync_one_answer r now aq_ids smap) st).next_id =
          st.next_id + (new_answers r now aq_ids (dict_get smap) st.old st.next_id SA).length
  | [], st, _, _ => by
    rw [List.foldl_nil]
    refine ⟨?_, ?_, ?_⟩
    · rw [show upd_answer r now aq_ids (dict_get smap) [] = id from
        funext (upd_answer_nil r now aq_ids (dict_get smap)), List.map_id]
    · rw [new_answers, List.append_nil]
    · rw [new_answers]
      rfl
  | sa :: SA', st, hSA, hkeys => by
    obtain ⟨old0, created0, next0⟩ := st
    simp only at hkeys ⊢
    simp only [List.map_cons, List.nodup_cons] at hSA
    obtain ⟨hsaSA, hSAids⟩ := hSA
    rw [List.foldl_cons]
    cases htgt : ans_target aq_ids (dict_get smap) sa with
    | none =>
      have hstep : sync_one_answer r now aq_ids smap ⟨old0, created0, next0⟩ sa =
          ⟨old0, created0, next0⟩ := by
        unfold sync_one_answer
        cases hc : aq_ids.contains sa.question_id with
        | false => rfl
        | true =>
          rw [if_neg (by simp)]
          cases hd : dict_get smap sa.question_id with
          | none => rfl
          | some aid =>
            simp only []
            cases haid : (aid == 0) with
            | true => rfl
            | false =>
              exfalso
              have hcontra : ans_target aq_ids (dict_get smap) sa = some aid :=
                ans_target_some_iff.mpr ⟨hc, hd, haid⟩
              rw [htgt] at hcontra
              exact absurd hcontra (by simp)
      rw [hstep]
      obtain ⟨iho, ihc, ihn⟩ := answer_pass_char r now aq_ids smap SA'
        ⟨old0, created0, next0⟩ hSAids hkeys
      simp only at iho ihc ihn
      have hupd : old0.map (upd_answer r now aq_ids (dict_get smap) SA') =
          old0.map (upd_answer r now aq_ids (dict_get smap) (sa :: SA')) :=
        List.map_congr_left (fun b _ =>
          (upd_answer_cons_skip r now aq_ids (dict_get smap) SA' b htgt).symm)
      have hnew : new_answers r now aq_ids (dict_get smap) old0 next0 (sa :: SA') =
          new_answers r now aq_ids (dict_get smap) old0 next0 SA' := by
        rw [new_answers]
        simp only [htgt]
      exact ⟨by rw [iho, hupd], by rw [ihc, hnew], by rw [ihn, hnew]⟩
    | some aid =>
      obtain ⟨hc, hd, hz⟩ := ans_target_some_iff.mp htgt
      cases hfb : old0.find? (alink r aid sa.id) with
      | some b0 =>
        have hstep : sync_one_answer r now aq_ids smap ⟨old0, created0, next0⟩ sa =
            ⟨update_first (alink r aid sa.id)
                (fun b => { b with answer_text := sa.answer_text, updated_at := now })
                old0,
              created0, next0⟩ := by
          unfold sync_one_answer
          simp only [hc, Bool.not_true, Bool.false_eq_true, if_false, hd, hz, hfb]
        rw [hstep]
        set g2 : Answer → Answer := fun b => if alink r aid sa.id b then
          { b with answer_text := sa.answer_text, updated_at := now } else b with hg2
        have hmap2 : update_first (alink r aid sa.id)
            (fun b => { b with answer_text := sa.answer_text, updated_at := now }) old0 =
            old0.map g2 := update_first_eq_map (hkeys aid sa.id)
        rw [hmap2]
        have hg2_fields : ∀ b, (g2 b).run_id = b.run_id ∧
            (g2 b).question_id = b.question_id ∧ (g2 b).staging_id = b.staging_id := by
          intro b
          rw [hg2]
          cases hcc : alink r aid sa.id b <;> simp [hcc]
        have hg2_alink : ∀ a k b, alink r a k (g2 b) = alink r a k b := by
          intro a k b
          unfold alink
          rw [(hg2_fields b).1, (hg2_fields b).2.1, (hg2_fields b).2.2]
        have hkeys2 : ∀ a k, ((old0.map g2).filter (alink r a k)).length ≤ 1 := by
          intro a k
          rw [List.map_filter g2 old0, List.length_map]
          simp only [Function.comp_def]
          rw [List.filter_congr (fun b _ => hg2_alink a k b)]
          exact hkeys a k
        obtain ⟨iho, ihc, ihn⟩ := answer_pass_char r now aq_ids smap SA'
          ⟨old0.map g2, created0, next0⟩ hSAids hkeys2
        simp only at iho ihc ihn
        have hanyg2 : ∀ x ∈ SA', ∀ a, ans_target aq_ids (dict_get smap) x = some a →
            (old0.map g2).any (alink r a x.id) = old0.any (alink r a x.id) := by
          intro x _ a _
          rw [List.any_map]
          simp only [Function.comp_def]
          rw [show (fun b => alink r a x.id (g2 b)) = alink r a x.id from
            funext (fun b => hg2_alink a x.id b)]
        refine ⟨?_, ?_, ?_⟩
        · rw [iho, List.map_map]
          apply List.map_congr_left
          intro b hb
          show upd_answer r now aq_ids (dict_get smap) SA' (g2 b) =
            upd_answer r now aq_ids (dict_get smap) (sa :: SA') b
          cases hcc : alink r aid sa.id b with
          | true =>
            have hgb : g2 b = { b with answer_text := sa.answer_text, updated_at := now } := by
              simp only [hg2, hcc, if_true]
            rw [hgb, upd_answer_cons_match r now aq_ids (dict_get smap) SA' htgt hcc]
            have hnone : SA'.find? (fun x =>
                match ans_target aq_ids (dict_get smap) x with
                | some a => alink r a x.id
                    { b with answer_text := sa.answer_text, updated_at := now }
                | none => false) = none := by
              rw [List.find?_eq_none]
              intro x hx
              cases ht2 : ans_target aq_ids (dict_get smap) x with
              | none => simp [ht2]
              | some a2 =>
                simp only [ht2]
                intro hcon
                have hst2 := (alink_iff.mp hcon).2.2
                simp only at hst2
                have hxid : x.id = sa.id := Option.some_inj.mp
                  (by rw [← hst2, (alink_iff.mp hcc).2.2])
                exact hsaSA (hxid ▸ List.mem_map_of_mem (fun y => y.id) hx)
            unfold upd_answer
            rw [hnone]
          | false =>
            have hgb : g2 b = b := by
              simp only [hg2, hcc, Bool.false_eq_true, if_false]
            rw [hgb, upd_answer_cons_nomatch r now aq_ids (dict_get smap) SA' htgt hcc]
        · rw [ihc, new_answers]
          simp only [htgt]
          rw [if_pos (any_of_find?_some hfb), new_answers_congr hanyg2]
        · rw [ihn, new_answers]
          simp only [htgt]
          rw [if_pos (any_of_find?_some hfb), new_answers_congr hanyg2]
      | none =>
        set newb : Answer :=
          { id := next0, run_id := r, question_id := aid,
            staging_id := some sa.id, answer_text := sa.answer_text,
            updated_at := now } with hnewb
        have hstep : sync_one_answer r now aq_ids smap ⟨old0, created0, next0⟩ sa =
            ⟨old0, created0 ++ [newb], next0 + 1⟩ := by
          rw [hnewb]
          unfold sync_one_answer
          simp only [hc, Bool.not_true, Bool.false_eq_true, if_false, hd, hz, hfb]
        rw [hstep]
        have hnob : ∀ b ∈ old0, ¬ alink r aid sa.id b := List.find?_eq_none.mp hfb
        obtain ⟨iho, ihc, ihn⟩ := answer_pass_char r now aq_ids smap SA'
          ⟨old0, created0 ++ [newb], next0 + 1⟩ hSAids hkeys
        simp only at iho ihc ihn
        have hnewcons : new_answers r now aq_ids (dict_get smap) old0 next0 (sa :: SA') =
            newb :: new_answers r now aq_ids (dict_get smap) old0 (next0 + 1) SA' := by
          rw [new_answers]
          simp only [htgt]
          rw [if_neg (by rw [any_of_find?_none hfb]; exact Bool.false_ne_true), hnewb]
        refine ⟨?_, ?_, ?_⟩
        · rw [iho]
          apply List.map_congr_left
          intro b hb
          have hcc : alink r aid sa.id b = false := by
            cases hccc : alink r aid sa.id b with
            | true => exact absurd hccc (hnob b hb)
            | false => rfl
          exact (upd_answer_cons_nomatch r now aq_ids (dict_get smap) SA' htgt hcc).symm
        · rw [ihc, hnewcons, List.append_assoc]
          rfl
        · rw [ihn, hnewcons, List.length_cons]
          omega
/- ==================== Specification of one full sync pass ==================== -/

/-- Extensional description of `sync_core` on a well-formed database: staging
tables and tag table are untouched, the run is stamped, the published
questions become `qs_final`, the published answers become `answers_final`, and
`questions_synced` is `sync_cnt`. -/
theorem sync_core_spec (db : DB) (r : String) (now : Nat) (h : sync_wf db r) :
    (sync_core db r now).1.questions = qs_final db r now ∧
    (sync_core db r now).1.answers = answers_final db r now ∧
    (sync_core db r now).2 = sync_cnt db r now ∧
    (sync_core db r now).1.runs = update_first (fun ru => ru.id == r)
      (fun ru => { ru with last_sync_at := some now, updated_at := now }) db.runs ∧
    (sync_core db r now).1.question_staging = db.question_staging ∧
    (sync_core db r now).1.answer_staging = db.answer_staging ∧
    (sync_core db r now).1.tags = db.tags ∧
    (sync_core db r now).1.next_question_id = db.next_question_id +
      (new_questions r now (sync_wq db r) db.questions db.next_question_id
        (approved_questions_of db r)).length ∧
    (sync_core db r now).1.next_answer_id = db.next_answer_id +
      (answers_new db r now).length := by
  obtain ⟨hpk, hlk⟩ := h
  obtain ⟨hsqn, hsqp, hsan, hsap, hqn, hqlt, hq1⟩ := hpk
  have hLn : ((approved_questions_of db r).map (fun q => q.id)).Nodup :=
    List.Sublist.nodup (List.Sublist.map _ (List.filter_sublist _)) hsqn
  have hSAn : ((approved_answers_of db r).map (fun a => a.id)).Nodup :=
    List.Sublist.nodup (List.Sublist.map _ (List.filter_sublist _)) hsan
  obtain ⟨hq_qs, hq_cnt, hq_next, hq_smap, hq_ids, hq_lt, hq_links⟩ :=
    question_pass_char r now (sync_wq db r) (approved_questions_of db r)
      ⟨db.questions, initial_map db r, 0, db.next_question_id⟩ hLn hqn
      (fun q hq => (hqlt q hq).2) (fun s => links_filter_q_le_one hlk s)
      (fun s => dict_get_initial_map_of_links hlk s)
  simp only at hq_qs hq_cnt hq_next hq_smap
  obtain ⟨ha_old, ha_created, ha_next⟩ :=
    answer_pass_char r now (sync_aq db r)
      ((approved_questions_of db r).foldl (sync_one_question r now (sync_wq db r))
        ⟨db.questions, initial_map db r, 0, db.next_question_id⟩).smap
      (approved_answers_of db r) ⟨db.answers, [], db.next_answer_id⟩ hSAn
      (fun aid k => links_filter_a_le_one hlk aid k)
  simp only at ha_old ha_created ha_next
  have hell : dict_get ((approved_questions_of db r).foldl
      (sync_one_question r now (sync_wq db r))
      ⟨db.questions, initial_map db r, 0, db.next_question_id⟩).smap =
      publish_map db r now := by
    funext s
    rw [hq_smap s, hq_qs]
    rfl
  rw [hell] at ha_old ha_created ha_next
  unfold sync_core
  simp only []
  rw [show (List.map (fun q => q.id) (approved_questions_of db r)) = sync_aq db r from rfl,
    show (List.map (fun a => a.id) (approved_answers_of db r)) = sync_aa db r from rfl,
    show ((approved_answers_of db r).filterMap (fun a =>
      if (sync_aq db r).contains a.question_id then some a.question_id else none)) =
      sync_wq db r from rfl]
  refine ⟨?ga, ?gb, ?gc, by trivial, by trivial, by trivial, by trivial, ?gd, ?ge⟩
  case ga =>
    unfold demote_pass
    simp only []
    rw [hq_qs]
    rfl
  case gb =>
    unfold demote_pass
    simp only []
    rw [ha_old, ha_created, hq_qs, List.nil_append]
    rfl
  case gc =>
    unfold demote_pass
    simp only []
    rw [hq_cnt, hq_qs, Nat.zero_add]
    rfl
  case gd =>
    rw [hq_next]
  case ge =>
    rw [ha_next]
    rfl

/- ==================== Post-sync facts ==================== -/

theorem contains_iff_mem {l : List Nat} {s : Nat} : l.contains s = true ↔ s ∈ l := by
  rw [List.contains_eq_any_beq, List.any_eq_true]
  constructor
  · rintro ⟨x, hx, hb⟩
    rw [beq_iff_eq.mp hb]
    exact hx
  · intro hs
    exact ⟨s, hs, beq_self_eq_true s⟩

theorem sync_aq_iff {db : DB} {r : String} {s : Nat} :
    (sync_aq db r).contains s = true ↔ staging_q_approved db r s := by
  rw [contains_iff_mem]
  unfold sync_aq staging_q_approved approved_questions_of
  constructor
  · intro hs
    obtain ⟨sq, hsq, hid⟩ := List.mem_map.mp hs
    obtain ⟨hmem, hflt⟩ := List.mem_filter.mp hsq
    rw [Bool.and_eq_true, beq_iff_eq, beq_iff_eq] at hflt
    exact ⟨sq, hmem, hid, hflt.1, hflt.2⟩
  · rintro ⟨sq, hmem, hid, hrun, happ⟩
    exact List.mem_map.mpr ⟨sq, List.mem_filter.mpr ⟨hmem, by
      rw [Bool.and_eq_true, beq_iff_eq, beq_iff_eq]; exact ⟨hrun, happ⟩⟩, hid⟩

theorem sync_aa_iff {db : DB} {r : String} {k : Nat} :
    (sync_aa db r).contains k = true ↔
      ∃ sa ∈ db.answer_staging, sa.id = k ∧ sa.run_id = r ∧ sa.is_approved = some true := by
  rw [contains_iff_mem]
  unfold sync_aa approved_answers_of
  constructor
  · intro hs
    obtain ⟨sa, hsa, hid⟩ := List.mem_map.mp hs
    obtain ⟨hmem, hflt⟩ := List.mem_filter.mp hsa
    rw [Bool.and_eq_true, beq_iff_eq, beq_iff_eq] at hflt
    exact ⟨sa, hmem, hid, hflt.1, hflt.2⟩
  · rintro ⟨sa, hmem, hid, hrun, happ⟩
    exact List.mem_map.mpr ⟨sa, List.mem_filter.mpr ⟨hmem, by
      rw [Bool.and_eq_true, beq_iff_eq, beq_iff_eq]; exact ⟨hrun, happ⟩⟩, hid⟩

theorem sync_wq_iff {db : DB} {r : String} {s : Nat} :
    (sync_wq db r).contains s = true ↔
      (staging_q_approved db r s ∧ staging_q_has_approved_answer db r s) := by
  rw [contains_iff_mem]
  unfold sync_wq
  rw [List.mem_filterMap]
  constructor
  · rintro ⟨sa, hsa, hif⟩
    have hc : (sync_aq db r).contains sa.question_id = true := by
      cases hcc : (sync_aq db r).contains sa.question_id with
      | true => rfl
      | false => rw [hcc] at hif; simp at hif
    rw [hc] at hif
    simp at hif
    subst hif
    obtain ⟨hmem, hflt⟩ := List.mem_filter.mp hsa
    rw [Bool.and_eq_true, beq_iff_eq, beq_iff_eq] at hflt
    exact ⟨sync_aq_iff.mp hc, sa, hmem, hflt.1, hflt.2, rfl⟩
  · rintro ⟨happr, sa, hmem, hrun, happ, hqid⟩
    refine ⟨sa, List.mem_filter.mpr ⟨hmem, by
      rw [Bool.and_eq_true, beq_iff_eq, beq_iff_eq]; exact ⟨hrun, happ⟩⟩, ?_⟩
    rw [hqid, if_pos (sync_aq_iff.mpr happr)]

theorem demote_one_fields (r : String) (aq wq : List Nat) (now : Nat) (q : Question) :
    (demote_one r aq wq now q).1.id = q.id ∧
    (demote_one r aq wq now q).1.run_id = q.run_id ∧
    (demote_one r aq wq now q).1.staging_id = q.staging_id ∧
    (demote_one r aq wq now q).1.question_text = q.question_text ∧
    (demote_one r aq wq now q).1.tags = q.tags := by
  unfold demote_one
  split
  · split
    · split
      · split
        · exact ⟨rfl, rfl, rfl, rfl, rfl⟩
        · split
          · exact ⟨rfl, rfl, rfl, rfl, rfl⟩
          · exact ⟨rfl, rfl, rfl, rfl, rfl⟩
      · exact ⟨rfl, rfl, rfl, rfl, rfl⟩
    · exact ⟨rfl, rfl, rfl, rfl, rfl⟩
  · exact ⟨rfl, rfl, rfl, rfl, rfl⟩

theorem demote_one_of_not_run (r : String) (aq wq : List Nat) (now : Nat)
    {q : Question} (h : ¬ q.run_id = r) : demote_one r aq wq now q = (q, 0) := by
  unfold demote_one
  rw [if_neg (by simp [h])]

theorem demote_one_of_none (r : String) (aq wq : List Nat) (now : Nat)
    {q : Question} (h : q.staging_id = none) : demote_one r aq wq now q = (q, 0) := by
  unfold demote_one
  split
  · rw [h]
  · rfl

theorem demote_one_of_zero (r : String) (aq wq : List Nat) (now : Nat)
    {q : Question} (h : q.staging_id = some 0) : demote_one r aq wq now q = (q, 0) := by
  unfold demote_one
  split
  · rw [h]
    simp
  · rfl

theorem demote_one_of_live (r : String) (aq wq : List Nat) (now : Nat)
    {q : Question} {s : Nat} (hs : q.staging_id = some s)
    (haq : aq.contains s = true) (hwq : wq.contains s = true) :
    demote_one r aq wq now q = (q, 0) := by
  unfold demote_one
  split
  · rw [hs]
    simp only [haq, hwq]
    cases hz : (s != 0) with
    | false => simp
    | true => simp
  · rfl

theorem demote_one_of_stale (r : String) (aq wq : List Nat) (now : Nat)
    {q : Question} {s : Nat} (hr : q.run_id = r) (hs : q.staging_id = some s)
    (hz : s ≠ 0) (hst : aq.contains s = false ∨ wq.contains s = false) :
    demote_one r aq wq now q =
      ({ q with is_approved := false, updated_at := now },
        if q.is_approved then 1 else 0) := by
  have hzz : (s != 0) = true := bne_iff_ne.mpr hz
  unfold demote_one
  rw [if_pos (by simp [hr]), hs]
  simp only []
  rw [if_pos hzz]
  rcases hst with h1 | h1
  · rw [if_pos (by rw [h1]; rfl)]
  · cases h2 : aq.contains s with
    | false => rw [if_pos (by rfl)]
    | true =>
      rw [if_neg (by simp), if_pos (by rw [h1]; rfl)]

/- ==================== Structure of the created rows ==================== -/

theorem qlink_of_fields {r : String} {s : Nat} {f : Question → Question}
    (hf : ∀ q, (f q).run_id = q.run_id ∧ (f q).staging_id = q.staging_id) (q : Question) :
    qlink r s (f q) = qlink r s q := by
  unfold qlink
  rw [(hf q).1, (hf q).2]

theorem find?_qlink_map {r : String} {s : Nat} {f : Question → Question}
    (hf : ∀ q, (f q).run_id = q.run_id ∧ (f q).staging_id = q.staging_id)
    (l : List Question) :
    (l.map f).find? (qlink r s) = Option.map f (l.find? (qlink r s)) := by
  rw [List.find?_map f l]
  simp only [Function.comp_def]
  rw [find?_congr (fun q _ => qlink_of_fields hf q)]

theorem any_qlink_map {r : String} {s : Nat} {f : Question → Question}
    (hf : ∀ q, (f q).run_id = q.run_id ∧ (f q).staging_id = q.staging_id)
    (l : List Question) :
    (l.map f).any (qlink r s) = l.any (qlink r s) := by
  rw [List.any_map]
  simp only [Function.comp_def]
  rw [show (fun q => qlink r s (f q)) = qlink r s from funext (qlink_of_fields hf)]

theorem new_questions_mem {r : String} {now : Nat} {wq : List Nat} :
    ∀ {qs0 : List Question} {n : Nat} {L : List QuestionStaging} {q : Question},
      q ∈ new_questions r now wq qs0 n L →
      ∃ sq ∈ L, q.run_id = r ∧ q.staging_id = some sq.id ∧
        q.question_text = sq.question_text ∧ q.is_approved = wq.contains sq.id ∧
        q.tags = sq.tags ∧ q.updated_at = now ∧ n ≤ q.id ∧
        qs0.any (qlink r sq.id) = false
  | _, _, [], q, hq => by rw [new_questions] at hq; simp at hq
  | qs0, n, sq :: L, q, hq => by
    rw [new_questions] at hq
    cases ha : qs0.any (qlink r sq.id) with
    | true =>
      rw [ha, if_pos rfl] at hq
      obtain ⟨x, hx, rest⟩ := new_questions_mem hq
      exact ⟨x, by simp [hx], rest⟩
    | false =>
      rw [ha, if_neg (by simp)] at hq
      rcases List.mem_cons.mp hq with rfl | htail
      · exact ⟨sq, by simp, rfl, rfl, rfl, rfl, rfl, rfl, le_refl n, ha⟩
      · obtain ⟨x, hx, h1, h2, h3, h4, h5, h6, h7, h8⟩ := new_questions_mem htail
        exact ⟨x, by simp [hx], h1, h2, h3, h4, h5, h6, le_trans (Nat.le_succ n) h7, h8⟩

theorem new_questions_id_lt {r : String} {now : Nat} {wq : List Nat} :
    ∀ {qs0 : List Question} {n : Nat} {L : List QuestionStaging} {q : Question},
      q ∈ new_questions r now wq qs0 n L →
      q.id < n + (new_questions r now wq qs0 n L).length
  | _, _, [], q, hq => by rw [new_questions] at hq; simp at hq
  | qs0, n, sq :: L, q, hq => by
    rw [new_questions] at hq ⊢
    cases ha : qs0.any (qlink r sq.id) with
    | true =>
      rw [ha, if_pos rfl] at hq
      rw [if_pos rfl]
      exact new_questions_id_lt hq
    | false =>
      rw [ha, if_neg (by simp)] at hq
      rw [if_neg (by simp), List.length_cons]
      rcases List.mem_cons.mp hq with rfl | htail
      · simp only []
        omega
      · have hrec := new_questions_id_lt htail
        omega

theorem new_questions_ids_nodup {r : String} {now : Nat} {wq : List Nat} :
    ∀ {qs0 : List Question} {n : Nat} {L : List QuestionStaging},
      ((new_questions r now wq qs0 n L).map (fun q => q.id)).Nodup
  | _, _, [] => by rw [new_questions]; simp
  | qs0, n, sq :: L => by
    rw [new_questions]
    cases ha : qs0.any (qlink r sq.id) with
    | true =>
      rw [if_pos rfl]
      exact new_questions_ids_nodup
    | false =>
      rw [if_neg (by simp), List.map_cons, List.nodup_cons]
      refine ⟨?_, new_questions_ids_nodup⟩
      intro hmem
      obtain ⟨x, hx, hid⟩ := List.mem_map.mp hmem
      obtain ⟨_, _, _, _, _, _, _, _, hge, _⟩ := new_questions_mem hx
      simp only at hid
      omega

theorem new_questions_nil_of_any {r : String} {now : Nat} {wq : List Nat} :
    ∀ {qs0 : List Question} {n : Nat} {L : List QuestionStaging},
      (∀ sq ∈ L, qs0.any (qlink r sq.id) = true) →
      new_questions r now wq qs0 n L = []
  | _, _, [], _ => rfl
  | qs0, n, sq :: L, h => by
    rw [new_questions, if_pos (by rw [h sq (by simp)])]
    exact new_questions_nil_of_any (fun x hx => h x (by simp [hx]))

theorem new_questions_find {r : String} {now : Nat} {wq : List Nat} :
    ∀ {qs0 : List Question} {n : Nat} {L : List QuestionStaging} {sq : QuestionStaging},
      (L.map (fun x => x.id)).Nodup → sq ∈ L → qs0.any (qlink r sq.id) = false →
      ∃ t, (new_questions r now wq qs0 n L).find? (qlink r sq.id) = some t ∧
        t.run_id = r ∧ t.staging_id = some sq.id ∧
        t.question_text = sq.question_text ∧ t.is_approved = wq.contains sq.id ∧
        t.tags = sq.tags ∧ t.updated_at = now ∧ n ≤ t.id
  | _, _, [], sq, _, hsq, _ => by simp at hsq
  | qs0, n, sq2 :: L, sq, hLn, hsq, hno => by
    rw [List.map_cons, List.nodup_cons] at hLn
    obtain ⟨hhead, htailn⟩ := hLn
    rw [new_questions]
    rcases List.mem_cons.mp hsq with rfl | htail
    · rw [if_neg (by rw [hno]; simp), List.find?_cons]
      have hql : qlink r sq.id
          { id := n, run_id := r, staging_id := some sq.id,
            question_text := sq.question_text, is_approved := wq.contains sq.id,
            tags := sq.tags, updated_at := now } = true := by
        rw [qlink_iff]
        exact ⟨rfl, rfl⟩
      rw [hql]
      exact ⟨_, rfl, rfl, rfl, rfl, rfl, rfl, rfl, le_refl n⟩
    · have hne : sq2.id ≠ sq.id := by
        intro he
        exact hhead (he ▸ List.mem_map_of_mem (fun x => x.id) htail)
      cases ha : qs0.any (qlink r sq2.id) with
      | true =>
        rw [if_pos rfl]
        exact new_questions_find htailn htail hno
      | false =>
        rw [if_neg (by simp), List.find?_cons]
        have hqlf : qlink r sq.id
            { id := n, run_id := r, staging_id := some sq2.id,
              question_text := sq2.question_text, is_approved := wq.contains sq2.id,
              tags := sq2.tags, updated_at := now } = false := by
          cases hc : qlink r sq.id
              { id := n, run_id := r, staging_id := some sq2.id,
                question_text := sq2.question_text, is_approved := wq.contains sq2.id,
                tags := sq2.tags, updated_at := now } with
          | false => rfl
          | true =>
            have hcc := (qlink_iff.mp hc).2
            simp only at hcc
            exact absurd (Option.some_inj.mp hcc) hne
        rw [hqlf]
        obtain ⟨t, ht, rest⟩ := new_questions_find (n := n + 1) htailn htail hno
        exact ⟨t, ht, rest.1, rest.2.1, rest.2.2.1, rest.2.2.2.1, rest.2.2.2.2.1,
          rest.2.2.2.2.2.1, le_trans (Nat.le_succ n) rest.2.2.2.2.2.2⟩

theorem alink_of_afields {r : String} {aid k : Nat} {f : Answer → Answer}
    (hf : ∀ b, (f b).run_id = b.run_id ∧ (f b).question_id = b.question_id ∧
      (f b).staging_id = b.staging_id) (b : Answer) :
    alink r aid k (f b) = alink r aid k b := by
  unfold alink
  rw [(hf b).1, (hf b).2.1, (hf b).2.2]

theorem new_answers_mem {r : String} {now : Nat} {aq : List Nat} {ell : Nat → Option Nat} :
    ∀ {old0 : List Answer} {n : Nat} {SA : List AnswerStaging} {b : Answer},
      b ∈ new_answers r now aq ell old0 n SA →
      ∃ sa ∈ SA, ∃ aid, ans_target aq ell sa = some aid ∧ b.run_id = r ∧
        b.question_id = aid ∧ b.staging_id = some sa.id ∧
        b.answer_text = sa.answer_text ∧ b.updated_at = now ∧ n ≤ b.id ∧
        old0.any (alink r aid sa.id) = false
  | _, _, [], b, hb => by rw [new_answers] at hb; simp at hb
  | old0, n, sa :: SA, b, hb => by
    rw [new_answers] at hb
    cases ht : ans_target aq ell sa with
    | none =>
      rw [ht] at hb
      simp only [] at hb
      obtain ⟨x, hx, rest⟩ := new_answers_mem hb
      exact ⟨x, by simp [hx], rest⟩
    | some aid =>
      rw [ht] at hb
      simp only [] at hb
      cases ha : old0.any (alink r aid sa.id) with
      | true =>
        rw [ha, if_pos rfl] at hb
        obtain ⟨x, hx, rest⟩ := new_answers_mem hb
        exact ⟨x, by simp [hx], rest⟩
      | false =>
        rw [ha, if_neg (by simp)] at hb
        rcases List.mem_cons.mp hb with rfl | htail
        · exact ⟨sa, by simp, aid, ht, rfl, rfl, rfl, rfl, rfl, le_refl n, ha⟩
        · obtain ⟨x, hx, aid2, rest⟩ := new_answers_mem htail
          exact ⟨x, by simp [hx], aid2, rest.1, rest.2.1, rest.2.2.1, rest.2.2.2.1,
            rest.2.2.2.2.1, rest.2.2.2.2.2.1,
            le_trans (Nat.le_succ n) rest.2.2.2.2.2.2.1, rest.2.2.2.2.2.2.2⟩

theorem new_answers_nil {r : String} {now : Nat} {aq : List Nat} {ell : Nat → Option Nat} :
    ∀ {old0 : List Answer} {n : Nat} {SA : List AnswerStaging},
      (∀ sa ∈ SA, ∀ aid, ans_target aq ell sa = some aid →
        old0.any (alink r aid sa.id) = true) →
      new_answers r now aq ell old0 n SA = []
  | _, _, [], _ => rfl
  | old0, n, sa :: SA, h => by
    rw [new_answers]
    cases ht : ans_target aq ell sa with
    | none =>
      simp only []
      exact new_answers_nil (fun x hx => h x (by simp [hx]))
    | some aid =>
      simp only []
      rw [if_pos (by rw [h sa (by simp) aid ht])]
      exact new_answers_nil (fun x hx => h x (by simp [hx]))

theorem new_answers_find {r : String} {now : Nat} {aq : List Nat} {ell : Nat → Option Nat} :
    ∀ {old0 : List Answer} {n : Nat} {SA : List AnswerStaging} {sa : AnswerStaging}
      {aid : Nat},
      (SA.map (fun a => a.id)).Nodup → sa ∈ SA → ans_target aq ell sa = some aid →
      old0.any (alink r aid sa.id) = false →
      ∃ b, (new_answers r now aq ell old0 n SA).find? (alink r aid sa.id) = some b ∧
        b.run_id = r ∧ b.question_id = aid ∧ b.staging_id = some sa.id ∧
        b.answer_text = sa.answer_text
  | _, _, [], sa, _, _, hsa, _, _ => by simp at hsa
  | old0, n, sa2 :: SA, sa, aid, hSAn, hsa, htgt, hno => by
    rw [List.map_cons, List.nodup_cons] at hSAn
    obtain ⟨hhead, htailn⟩ := hSAn
    rw [new_answers]
    rcases List.mem_cons.mp hsa with rfl | htail
    · rw [htgt]
      simp only []
      rw [if_neg (by rw [hno]; simp), List.find?_cons]
      have hql : alink r aid sa.id
          { id := n, run_id := r, question_id := aid, staging_id := some sa.id,
            answer_text := sa.answer_text, updated_at := now } = true := by
        rw [alink_iff]
        exact ⟨rfl, rfl, rfl⟩
      rw [hql]
      exact ⟨_, rfl, rfl, rfl, rfl, rfl⟩
    · have hne : sa2.id ≠ sa.id := by
        intro he
        exact hhead (he ▸ List.mem_map_of_mem (fun x => x.id) htail)
      cases ht2 : ans_target aq ell sa2 with
      | none =>
        simp only []
        exact new_answers_find htailn htail htgt hno
      | some aid2 =>
        simp only []
        cases ha : old0.any (alink r aid2 sa2.id) with
        | true =>
          rw [if_pos rfl]
          exact new_answers_find htailn htail htgt hno
        | false =>
          rw [if_neg (by simp), List.find?_cons]
          have hqlf : alink r aid sa.id
              { id := n, run_id := r, question_id := aid2, staging_id := some sa2.id,
                answer_text := sa2.answer_text, updated_at := now } = false := by
            cases hc : alink r aid sa.id
                { id := n, run_id := r, question_id := aid2, staging_id := some sa2.id,
                  answer_text := sa2.answer_text, updated_at := now } with
            | false => rfl
            | true =>
              have hcc := (alink_iff.mp hc).2.2
              simp only at hcc
              exact absurd (Option.some_inj.mp hcc) hne
          rw [hqlf]
          exact new_answers_find htailn htail htgt hno

theorem new_answers_keys {r : String} {now : Nat} {aq : List Nat}
    {ell : Nat → Option Nat} :
    ∀ {old0 : List Answer} {n : Nat} {SA : List AnswerStaging},
      (SA.map (fun a => a.id)).Nodup →
      ((new_answers r now aq ell old0 n SA).map
        (fun b => (b.question_id, b.staging_id.getD 0))).Nodup
  | _, _, [], _ => by rw [new_answers]; simp
  | old0, n, sa :: SA, hSAn => by
    rw [List.map_cons, List.nodup_cons] at hSAn
    obtain ⟨hhead, htailn⟩ := hSAn
    rw [new_answers]
    cases ht : ans_target aq ell sa with
    | none =>
      simp only []
      exact new_answers_keys htailn
    | some aid =>
      simp only []
      cases ha : old0.any (alink r aid sa.id) with
      | true =>
        rw [if_pos rfl]
        exact new_answers_keys htailn
      | false =>
        rw [if_neg (by simp), List.map_cons, List.nodup_cons]
        refine ⟨?_, new_answers_keys htailn⟩
        intro hmem
        obtain ⟨x, hx, hpair⟩ := List.mem_map.mp hmem
        obtain ⟨sa2, hsa2, aid2, _, _, _, hst, _⟩ := new_answers_mem hx
        simp only at hpair
        have : x.staging_id.getD 0 = sa.id := (Prod.ext_iff.mp hpair).2
        rw [hst] at this
        simp only [Option.getD_some] at this
        exact hhead (this ▸ List.mem_map_of_mem (fun a => a.id) hsa2)

theorem find?_append_some {α : Type} {p : α → Bool} {x : α} :
    ∀ {l₁ : List α} (l₂ : List α), l₁.find? p = some x → (l₁ ++ l₂).find? p = some x
  | [], _, h => by simp at h
  | a :: l₁, l₂, h => by
    rw [List.cons_append, List.find?_cons]
    rw [List.find?_cons] at h
    cases hpa : p a with
    | true => rw [hpa] at h; rw [h]
    | false =>
      rw [hpa] at h
      exact find?_append_some l₂ h

theorem find?_append_none {α : Type} {p : α → Bool} :
    ∀ {l₁ : List α} (l₂ : List α), l₁.find? p = none →
      (l₁ ++ l₂).find? p = l₂.find? p
  | [], _, _ => rfl
  | a :: l₁, l₂, h => by
    rw [List.cons_append, List.find?_cons]
    rw [List.find?_cons] at h
    cases hpa : p a with
    | true => rw [hpa] at h; exact absurd h (by simp)
    | false =>
      rw [hpa] at h
      exact find?_append_none l₂ h

theorem find?_of_mem_filter_le_one {α : Type} {p : α → Bool} {l : List α} {x : α}
    (hx : x ∈ l) (hpx : p x = true) (hle : (l.filter p).length ≤ 1) :
    l.find? p = some x := by
  cases hf : l.filter p with
  | nil =>
    exact absurd (List.mem_filter.mpr ⟨hx, hpx⟩) (by rw [hf]; simp)
  | cons y t =>
    have hy : y ∈ l.filter p := by rw [hf]; simp
    have hyx : y = x := eq_of_filter_le_one hle (List.mem_filter.mp hy).1 hx
      (List.mem_filter.mp hy).2 hpx
    rw [find?_eq_head?_filter, hf, hyx]
    rfl

theorem find?_eq_some_of_unique {α : Type} {p : α → Bool} {x : α} :
    ∀ {l : List α}, x ∈ l → p x = true → (∀ y ∈ l, p y = true → y = x) →
      l.find? p = some x
  | [], hx, _, _ => by simp at hx
  | a :: l, hx, hpx, huniq => by
    rw [List.find?_cons]
    cases hpa : p a with
    | true =>
      rw [huniq a (by simp) hpa]
    | false =>
      rcases List.mem_cons.mp hx with rfl | hxl
      · rw [hpa] at hpx; exact absurd hpx (by simp)
      · exact find?_eq_some_of_unique hxl hpx (fun y hy => huniq y (by simp [hy]))

theorem same_id_set_refl (l : List Nat) : same_id_set l l = true := by
  unfold same_id_set
  rw [Bool.and_eq_true]
  refine ⟨?_, ?_⟩ <;>
  · rw [List.all_eq_true]
    intro i hi
    exact contains_iff_mem.mpr hi

theorem filter_map_swap {α β : Type} (f : α → β) (p : β → Bool) :
    ∀ (l : List α), (l.map f).filter p = (l.filter (fun x => p (f x))).map f
  | [] => rfl
  | x :: l => by
    rw [List.map_cons, List.filter_cons, List.filter_cons]
    cases h : p (f x) with
    | true =>
      rw [if_pos rfl, if_pos rfl, List.map_cons, filter_map_swap f p l]
    | false =>
      rw [if_neg (by simp), if_neg (by simp), filter_map_swap f p l]

theorem new_questions_keys {r : String} {now : Nat} {wq : List Nat} :
    ∀ {qs0 : List Question} {n : Nat} {L : List QuestionStaging},
      (L.map (fun x => x.id)).Nodup →
      ((new_questions r now wq qs0 n L).map (fun q => q.staging_id.getD 0)).Nodup
  | _, _, [], _ => by rw [new_questions]; simp
  | qs0, n, sq :: L, hLn => by
    rw [List.map_cons, List.nodup_cons] at hLn
    obtain ⟨hhead, htailn⟩ := hLn
    rw [new_questions]
    cases ha : qs0.any (qlink r sq.id) with
    | true =>
      rw [if_pos rfl]
      exact new_questions_keys htailn
    | false =>
      rw [if_neg (by simp), List.map_cons, List.nodup_cons]
      refine ⟨?_, new_questions_keys htailn⟩
      intro hmem
      obtain ⟨x, hx, hkey⟩ := List.mem_map.mp hmem
      obtain ⟨sq2, hsq2, _, hst, _⟩ := new_questions_mem hx
      rw [hst] at hkey
      simp only [Option.getD_some] at hkey
      exact hhead (hkey ▸ List.mem_map_of_mem (fun x => x.id) hsq2)

theorem sync_target_after (db : DB) (r : String) (now : Nat) (h : sync_wf db r)
    {sq : QuestionStaging} (hsq : sq ∈ approved_questions_of db r) :
    ∃ t, (qs_after db r now).find? (qlink r sq.id) = some t ∧
      t.run_id = r ∧ t.staging_id = some sq.id ∧
      t.question_text = sq.question_text ∧ t.tags = sq.tags ∧
      t.is_approved = (sync_wq db r).contains sq.id ∧ 1 ≤ t.id := by
  obtain ⟨⟨hsqn, hsqp, hsan, hsap, hqn, hqlt, hq1⟩, hlk⟩ := h
  have hLn : ((approved_questions_of db r).map (fun q => q.id)).Nodup :=
    List.Sublist.nodup (List.Sublist.map _ (List.filter_sublist _)) hsqn
  have hfindL : (approved_questions_of db r).find? (fun x => x.id == sq.id) = some sq :=
    find?_key_of_nodup hLn hsq
  have hfields : ∀ q,
      (upd_question r now (sync_wq db r) (approved_questions_of db r) q).run_id =
        q.run_id ∧
      (upd_question r now (sync_wq db r) (approved_questions_of db r) q).staging_id =
        q.staging_id :=
    fun q => ⟨(upd_question_fields _ _ _ _ q).2.1, (upd_question_fields _ _ _ _ q).2.2⟩
  unfold qs_after
  cases hf : db.questions.find? (qlink r sq.id) with
  | some p =>
    obtain ⟨hpr, hps⟩ := qlink_iff.mp (List.find?_some hf)
    have hmap : (db.questions.map
        (upd_question r now (sync_wq db r) (approved_questions_of db r))).find?
          (qlink r sq.id) =
        some (upd_question r now (sync_wq db r) (approved_questions_of db r) p) := by
      rw [find?_qlink_map hfields, hf]
      rfl
    refine ⟨_, find?_append_some _ hmap, ?_⟩
    rw [upd_question_of_link r now _ hpr hps hfindL]
    exact ⟨hpr, hps, rfl, rfl, rfl, (hqlt p (List.mem_of_find?_eq_some hf)).1⟩
  | none =>
    have hmap : (db.questions.map
        (upd_question r now (sync_wq db r) (approved_questions_of db r))).find?
          (qlink r sq.id) = none := by
      rw [find?_qlink_map hfields, hf]
      rfl
    rw [find?_append_none _ hmap]
    have hany : db.questions.any (qlink r sq.id) = false := any_of_find?_none hf
    obtain ⟨t, hfind, hrun, hstag, htext, hflag, htags, hupd, hge⟩ :=
      new_questions_find hLn hsq hany
    exact ⟨t, hfind, hrun, hstag, htext, htags, hflag, le_trans hq1 hge⟩

theorem sync_target (db : DB) (r : String) (now : Nat) (h : sync_wf db r)
    {sq : QuestionStaging} (hsq : sq ∈ approved_questions_of db r) :
    ∃ t, (qs_final db r now).find? (qlink r sq.id) = some t ∧
      t.run_id = r ∧ t.staging_id = some sq.id ∧
      t.question_text = sq.question_text ∧ t.tags = sq.tags ∧
      t.is_approved = (sync_wq db r).contains sq.id ∧ 1 ≤ t.id ∧
      publish_map db r now sq.id = some t.id := by
  obtain ⟨t0, hf0, hrun0, hst0, htext0, htags0, hflag0, hid0⟩ :=
    sync_target_after db r now h hsq
  have hzero : sq.id ≠ 0 := by
    have := h.1.2.1 sq (List.mem_of_mem_filter hsq)
    omega
  have haq : (sync_aq db r).contains sq.id = true :=
    contains_iff_mem.mpr (List.mem_map_of_mem _ hsq)
  have hdf : ∀ q,
      ((demote_one r (sync_aq db r) (sync_wq db r) now q).1).run_id = q.run_id ∧
      ((demote_one r (sync_aq db r) (sync_wq db r) now q).1).staging_id =
        q.staging_id :=
    fun q => ⟨(demote_one_fields _ _ _ _ q).2.1, (demote_one_fields _ _ _ _ q).2.2.1⟩
  have hpm : publish_map db r now sq.id = some t0.id := by
    unfold publish_map
    rw [hf0]
    rfl
  unfold qs_final
  rw [find?_qlink_map hdf, hf0]
  cases hwq : (sync_wq db r).contains sq.id with
  | true =>
    have hd : demote_one r (sync_aq db r) (sync_wq db r) now t0 = (t0, 0) :=
      demote_one_of_live r _ _ now hst0 haq hwq
    refine ⟨t0, ?_, hrun0, hst0, htext0, htags0, ?_, hid0, hpm⟩
    · show some (demote_one r (sync_aq db r) (sync_wq db r) now t0).1 = some t0
      rw [hd]
    · rw [hflag0, hwq]
  | false =>
    have hd : demote_one r (sync_aq db r) (sync_wq db r) now t0 =
        ({ t0 with is_approved := false, updated_at := now },
          if t0.is_approved then 1 else 0) :=
      demote_one_of_stale r _ _ now hrun0 hst0 hzero (Or.inr hwq)
    refine ⟨{ t0 with is_approved := false, updated_at := now }, ?_, ?_⟩
    · show some (demote_one r (sync_aq db r) (sync_wq db r) now t0).1 =
        some { t0 with is_approved := false, updated_at := now }
      rw [hd]
    · exact ⟨hrun0, hst0, htext0, htags0, rfl, hid0, hpm⟩

theorem qs_final_mem {db : DB} {r : String} {now : Nat} {q : Question}
    (hq : q ∈ qs_final db r now) :
    ∃ x ∈ qs_after db r now,
      q = (demote_one r (sync_aq db r) (sync_wq db r) now x).1 := by
  unfold qs_final at hq
  obtain ⟨x, hxmem, hdx⟩ := List.mem_map.mp hq
  exact ⟨x, hxmem, hdx.symm⟩

theorem qs_final_stale_flag {db : DB} {r : String} {now : Nat} {q : Question}
    (hq : q ∈ qs_final db r now) (hrun : q.run_id = r) {s : Nat}
    (hs : q.staging_id = some s) (hz : s ≠ 0)
    (hst : (sync_aq db r).contains s = false ∨ (sync_wq db r).contains s = false) :
    q.is_approved = false := by
  obtain ⟨x, hxmem, hdx⟩ := qs_final_mem hq
  have hfx := demote_one_fields r (sync_aq db r) (sync_wq db r) now x
  have hxr : x.run_id = r := by rw [← hfx.2.1, ← hdx]; exact hrun
  have hxs : x.staging_id = some s := by rw [← hfx.2.2.1, ← hdx]; exact hs
  have hstale := demote_one_of_stale r (sync_aq db r) (sync_wq db r) now hxr hxs hz hst
  rw [hstale] at hdx
  rw [hdx]

theorem qs_final_ids (db : DB) (r : String) (now : Nat) :
    (qs_final db r now).map (fun q => q.id) =
      db.questions.map (fun q => q.id) ++
      (new_questions r now (sync_wq db r) db.questions db.next_question_id
        (approved_questions_of db r)).map (fun q => q.id) := by
  unfold qs_final qs_after
  rw [List.map_append, List.map_map, List.map_append, List.map_map, List.map_map]
  congr 1
  · refine List.map_congr_left (fun p _ => ?_)
    simp only [Function.comp_def]
    rw [(demote_one_fields _ _ _ _ _).1, (upd_question_fields _ _ _ _ _).1]
  · refine List.map_congr_left (fun t _ => ?_)
    simp only [Function.comp_def]
    rw [(demote_one_fields _ _ _ _ _).1]

theorem qs_final_pk (db : DB) (r : String) (now : Nat) (h : pk_wf db) :
    ((qs_final db r now).map (fun q => q.id)).Nodup ∧
    (∀ q ∈ qs_final db r now, 1 ≤ q.id ∧
      q.id < db.next_question_id + (new_questions r now (sync_wq db r) db.questions
        db.next_question_id (approved_questions_of db r)).length) := by
  obtain ⟨hsqn, hsqp, hsan, hsap, hqn, hqlt, hq1⟩ := h
  constructor
  · rw [qs_final_ids]
    refine List.Nodup.append hqn new_questions_ids_nodup ?_
    intro a ha hb
    obtain ⟨p, hp, hpid⟩ := List.mem_map.mp ha
    obtain ⟨t, ht, htid⟩ := List.mem_map.mp hb
    have h1 := (hqlt p hp).2
    obtain ⟨_, _, _, _, _, _, _, _, hge, _⟩ := new_questions_mem ht
    omega
  · intro q hq
    have hq' : q.id ∈ (qs_final db r now).map (fun q => q.id) :=
      List.mem_map_of_mem _ hq
    rw [qs_final_ids] at hq'
    rcases List.mem_append.mp hq' with hold | hnew
    · obtain ⟨p, hp, hpid⟩ := List.mem_map.mp hold
      have h1 := hqlt p hp
      omega
    · obtain ⟨t, ht, htid⟩ := List.mem_map.mp hnew
      obtain ⟨_, _, _, _, _, _, _, _, hge, _⟩ := new_questions_mem ht
      have hlt := new_questions_id_lt ht
      omega

theorem keys_filter_map (r : String) (f : Question → Question)
    (hf : ∀ q, (f q).run_id = q.run_id ∧ (f q).staging_id = q.staging_id)
    (l : List Question) :
    ((l.map f).filter (fun q => q.run_id == r && q.staging_id.isSome)).map
      (fun q => q.staging_id.getD 0) =
    (l.filter (fun q => q.run_id == r && q.staging_id.isSome)).map
      (fun q => q.staging_id.getD 0) := by
  rw [filter_map_swap, List.map_map,
    List.filter_congr (fun x _ => by rw [(hf x).1, (hf x).2])]
  refine List.map_congr_left (fun x _ => ?_)
  simp only [Function.comp_def]
  rw [(hf x).2]

theorem akeys_filter_map (r : String) (f : Answer → Answer)
    (hf : ∀ b, (f b).run_id = b.run_id ∧ (f b).question_id = b.question_id ∧
      (f b).staging_id = b.staging_id)
    (l : List Answer) :
    ((l.map f).filter (fun b => b.run_id == r && b.staging_id.isSome)).map
      (fun b => (b.question_id, b.staging_id.getD 0)) =
    (l.filter (fun b => b.run_id == r && b.staging_id.isSome)).map
      (fun b => (b.question_id, b.staging_id.getD 0)) := by
  rw [filter_map_swap, List.map_map,
    List.filter_congr (fun x _ => by rw [(hf x).1, (hf x).2.2])]
  refine List.map_congr_left (fun x _ => ?_)
  simp only [Function.comp_def]
  rw [(hf x).2.1, (hf x).2.2]

theorem qs_final_keys (db : DB) (r : String) (now : Nat) (h : sync_wf db r) :
    (((qs_final db r now).filter (fun q => q.run_id == r && q.staging_id.isSome)).map
      (fun q => q.staging_id.getD 0)).Nodup := by
  obtain ⟨⟨hsqn, hsqp, hsan, hsap, hqn, hqlt, hq1⟩, hlk⟩ := h
  have hLn : ((approved_questions_of db r).map (fun q => q.id)).Nodup :=
    List.Sublist.nodup (List.Sublist.map _ (List.filter_sublist _)) hsqn
  have hcf : ∀ x : Question,
      ((demote_one r (sync_aq db r) (sync_wq db r) now
        (upd_question r now (sync_wq db r) (approved_questions_of db r) x)).1).run_id =
        x.run_id ∧
      ((demote_one r (sync_aq db r) (sync_wq db r) now
        (upd_question r now (sync_wq db r) (approved_questions_of db r) x)).1).staging_id =
        x.staging_id := by
    intro x
    constructor
    · rw [(demote_one_fields _ _ _ _ _).2.1, (upd_question_fields _ _ _ _ _).2.1]
    · rw [(demote_one_fields _ _ _ _ _).2.2.1, (upd_question_fields _ _ _ _ _).2.2]
  unfold qs_final qs_after
  rw [List.map_append, List.map_map]
  simp only [Function.comp_def]
  rw [List.filter_append, List.map_append]
  refine List.Nodup.append ?_ ?_ ?_
  · rw [keys_filter_map r _ hcf db.questions]
    exact hlk.1
  · have hall : ∀ t ∈ (new_questions r now (sync_wq db r) db.questions
        db.next_question_id (approved_questions_of db r)).map
          (fun q => (demote_one r (sync_aq db r) (sync_wq db r) now q).1),
        (t.run_id == r && t.staging_id.isSome) = true := by
      intro t ht
      obtain ⟨t0, ht0, hteq⟩ := List.mem_map.mp ht
      obtain ⟨sq, hsq, hrun, hst, _⟩ := new_questions_mem ht0
      have hfd := demote_one_fields r (sync_aq db r) (sync_wq db r) now t0
      rw [← hteq, Bool.and_eq_true]
      refine ⟨?_, ?_⟩
      · rw [hfd.2.1, hrun]
        simp
      · rw [hfd.2.2.1, hst]
        rfl
    rw [List.filter_eq_self.mpr hall, List.map_map]
    have hkeq : ∀ t0 ∈ new_questions r now (sync_wq db r) db.questions
        db.next_question_id (approved_questions_of db r),
        ((fun q => q.staging_id.getD 0) ∘
          (fun q => (demote_one r (sync_aq db r) (sync_wq db r) now q).1)) t0 =
        t0.staging_id.getD 0 := by
      intro t0 _
      simp only [Function.comp_def]
      rw [(demote_one_fields _ _ _ _ _).2.2.1]
    rw [List.map_congr_left hkeq]
    exact new_questions_keys hLn
  · intro a ha hb
    obtain ⟨x, hx, hxa⟩ := List.mem_map.mp ha
    obtain ⟨hxm, hxp⟩ := List.mem_filter.mp hx
    obtain ⟨x0, hx0, hxeq⟩ := List.mem_map.mp hxm
    rw [Bool.and_eq_true] at hxp
    have hxrun : x0.run_id = r := by
      have := hxp.1
      rw [← hxeq, (hcf x0).1] at this
      exact beq_iff_eq.mp this
    have hxsome : x0.staging_id.isSome = true := by
      have := hxp.2
      rwa [← hxeq, (hcf x0).2] at this
    have hxkey : x0.staging_id.getD 0 = a := by
      rw [← hxa, ← hxeq, (hcf x0).2]
    have hxst : x0.staging_id = some a := by
      cases hos : x0.staging_id with
      | none => rw [hos] at hxsome; simp at hxsome
      | some v =>
        rw [hos] at hxkey
        simp only [Option.getD_some] at hxkey
        rw [hxkey]
    have hany : db.questions.any (qlink r a) = true := by
      rw [List.any_eq_true]
      refine ⟨x0, hx0, ?_⟩
      rw [qlink_iff]
      exact ⟨hxrun, hxst⟩
    obtain ⟨y, hy, hya⟩ := List.mem_map.mp hb
    obtain ⟨hym, _⟩ := List.mem_filter.mp hy
    obtain ⟨t, ht, hyeq⟩ := List.mem_map.mp hym
    obtain ⟨sq, hsq, _, hst, _, _, _, _, _, hanyf⟩ := new_questions_mem ht
    have hyst : y.staging_id = some sq.id := by
      rw [← hyeq, (demote_one_fields _ _ _ _ _).2.2.1, hst]
    have hsqa : sq.id = a := by
      rw [← hya, hyst]
      rfl
    rw [hsqa, hany] at hanyf
    exact absurd hanyf (by simp)

theorem answers_final_keys (db : DB) (r : String) (now : Nat) (h : sync_wf db r) :
    (((answers_final db r now).filter
      (fun b => b.run_id == r && b.staging_id.isSome)).map
      (fun b => (b.question_id, b.staging_id.getD 0))).Nodup := by
  obtain ⟨⟨hsqn, hsqp, hsan, hsap, hqn, hqlt, hq1⟩, hlk⟩ := h
  have hSAn : ((approved_answers_of db r).map (fun a => a.id)).Nodup :=
    List.Sublist.nodup (List.Sublist.map _ (List.filter_sublist _)) hsan
  have hfu : ∀ b, (upd_answer r now (sync_aq db r) (publish_map db r now)
      (approved_answers_of db r) b).run_id = b.run_id ∧
      (upd_answer r now (sync_aq db r) (publish_map db r now)
        (approved_answers_of db r) b).question_id = b.question_id ∧
      (upd_answer r now (sync_aq db r) (publish_map db r now)
        (approved_answers_of db r) b).staging_id = b.staging_id :=
    fun b => ⟨(upd_answer_fields _ _ _ _ _ b).2.1, (upd_answer_fields _ _ _ _ _ b).2.2.1,
      (upd_answer_fields _ _ _ _ _ b).2.2.2⟩
  unfold answers_final
  rw [List.filter_append, List.map_append]
  refine List.Nodup.append ?_ ?_ ?_
  · have hsub : List.Sublist (delete_pass r (sync_aq db r) (sync_aa db r)
        (qs_final db r now) (answers_upd db r now)) (answers_upd db r now) := by
      unfold delete_pass
      exact List.filter_sublist _
    have hnod : (((answers_upd db r now).filter
        (fun b => b.run_id == r && b.staging_id.isSome)).map
        (fun b => (b.question_id, b.staging_id.getD 0))).Nodup := by
      unfold answers_upd
      rw [akeys_filter_map r _ hfu db.answers]
      exact hlk.2
    exact List.Sublist.nodup (List.Sublist.map _ (List.Sublist.filter _ hsub)) hnod
  · have hall : ∀ b ∈ answers_new db r now,
        (b.run_id == r && b.staging_id.isSome) = true := by
      intro b hb
      obtain ⟨sa, hsa, aid, _, hrun, _, hst, _⟩ := new_answers_mem hb
      rw [Bool.and_eq_true]
      refine ⟨by rw [hrun]; simp, by rw [hst]; rfl⟩
    rw [List.filter_eq_self.mpr hall]
    exact new_answers_keys hSAn
  · intro a ha hb
    obtain ⟨x, hx, hxa⟩ := List.mem_map.mp ha
    obtain ⟨hxm, hxp⟩ := List.mem_filter.mp hx
    have hxup : x ∈ answers_upd db r now := List.mem_of_mem_filter hxm
    obtain ⟨x0, hx0, hxeq⟩ := List.mem_map.mp hxup
    rw [Bool.and_eq_true] at hxp
    have hxrun : x0.run_id = r := by
      have := hxp.1
      rw [← hxeq, (hfu x0).1] at this
      exact beq_iff_eq.mp this
    have hxsome : x0.staging_id.isSome = true := by
      have := hxp.2
      rwa [← hxeq, (hfu x0).2.2] at this
    obtain ⟨y, hy, hya⟩ := List.mem_map.mp hb
    obtain ⟨hym, _⟩ := List.mem_filter.mp hy
    obtain ⟨sa, hsa, aid, _, hyrun, hyqid, hyst, _, _, _, hno⟩ := new_answers_mem hym
    have hkey : (x0.question_id, x0.staging_id.getD 0) = (aid, sa.id) := by
      rw [show (x0.question_id, x0.staging_id.getD 0) =
          (x.question_id, x.staging_id.getD 0) from by
        rw [← hxeq, (hfu x0).2.1, (hfu x0).2.2], hxa, ← hya, hyqid, hyst]
      rfl
    rw [Prod.mk.injEq] at hkey
    have hxst : x0.staging_id = some sa.id := by
      cases hos : x0.staging_id with
      | none => rw [hos] at hxsome; simp at hxsome
      | some v =>
        have := hkey.2
        rw [hos] at this
        simp only [Option.getD_some] at this
        rw [this]
    have hany : db.answers.any (alink r aid sa.id) = true := by
      rw [List.any_eq_true]
      refine ⟨x0, hx0, ?_⟩
      rw [alink_iff]
      exact ⟨hxrun, hkey.1, hxst⟩
    rw [hany] at hno
    exact absurd hno (by simp)

theorem sync_preserves_wf (db : DB) (r : String) (now : Nat) (h : sync_wf db r) :
    sync_wf (sync_core db r now).1 r := by
  obtain ⟨hqs, has, hcnt, hruns, hstq, hsta, htags, hnq, hna⟩ := sync_core_spec db r now h
  constructor
  · refine ⟨?_, ?_, ?_, ?_, ?_, ?_, ?_⟩
    · rw [hstq]; exact h.1.1
    · rw [hstq]; exact h.1.2.1
    · rw [hsta]; exact h.1.2.2.1
    · rw [hsta]; exact h.1.2.2.2.1
    · rw [hqs]; exact (qs_final_pk db r now h.1).1
    · rw [hqs, hnq]; exact (qs_final_pk db r now h.1).2
    · rw [hnq]
      have := h.1.2.2.2.2.2.2
      omega
  · exact ⟨by rw [hqs]; exact qs_final_keys db r now h,
      by rw [has]; exact answers_final_keys db r now h⟩

theorem eq_of_nodup_key {α β : Type} [BEq β] [LawfulBEq β] {g : α → β} {l : List α}
    (h : (l.map g).Nodup) {x y : α} (hx : x ∈ l) (hy : y ∈ l) (he : g x = g y) :
    x = y := by
  have h1 := find?_key_of_nodup h hx
  have h2 := find?_key_of_nodup h hy
  rw [he] at h1
  rw [h1] at h2
  exact Option.some_inj.mp h2

theorem upd_answer_of_find (r : String) (now : Nat) (aq_ids : List Nat)
    (ell : Nat → Option Nat) {SA : List AnswerStaging} {b : Answer}
    {sa : AnswerStaging}
    (hfind : SA.find? (fun x =>
      match ans_target aq_ids ell x with
      | some aid => alink r aid x.id b
      | none => false) = some sa) :
    upd_answer r now aq_ids ell SA b =
      { b with answer_text := sa.answer_text, updated_at := now } := by
  unfold upd_answer
  rw [hfind]

theorem sync_answer_published (db : DB) (r : String) (now : Nat) (h : sync_wf db r)
    {sa : AnswerStaging} (hsa : sa ∈ approved_answers_of db r)
    (haq : (sync_aq db r).contains sa.question_id = true) :
    ∃ aid b, publish_map db r now sa.question_id = some aid ∧ 1 ≤ aid ∧
      b ∈ answers_final db r now ∧ b.run_id = r ∧ b.question_id = aid ∧
      b.staging_id = some sa.id ∧ b.answer_text = sa.answer_text := by
  have hSAn : ((approved_answers_of db r).map (fun a => a.id)).Nodup :=
    List.Sublist.nodup (List.Sublist.map _ (List.filter_sublist _)) h.1.2.2.1
  obtain ⟨sq, hsqmem, hsqid⟩ := List.mem_map.mp (contains_iff_mem.mp haq)
  obtain ⟨t, htf, htrun, htst, _, _, _, htid, hpm⟩ := sync_target db r now h hsqmem
  rw [hsqid] at hpm
  have htgt : ans_target (sync_aq db r) (publish_map db r now) sa = some t.id := by
    unfold ans_target
    rw [if_pos haq, hpm]
    simp only []
    rw [if_neg (by simp [beq_eq_false_iff_ne.mpr (show t.id ≠ 0 by omega)])]
  cases hany : db.answers.any (alink r t.id sa.id) with
  | false =>
    obtain ⟨b, hbf, hbrun, hbqid, hbst, hbtext⟩ :=
      @new_answers_find r now (sync_aq db r) (publish_map db r now) db.answers
        db.next_answer_id (approved_answers_of db r) sa t.id
        hSAn hsa htgt hany
    refine ⟨t.id, b, hpm, by omega, ?_, hbrun, hbqid, hbst, hbtext⟩
    show b ∈ delete_pass r (sync_aq db r) (sync_aa db r) (qs_final db r now)
      (answers_upd db r now) ++ answers_new db r now
    refine List.mem_append.mpr (Or.inr ?_)
    exact List.mem_of_find?_eq_some hbf
  | true =>
    obtain ⟨b0, hb0, hlnk⟩ := List.any_eq_true.mp hany
    obtain ⟨hb0r, hb0q, hb0s⟩ := alink_iff.mp hlnk
    have hpred : (fun x =>
        match ans_target (sync_aq db r) (publish_map db r now) x with
        | some aid => alink r aid x.id b0
        | none => false) sa = true := by
      simp only [htgt]
      exact hlnk
    have huniq : ∀ y ∈ approved_answers_of db r,
        (fun x =>
          match ans_target (sync_aq db r) (publish_map db r now) x with
          | some aid => alink r aid x.id b0
          | none => false) y = true → y = sa := by
      intro y hy hpy
      simp only [] at hpy
      cases hty : ans_target (sync_aq db r) (publish_map db r now) y with
      | none => rw [hty] at hpy; simp at hpy
      | some aidy =>
        rw [hty] at hpy
        simp only [] at hpy
        have hys := (alink_iff.mp hpy).2.2
        refine eq_of_nodup_key hSAn hy hsa ?_
        rw [hys] at hb0s
        exact Option.some_inj.mp hb0s
    have hfind := find?_eq_some_of_unique hsa hpred huniq
    have hupd := upd_answer_of_find r now (sync_aq db r) (publish_map db r now) hfind
    have hbmem : { b0 with answer_text := sa.answer_text, updated_at := now } ∈
        answers_upd db r now := by
      unfold answers_upd
      rw [← hupd]
      exact List.mem_map_of_mem _ hb0
    have hsaid : sa.id ≠ 0 := by
      have := h.1.2.2.2.1 sa (List.mem_of_mem_filter hsa)
      omega
    have haa : (sync_aa db r).contains sa.id = true :=
      contains_iff_mem.mpr (List.mem_map_of_mem _ hsa)
    have htmem : t ∈ qs_final db r now := List.mem_of_find?_eq_some htf
    have hqfn : ((qs_final db r now).map (fun q => q.id)).Nodup :=
      (qs_final_pk db r now h.1).1
    have htfid : (qs_final db r now).find? (fun q => q.id == t.id) = some t :=
      find?_key_of_nodup hqfn htmem
    have hsqaq : (sync_aq db r).contains sq.id = true :=
      contains_iff_mem.mpr (List.mem_map_of_mem _ hsqmem)
    have hsd : should_delete (sync_aq db r) (sync_aa db r) (qs_final db r now)
        { b0 with answer_text := sa.answer_text, updated_at := now } = false := by
      unfold should_delete
      simp only []
      rw [hb0s]
      simp only []
      rw [haa]
      simp only [Bool.not_true, Bool.and_false, Bool.false_or]
      rw [hb0q]
      rw [if_pos (bne_iff_ne.mpr (show t.id ≠ 0 by omega))]
      rw [htfid]
      simp only []
      rw [htst]
      simp only []
      rw [hsqaq]
      simp
    refine ⟨t.id, { b0 with answer_text := sa.answer_text, updated_at := now },
      hpm, by omega, ?_, hb0r, hb0q, hb0s, rfl⟩
    show _ ∈ delete_pass r (sync_aq db r) (sync_aa db r) (qs_final db r now)
      (answers_upd db r now) ++ answers_new db r now
    refine List.mem_append.mpr (Or.inl ?_)
    unfold delete_pass
    refine List.mem_filter.mpr ⟨hbmem, ?_⟩
    rw [hsd]
    simp

theorem upd_answer_of_none (r : String) (now : Nat) (aq_ids : List Nat)
    (ell : Nat → Option Nat) (SA : List AnswerStaging) {b : Answer}
    (hb : b.staging_id = none) : upd_answer r now aq_ids ell SA b = b := by
  unfold upd_answer
  rw [List.find?_eq_none.mpr ?_]
  intro sa _
  cases hty : ans_target aq_ids ell sa with
  | none => simp
  | some aid =>
    simp only []
    unfold alink
    rw [hb]
    simp

/- ==================== Concrete database states ==================== -/

/-- A run row shared by the concrete examples. -/
def run0 : Run :=
  { id := "r", summary := "s", last_sync_at := none,
    last_staging_change_at := none, updated_at := 0 }

/-- An externally seeded published answer whose staging link is null. -/
def ab3 : Answer :=
  { id := 1, run_id := "r", question_id := 1, staging_id := none,
    answer_text := "a", updated_at := 0 }

/-- A published question holding a truthy staging link that no approved staging
question backs. -/
def qb3 : Question :=
  { id := 1, run_id := "r", staging_id := some 5, question_text := "q",
    is_approved := true, tags := [], updated_at := 0 }

/-- A database where a null-staging published answer hangs off a published
question with a stale staging link. -/
def db3 : DB :=
  { runs := [run0], question_staging := [], answer_staging := [],
    questions := [qb3], answers := [ab3], tags := [],
    next_staging_question_id := 1, next_staging_answer_id := 1,
    next_question_id := 2, next_answer_id := 2, next_tag_id := 1 }

/-- A database whose single published question and answer both carry null
staging links. -/
def qW3 : Question :=
  { id := 1, run_id := "r", staging_id := none, question_text := "q",
    is_approved := true, tags := [], updated_at := 0 }

def aW3 : Answer :=
  { id := 1, run_id := "r", question_id := 1, staging_id := none,
    answer_text := "a", updated_at := 0 }

def dbW3 : DB :=
  { runs := [run0], question_staging := [], answer_staging := [],
    questions := [qW3], answers := [aW3], tags := [],
    next_staging_question_id := 1, next_staging_answer_id := 1,
    next_question_id := 2, next_answer_id := 2, next_tag_id := 1 }

/- ==================== Claim C10 ==================== -/

/-- C10: a sync pass never deletes a published question.  Every published
question present before the sync is still present afterwards with the same
primary key, run and staging link; stale rows are at most demoted in place. -/
theorem sync_never_deletes_questions (db : DB) (r : String) (now : Nat)
    (h : sync_wf db r) :
    ∀ p ∈ db.questions, ∃ p' ∈ (sync_core db r now).1.questions,
      p'.id = p.id ∧ p'.run_id = p.run_id ∧ p'.staging_id = p.staging_id := by
  intro p hp
  obtain ⟨hqs, _⟩ := sync_core_spec db r now h
  rw [hqs]
  refine ⟨(demote_one r (sync_aq db r) (sync_wq db r) now
    (upd_question r now (sync_wq db r) (approved_questions_of db r) p)).1, ?_, ?_⟩
  · unfold qs_final qs_after
    exact List.mem_map.mpr ⟨_, List.mem_append.mpr
      (Or.inl (List.mem_map.mpr ⟨p, hp, rfl⟩)), rfl⟩
  · refine ⟨?_, ?_, ?_⟩
    · rw [(demote_one_fields _ _ _ _ _).1, (upd_question_fields _ _ _ _ _).1]
    · rw [(demote_one_fields _ _ _ _ _).2.1, (upd_question_fields _ _ _ _ _).2.1]
    · rw [(demote_one_fields _ _ _ _ _).2.2.1, (upd_question_fields _ _ _ _ _).2.2]

theorem sync_never_deletes_questions_witness :
    sync_wf db3 "r" ∧
    (∃ p' ∈ (sync_core db3 "r" 7).1.questions,
      p'.id = qb3.id ∧ p'.run_id = qb3.run_id ∧ p'.staging_id = qb3.staging_id) := by
  have hwf : sync_wf db3 "r" := by
    unfold sync_wf pk_wf links_wf
    decide
  exact ⟨hwf,
    sync_never_deletes_questions db3 "r" 7 hwf qb3 (by decide)⟩

/- ==================== Claim C3 ==================== -/

/-- C3 (counterexample to the claim as written): the sync pass deletes a
published answer whose `staging_id` is null when the owning published question
carries a truthy staging link that no approved staging question backs; the
delete loop of step 5 never inspects the answer's own null link in that
branch. -/
theorem sync_deletes_null_staging_answer :
    ab3 ∈ db3.answers ∧ ab3.staging_id = none ∧
    (sync_to_actual db3 "r" 7 false).1.answers = [] := by
  refine ⟨by decide, rfl, by decide⟩

/-- C3 (amended): a sync pass never deletes or mutates a null-staging
published question; it never mutates a null-staging published answer (any
null-staging answer present afterwards was present before, bit for bit); and a
null-staging published answer of the run survives exactly when the step-5
deletion test is false for it — which can fail through the owning question's
stale staging link, so null-staging answers are not always preserved. -/
theorem sync_null_staging_frame (db : DB) (r : String) (now : Nat)
    (h : sync_wf db r) :
    (∀ p ∈ db.questions, p.staging_id = none →
      p ∈ (sync_core db r now).1.questions) ∧
    (∀ b ∈ (sync_core db r now).1.answers, b.staging_id = none →
      b ∈ db.answers) ∧
    (∀ b ∈ db.answers, b.staging_id = none →
      (b ∈ (sync_core db r now).1.answers ↔
        ¬(b.run_id = r ∧ should_delete (sync_aq db r) (sync_aa db r)
            (qs_final db r now) b = true))) := by
  obtain ⟨hqs, has, _⟩ := sync_core_spec db r now h
  refine ⟨?_, ?_, ?_⟩
  · intro p hp hps
    rw [hqs]
    have h1 : upd_question r now (sync_wq db r) (approved_questions_of db r) p = p :=
      upd_question_of_none r now _ _ hps
    have h2 : demote_one r (sync_aq db r) (sync_wq db r) now p = (p, 0) :=
      demote_one_of_none r _ _ now hps
    unfold qs_final qs_after
    refine List.mem_map.mpr ⟨p, List.mem_append.mpr
      (Or.inl (List.mem_map.mpr ⟨p, hp, h1⟩)), by rw [h2]⟩
  · intro b hb hbs
    rw [has] at hb
    rcases List.mem_append.mp hb with hdel | hnew
    · have hup : b ∈ answers_upd db r now := List.mem_of_mem_filter hdel
      obtain ⟨b0, hb0, hbeq⟩ := List.mem_map.mp hup
      have hb0s : b0.staging_id = none := by
        rw [← (upd_answer_fields _ _ _ _ _ b0).2.2.2, hbeq]
        exact hbs
      rw [← hbeq, upd_answer_of_none _ _ _ _ _ hb0s]
      exact hb0
    · obtain ⟨sa, _, aid, _, _, _, hst, _⟩ := new_answers_mem hnew
      rw [hst] at hbs
      exact absurd hbs (by simp)
  · intro b hb hbs
    have hid : upd_answer r now (sync_aq db r) (publish_map db r now)
        (approved_answers_of db r) b = b := upd_answer_of_none _ _ _ _ _ hbs
    rw [has]
    constructor
    · intro hmem
      rcases List.mem_append.mp hmem with hdel | hnew
      · have hcond := (List.mem_filter.mp hdel).2
        rintro ⟨hrun, hsd⟩
        rw [hsd, show (b.run_id == r) = true by simp [hrun]] at hcond
        simp at hcond
      · obtain ⟨sa, _, aid, _, _, _, hst, _⟩ := new_answers_mem hnew
        rw [hst] at hbs
        exact absurd hbs (by simp)
    · intro hkeep
      refine List.mem_append.mpr (Or.inl ?_)
      unfold delete_pass
      refine List.mem_filter.mpr ⟨?_, ?_⟩
      · unfold answers_upd
        rw [← hid]
        exact List.mem_map_of_mem _ hb
      · cases hrb : (b.run_id == r) with
        | false => simp [hrb]
        | true =>
          cases hsd : should_delete (sync_aq db r) (sync_aa db r)
              (qs_final db r now) b with
          | false => simp [hrb, hsd]
          | true => exact absurd ⟨beq_iff_eq.mp hrb, hsd⟩ hkeep

theorem sync_null_staging_frame_witness :
    sync_wf dbW3 "r" ∧ qW3 ∈ (sync_core dbW3 "r" 5).1.questions ∧
    aW3 ∈ (sync_core dbW3 "r" 5).1.answers := by
  have hwf : sync_wf dbW3 "r" := by
    unfold sync_wf pk_wf links_wf
    decide
  refine ⟨hwf, (sync_null_staging_frame dbW3 "r" 5 hwf).1 qW3 (by decide) rfl, ?_⟩
  refine ((sync_null_staging_frame dbW3 "r" 5 hwf).2.2 aW3 (by decide) rfl).mpr ?_
  rintro ⟨_, hsd⟩
  revert hsd
  decide

/- ==================== Claim C9 ==================== -/

/-- C9: the sync endpoint fails with NotFound when the run does not exist and
leaves the database untouched; and when any exception strikes inside the
reconciliation (modeled by `fault`), the transaction is rolled back: the caller
sees the original database, so no published row changes and `last_sync_at` is
not advanced, and no success result is returned. -/
theorem sync_error_handling (db : DB) (r : String) (now : Nat) (fault : Bool) :
    (db.runs.find? (fun ru => ru.id == r) = none →
      sync_to_actual db r now fault = (db, Except.error ApiError.notFound)) ∧
    ((sync_to_actual db r now true).1 = db ∧
      ∀ res, (sync_to_actual db r now true).2 ≠ Except.ok res) := by
  constructor
  · intro hf
    unfold sync_to_actual
    rw [hf]
  · unfold sync_to_actual
    cases hf : db.runs.find? (fun ru => ru.id == r) with
    | none =>
      refine ⟨rfl, ?_⟩
      intro res hres
      simp at hres
    | some ru =>
      refine ⟨rfl, ?_⟩
      intro res hres
      simp at hres

theorem sync_error_handling_witness :
    dbW3.runs.find? (fun ru => ru.id == "x") = none ∧
    sync_to_actual dbW3 "x" 5 false = (dbW3, Except.error ApiError.notFound) ∧
    (sync_to_actual dbW3 "r" 5 true).1 = dbW3 :=
  ⟨by decide, (sync_error_handling dbW3 "x" 5 false).1 (by decide),
   (sync_error_handling dbW3 "r" 5 true).2.1⟩

/- ==================== Claim C8 ==================== -/

/-- C8: tag mirroring: for every approved staging question, a sync pass leaves
its reconciled published question carrying exactly the staging question's
current tag set (and text), unconditionally. -/
theorem sync_mirrors_tags (db : DB) (r : String) (now : Nat) (h : sync_wf db r)
    {sq : QuestionStaging} (hsq : sq ∈ approved_questions_of db r) :
    ∃ t, ((sync_core db r now).1.questions).find? (qlink r sq.id) = some t ∧
      t.tags = sq.tags ∧ t.question_text = sq.question_text := by
  obtain ⟨hqs, _⟩ := sync_core_spec db r now h
  rw [hqs]
  obtain ⟨t, htf, _, _, htext, htags, _⟩ := sync_target db r now h hsq
  exact ⟨t, htf, htags, htext⟩

/-- An approved staging question whose tags are edited between two syncs. -/
def sqW8 : QuestionStaging :=
  { id := 1, run_id := "r", question_text := "q", is_approved := some true,
    tags := [], updated_at := 0 }

def dbW8 : DB :=
  { runs := [run0], question_staging := [sqW8], answer_staging := [],
    questions := [], answers := [], tags := [],
    next_staging_question_id := 2, next_staging_answer_id := 1,
    next_question_id := 1, next_answer_id := 1, next_tag_id := 1 }

/-- The chain of the claim: set tags to the names a and b, sync, change the
tags to the names b and c, then look at the state handed to the second sync. -/
def dbW8c : DB :=
  (update_question_tags
    ((sync_core (update_question_tags dbW8 1 ["a", "b"] 1).1 "r" 2).1)
    1 ["b", "c"] 3).1

/-- The staging question as it stands in `dbW8c`: the names b and c resolved
to the tag ids 2 and 3. -/
def sqW8c : QuestionStaging :=
  { id := 1, run_id := "r", question_text := "q", is_approved := some true,
    tags := [2, 3], updated_at := 3 }

theorem sync_mirrors_tags_witness :
    sync_wf dbW8c "r" ∧
    ∃ t, ((sync_core dbW8c "r" 4).1.questions).find? (qlink "r" 1) = some t ∧
      t.tags = [2, 3] := by
  have hwf : sync_wf dbW8c "r" := by
    unfold sync_wf pk_wf links_wf
    decide
  have hsq : sqW8c ∈ approved_questions_of dbW8c "r" := by decide
  obtain ⟨t, htf, htags, _⟩ := sync_mirrors_tags dbW8c "r" 4 hwf hsq
  refine ⟨hwf, t, htf, ?_⟩
  rw [htags]
  rfl

theorem qs_after_ids_eq (db : DB) (r : String) (now : Nat) :
    (qs_after db r now).map (fun q => q.id) =
      (qs_final db r now).map (fun q => q.id) := by
  unfold qs_final
  rw [List.map_map]
  refine (List.map_congr_left (fun x _ => ?_)).symm
  simp only [Function.comp_def]
  rw [(demote_one_fields _ _ _ _ _).1]

theorem qs_final_mem_split {db : DB} {r : String} {now : Nat} {p : Question}
    (hp : p ∈ qs_final db r now) :
    (∃ p0 ∈ db.questions, p.id = p0.id ∧ p.run_id = p0.run_id ∧
      p.staging_id = p0.staging_id) ∨
    (∃ sq ∈ approved_questions_of db r, p.run_id = r ∧ p.staging_id = some sq.id ∧
      db.next_question_id ≤ p.id) := by
  obtain ⟨x, hxmem, hdx⟩ := qs_final_mem hp
  have hdf := demote_one_fields r (sync_aq db r) (sync_wq db r) now x
  unfold qs_after at hxmem
  rcases List.mem_append.mp hxmem with hold | hnewm
  · obtain ⟨p0, hp0, hueq⟩ := List.mem_map.mp hold
    have huf := upd_question_fields r now (sync_wq db r) (approved_questions_of db r) p0
    refine Or.inl ⟨p0, hp0, ?_, ?_, ?_⟩
    · rw [hdx, hdf.1, ← hueq, huf.1]
    · rw [hdx, hdf.2.1, ← hueq, huf.2.1]
    · rw [hdx, hdf.2.2.1, ← hueq, huf.2.2]
  · obtain ⟨sq, hsq, hrun, hst, _, _, _, _, hge, _⟩ := new_questions_mem hnewm
    refine Or.inr ⟨sq, hsq, ?_, ?_, ?_⟩
    · rw [hdx, hdf.2.1, hrun]
    · rw [hdx, hdf.2.2.1, hst]
    · have hpid : p.id = x.id := by rw [hdx, hdf.1]
      omega

theorem staging_q_approved_of_mem {db : DB} {r : String} {sq : QuestionStaging}
    (hsq : sq ∈ approved_questions_of db r) : staging_q_approved db r sq.id := by
  obtain ⟨hmem, hflt⟩ := List.mem_filter.mp hsq
  rw [Bool.and_eq_true, beq_iff_eq, beq_iff_eq] at hflt
  exact ⟨sq, hmem, rfl, hflt.1, hflt.2⟩

theorem sync_stale_question (db : DB) (r : String) (now : Nat) (h : sync_wf db r)
    (hco : run_coherent db r) {s : Nat} (hnap : ¬ staging_q_approved db r s) :
    ∀ p ∈ (sync_core db r now).1.questions, p.run_id = r → p.staging_id = some s →
      p.is_approved = false ∧
      ∀ b ∈ (sync_core db r now).1.answers, b.question_id ≠ p.id := by
  obtain ⟨hqs, has, _⟩ := sync_core_spec db r now h
  intro p hp hpr hps
  rw [hqs] at hp
  have haqf : (sync_aq db r).contains s = false := by
    cases hc : (sync_aq db r).contains s with
    | false => rfl
    | true => exact absurd (sync_aq_iff.mp hc) hnap
  rcases qs_final_mem_split hp with ⟨p0, hp0, hpid, hprun, hpst⟩ |
      ⟨sq, hsq, _, hpst2, _⟩
  swap
  · rw [hps] at hpst2
    have hsid : sq.id = s := (Option.some_inj.mp hpst2).symm
    exact absurd (hsid ▸ staging_q_approved_of_mem hsq) hnap
  have hp0r : p0.run_id = r := by rw [← hprun, hpr]
  obtain ⟨s0, hs0, hs01⟩ := hco.1 p0 hp0 hp0r
  have hss0 : s = s0 := by
    rw [hpst, hs0] at hps
    exact (Option.some_inj.mp hps).symm
  have hs1 : 1 ≤ s := by omega
  have hflag : p.is_approved = false :=
    qs_final_stale_flag hp hpr hps (by omega) (Or.inl haqf)
  refine ⟨hflag, ?_⟩
  intro b hb hbq
  rw [has] at hb
  have hqfn : ((qs_final db r now).map (fun q => q.id)).Nodup :=
    (qs_final_pk db r now h.1).1
  have hpidpos : 1 ≤ p.id := ((qs_final_pk db r now h.1).2 p hp).1
  rcases List.mem_append.mp hb with hdel | hnew
  · have hup : b ∈ answers_upd db r now := List.mem_of_mem_filter hdel
    obtain ⟨b0, hb0, hbeq⟩ := List.mem_map.mp hup
    have hbrun_eq : b.run_id = b0.run_id := by
      rw [← hbeq, (upd_answer_fields _ _ _ _ _ b0).2.1]
    have hbqid_eq : b.question_id = b0.question_id := by
      rw [← hbeq, (upd_answer_fields _ _ _ _ _ b0).2.2.1]
    have hb0run : b0.run_id = r := by
      rw [hco.2.2.1 b0 hb0 p0 hp0 (by omega), hp0r]
    have hfp : (qs_final db r now).find? (fun q => q.id == b.question_id) = some p := by
      rw [hbq]
      exact find?_key_of_nodup hqfn hp
    have hsd : should_delete (sync_aq db r) (sync_aa db r) (qs_final db r now)
        b = true := by
      unfold should_delete
      rw [if_pos (bne_iff_ne.mpr (show b.question_id ≠ 0 by omega)), hfp]
      simp only []
      rw [hps]
      simp only []
      rw [haqf]
      simp [bne_iff_ne, Nat.one_le_iff_ne_zero.mp hs1]
    have hcond := (List.mem_filter.mp hdel).2
    rw [hsd, show (b.run_id == r) = true from by
      rw [hbrun_eq, hb0run]; simp] at hcond
    simp at hcond
  · obtain ⟨sa, hsa, aid, htgt, hbrun, hbqid2, hbst, _⟩ := new_answers_mem hnew
    obtain ⟨hcontains, hell, hz⟩ := ans_target_some_iff.mp htgt
    unfold publish_map at hell
    cases hfq : (qs_after db r now).find? (qlink r sa.question_id) with
    | none => rw [hfq] at hell; simp at hell
    | some trow =>
      rw [hfq] at hell
      have htrowid : trow.id = aid := by
        have : some trow.id = some aid := hell
        exact Option.some_inj.mp this
      obtain ⟨x, hxmem, hdx⟩ := qs_final_mem hp
      have hdf := demote_one_fields r (sync_aq db r) (sync_wq db r) now x
      have hxid : x.id = p.id := by rw [hdx, hdf.1]
      have hxst : x.staging_id = p.staging_id := by rw [hdx, hdf.2.2.1]
      have hqan : ((qs_after db r now).map (fun q => q.id)).Nodup := by
        rw [qs_after_ids_eq]
        exact hqfn
      have htrow_mem : trow ∈ qs_after db r now := List.mem_of_find?_eq_some hfq
      have htx : trow = x := by
        refine eq_of_nodup_key hqan htrow_mem hxmem ?_
        show trow.id = x.id
        omega
      obtain ⟨_, hts⟩ := qlink_iff.mp (List.find?_some hfq)
      rw [htx, hxst, hps] at hts
      have hsq2 : s = sa.question_id := Option.some_inj.mp hts
      rw [← hsq2, haqf] at hcontains
      exact absurd hcontains (by simp)

/- ==================== Claim C4 ==================== -/

/-- C4: rejecting a staging question deletes every staging answer of that
question; and once no approved staging question with id `s` exists (as after a
rejection), a sync leaves the published question linked to `s` with
`has_approved_answer = false` and leaves no published answer attached to it. -/
theorem rejection_cascade (db0 : DB) (qid : Nat) (now0 : Nat)
    (db : DB) (r : String) (now : Nat) (sq : QuestionStaging) (s : Nat) :
    (∀ q0, db0.question_staging.find? (fun q => q.id == qid) = some q0 →
      ∀ a ∈ (update_question_approval db0 qid false now0).1.answer_staging,
        a.question_id ≠ qid) ∧
    (sync_wf db r → run_coherent db r → sq ∈ db.question_staging → sq.id = s →
      sq.is_approved = some false →
      ∀ p ∈ (sync_core db r now).1.questions, p.run_id = r →
        p.staging_id = some s →
        p.is_approved = false ∧
        ∀ b ∈ (sync_core db r now).1.answers, b.question_id ≠ p.id) := by
  constructor
  · intro q0 hfound a ha
    unfold update_question_approval at ha
    rw [hfound] at ha
    simp only [] at ha
    rw [if_pos trivial] at ha
    have := (List.mem_filter.mp ha).2
    simp at this
    exact this
  · intro hwf hco hsq hid hrej
    have hnap : ¬ staging_q_approved db r s := by
      rintro ⟨sq2, hsq2, hid2, _, happ2⟩
      have : sq2 = sq := eq_of_nodup_key hwf.1.1 hsq2 hsq (by rw [hid2, hid])
      rw [this, hrej] at happ2
      exact absurd happ2 (by simp)
    exact sync_stale_question db r now hwf hco hnap

/-- The scenario of the claim: an approved staging question with an approved
staging answer, published by one sync. -/
def sqW4 : QuestionStaging :=
  { id := 1, run_id := "r", question_text := "q", is_approved := some true,
    tags := [], updated_at := 0 }

def saW4 : AnswerStaging :=
  { id := 1, run_id := "r", question_id := 1, answer_text := "a",
    is_approved := some true, updated_at := 0 }

def dbW4 : DB :=
  { runs := [run0], question_staging := [sqW4], answer_staging := [saW4],
    questions := [], answers := [], tags := [],
    next_staging_question_id := 2, next_staging_answer_id := 2,
    next_question_id := 1, next_answer_id := 1, next_tag_id := 1 }

/-- The published state after the first sync. -/
def dbW4s : DB := (sync_core dbW4 "r" 2).1

/-- The state after the question is rejected. -/
def dbW4r : DB := (update_question_approval dbW4s 1 false 3).1

/-- The rejected staging question as it stands in `dbW4r`. -/
def sqW4r : QuestionStaging :=
  { id := 1, run_id := "r", question_text := "q", is_approved := some false,
    tags := [], updated_at := 3 }

theorem rejection_cascade_witness :
    (∀ a ∈ (update_question_approval dbW4s 1 false 3).1.answer_staging,
      a.question_id ≠ 1) ∧
    (∀ p ∈ (sync_core dbW4r "r" 4).1.questions, p.run_id = "r" →
      p.staging_id = some 1 → p.is_approved = false ∧
      ∀ b ∈ (sync_core dbW4r "r" 4).1.answers, b.question_id ≠ p.id) := by
  constructor
  · exact (rejection_cascade dbW4s 1 3 dbW4r "r" 4 sqW4r 1).1 sqW4 (by decide)
  · exact (rejection_cascade dbW4s 1 3 dbW4r "r" 4 sqW4r 1).2
      (by unfold sync_wf pk_wf links_wf; decide)
      (by unfold run_coherent; decide)
      (by decide) rfl rfl

theorem approved_find_of_contains {db : DB} {r : String} {s : Nat}
    (h : sync_wf db r) (hc : (sync_aq db r).contains s = true) :
    ∃ sq', (approved_questions_of db r).find? (fun q => q.id == s) = some sq' ∧
      sq'.id = s := by
  obtain ⟨sq', hsq', hsid'⟩ := List.mem_map.mp (contains_iff_mem.mp hc)
  have hLn : ((approved_questions_of db r).map (fun q => q.id)).Nodup :=
    List.Sublist.nodup (List.Sublist.map _ (List.filter_sublist _)) h.1.1
  have hf := find?_key_of_nodup hLn hsq'
  rw [hsid'] at hf
  exact ⟨sq', hf, hsid'⟩

theorem synced_flag (db : DB) (r : String) (now : Nat) (h : sync_wf db r) :
    ∀ p ∈ qs_final db r now, p.run_id = r → ∀ s, p.staging_id = some s → s ≠ 0 →
      p.is_approved = (sync_wq db r).contains s := by
  intro p hp hpr s hps hz
  cases hwq : (sync_wq db r).contains s with
  | false => exact qs_final_stale_flag hp hpr hps hz (Or.inr hwq)
  | true =>
    have haq : (sync_aq db r).contains s = true :=
      sync_aq_iff.mpr (sync_wq_iff.mp hwq).1
    obtain ⟨x, hxmem, hdx⟩ := qs_final_mem hp
    have hdf := demote_one_fields r (sync_aq db r) (sync_wq db r) now x
    have hxs : x.staging_id = some s := by rw [← hdf.2.2.1, ← hdx]; exact hps
    have hlive : demote_one r (sync_aq db r) (sync_wq db r) now x = (x, 0) :=
      demote_one_of_live r _ _ now hxs haq hwq
    have hpx : p = x := by rw [hdx, hlive]
    obtain ⟨sq', hfind, hsid'⟩ := approved_find_of_contains h haq
    unfold qs_after at hxmem
    rcases List.mem_append.mp hxmem with hold | hnewm
    · obtain ⟨p0, hp0, hueq⟩ := List.mem_map.mp hold
      have huf := upd_question_fields r now (sync_wq db r)
        (approved_questions_of db r) p0
      have hp0s : p0.staging_id = some s := by rw [← huf.2.2, hueq]; exact hxs
      have hp0r : p0.run_id = r := by
        rw [← huf.2.1, hueq]
        rw [← hpx]
        exact hpr
      have hx_upd := upd_question_of_link r now (sync_wq db r) hp0r hp0s hfind
      rw [hpx, ← hueq, hx_upd]
      show (sync_wq db r).contains s = true
      exact hwq
    · obtain ⟨sq2, hsq2, hrun2, hst2, _, hflag2, _⟩ := new_questions_mem hnewm
      have hs2 : sq2.id = s := by
        rw [hst2] at hxs
        exact Option.some_inj.mp hxs
      rw [hpx, hflag2, hs2, hwq]

theorem should_delete_false_parts {aq aa : List Nat} {qs : List Question}
    {b : Answer} (h : should_delete aq aa qs b = false) :
    (∀ k, b.staging_id = some k → k ≠ 0 → aa.contains k = true) ∧
    (∀ q, qs.find? (fun x => x.id == b.question_id) = some q →
      b.question_id ≠ 0 → ∀ s, q.staging_id = some s → s ≠ 0 →
      aq.contains s = true) := by
  unfold should_delete at h
  rw [Bool.or_eq_false_iff] at h
  obtain ⟨h1, h2⟩ := h
  constructor
  · intro k hk hkz
    rw [hk] at h1
    simp only [] at h1
    rw [Bool.and_eq_false_iff] at h1
    rcases h1 with h1 | h1
    · have hk0 : k = 0 := by simpa using h1
      exact absurd hk0 hkz
    · cases hc : aa.contains k with
      | true => rfl
      | false => rw [hc] at h1; simp at h1
  · intro q hq hqz s hs hsz
    rw [if_pos (bne_iff_ne.mpr hqz), hq] at h2
    simp only [] at h2
    rw [hs] at h2
    simp only [] at h2
    rw [Bool.and_eq_false_iff] at h2
    rcases h2 with h2 | h2
    · have hs0 : s = 0 := by simpa using h2
      exact absurd hs0 hsz
    · cases hc : aq.contains s with
      | true => rfl
      | false => rw [hc] at h2; simp at h2

theorem answers_new_owner {db : DB} {r : String} {now : Nat} (h : sync_wf db r)
    {b : Answer} (hb : b ∈ answers_new db r now) :
    ∃ sa ∈ approved_answers_of db r, ∃ x ∈ qs_after db r now,
      b.question_id = x.id ∧ x.staging_id = some sa.question_id ∧
      (sync_aq db r).contains sa.question_id = true := by
  obtain ⟨sa, hsa, aid, htgt, hbrun, hbqid2, hbst, _⟩ := new_answers_mem hb
  obtain ⟨hcontains, hell, hz⟩ := ans_target_some_iff.mp htgt
  unfold publish_map at hell
  cases hfq : (qs_after db r now).find? (qlink r sa.question_id) with
  | none => rw [hfq] at hell; simp at hell
  | some trow =>
    rw [hfq] at hell
    have htrowid : trow.id = aid := by
      have : some trow.id = some aid := hell
      exact Option.some_inj.mp this
    obtain ⟨_, hts⟩ := qlink_iff.mp (List.find?_some hfq)
    exact ⟨sa, hsa, trow, List.mem_of_find?_eq_some hfq,
      by rw [hbqid2, htrowid], hts, hcontains⟩

/- ==================== Claim C2 ==================== -/

/-- C2: immediately after a sync pass, a published answer attached to a
published question of the run exists exactly when the question's
`has_approved_answer` flag is true, which holds exactly when an approved
staging answer exists whose approved staging question is the one the published
question was derived from.  The hypothesis `href` is the foreign-key
discipline: every stored answer references an already allocated question id. -/
theorem sync_answer_iff_flag (db : DB) (r : String) (now : Nat)
    (h : sync_wf db r) (hco : run_coherent db r)
    (href : ∀ b ∈ db.answers, b.question_id < db.next_question_id) :
    ∀ p ∈ (sync_core db r now).1.questions, p.run_id = r →
      ((∃ b ∈ (sync_core db r now).1.answers, b.question_id = p.id) ↔
        p.is_approved = true) ∧
      (p.is_approved = true ↔
        ∃ s, p.staging_id = some s ∧ staging_q_approved db r s ∧
          staging_q_has_approved_answer db r s) := by
  obtain ⟨hqs, has, _⟩ := sync_core_spec db r now h
  intro p hp hpr
  rw [hqs] at hp
  rw [has]
  have hsplit := qs_final_mem_split hp
  have hex : ∃ s, p.staging_id = some s ∧ 1 ≤ s := by
    rcases hsplit with ⟨p0, hp0, hpid, hprun, hpst⟩ | ⟨sq, hsq, _, hpst2, _⟩
    · obtain ⟨s0, hs0, hs01⟩ := hco.1 p0 hp0 (by rw [← hprun]; exact hpr)
      exact ⟨s0, by rw [hpst, hs0], hs01⟩
    · exact ⟨sq.id, hpst2, h.1.2.1 sq (List.mem_of_mem_filter hsq)⟩
  obtain ⟨s, hps, hs1⟩ := hex
  have hflag : p.is_approved = (sync_wq db r).contains s :=
    synced_flag db r now h p hp hpr s hps (by omega)
  have hqfn := (qs_final_pk db r now h.1).1
  have hpidpos : 1 ≤ p.id := ((qs_final_pk db r now h.1).2 p hp).1
  obtain ⟨x, hxmem, hdx⟩ := qs_final_mem hp
  have hdf := demote_one_fields r (sync_aq db r) (sync_wq db r) now x
  have hxid : x.id = p.id := by rw [hdx, hdf.1]
  have hxst : x.staging_id = some s := by rw [← hdf.2.2.1, ← hdx]; exact hps
  have hxrun : x.run_id = r := by rw [← hdf.2.1, ← hdx]; exact hpr
  have hqan : ((qs_after db r now).map (fun q => q.id)).Nodup := by
    rw [qs_after_ids_eq]
    exact hqfn
  refine ⟨⟨?_, ?_⟩, ?_⟩
  · rintro ⟨b, hb, hbq⟩
    rw [hflag]
    rcases List.mem_append.mp hb with hdel | hnew
    · unfold delete_pass at hdel
      obtain ⟨hup, hcond⟩ := List.mem_filter.mp hdel
      obtain ⟨b0, hb0, hbeq⟩ := List.mem_map.mp hup
      have hfb := upd_answer_fields r now (sync_aq db r) (publish_map db r now)
        (approved_answers_of db r) b0
      have hbqid0 : b.question_id = b0.question_id := by rw [← hbeq, hfb.2.2.1]
      have hbrun0 : b.run_id = b0.run_id := by rw [← hbeq, hfb.2.1]
      have hbst0 : b.staging_id = b0.staging_id := by rw [← hbeq, hfb.2.2.2]
      rcases hsplit with ⟨p0, hp0, hpid, hprun, hpst⟩ | ⟨sqn, hsqn, _, hpstn, hpge⟩
      swap
      · exfalso
        have := href b0 hb0
        omega
      have hb0run : b0.run_id = r := by
        rw [hco.2.2.1 b0 hb0 p0 hp0 (by omega), ← hprun]
        exact hpr
      have hsd_false : should_delete (sync_aq db r) (sync_aa db r)
          (qs_final db r now) b = false := by
        cases hsd : should_delete (sync_aq db r) (sync_aa db r)
            (qs_final db r now) b with
        | false => rfl
        | true =>
          rw [hsd, show (b.run_id == r) = true from by
            rw [hbrun0, hb0run]; simp] at hcond
          simp at hcond
      obtain ⟨hc1, hc2⟩ := should_delete_false_parts hsd_false
      obtain ⟨k, hk, hk1⟩ := hco.2.1 b0 hb0 hb0run
      have haa : (sync_aa db r).contains k = true :=
        hc1 k (by rw [hbst0]; exact hk) (by omega)
      obtain ⟨sa0, hsa0, hsa0id, hsa0run, hsa0app⟩ := sync_aa_iff.mp haa
      have hp0st : p0.staging_id = some sa0.question_id :=
        hco.2.2.2.2.1 b0 hb0 p0 hp0 sa0 hsa0 (by omega) (by rw [hk, hsa0id])
      have hs_eq : sa0.question_id = s := by
        rw [hpst, hp0st] at hps
        exact Option.some_inj.mp hps
      have hfp : (qs_final db r now).find? (fun xq => xq.id == b.question_id) =
          some p := by
        rw [hbq]
        exact find?_key_of_nodup hqfn hp
      have haqs : (sync_aq db r).contains s = true :=
        hc2 p hfp (by omega) s hps (by omega)
      exact sync_wq_iff.mpr ⟨sync_aq_iff.mp haqs,
        sa0, hsa0, hsa0run, hsa0app, hs_eq⟩
    · obtain ⟨sa, hsa, x2, hx2mem, hbq2, hx2st, hcont⟩ := answers_new_owner h hnew
      have hxx2 : x2 = x :=
        eq_of_nodup_key hqan hx2mem hxmem (show x2.id = x.id by omega)
      rw [hxx2, hxst] at hx2st
      have hsq : sa.question_id = s := (Option.some_inj.mp hx2st).symm
      refine sync_wq_iff.mpr ⟨?_, ?_⟩
      · rw [← hsq]
        exact sync_aq_iff.mp hcont
      · obtain ⟨hmem0, hflt⟩ := List.mem_filter.mp hsa
        rw [Bool.and_eq_true, beq_iff_eq, beq_iff_eq] at hflt
        exact ⟨sa, hmem0, hflt.1, hflt.2, hsq⟩
  · intro hft
    have hwq : (sync_wq db r).contains s = true := by rw [← hflag]; exact hft
    obtain ⟨happr, hhas⟩ := sync_wq_iff.mp hwq
    obtain ⟨sa, hsamem, hsarun, hsaapp, hsaqid⟩ := hhas
    have hsa2 : sa ∈ approved_answers_of db r := List.mem_filter.mpr ⟨hsamem, by
      rw [Bool.and_eq_true, beq_iff_eq, beq_iff_eq]; exact ⟨hsarun, hsaapp⟩⟩
    have haq2 : (sync_aq db r).contains sa.question_id = true := by
      rw [hsaqid]
      exact sync_aq_iff.mpr happr
    obtain ⟨aid, b, hpm2, haid1, hbmem, hbrun, hbqid, hbst, hbtext⟩ :=
      sync_answer_published db r now h hsa2 haq2
    have hqlx : qlink r s x = true := by rw [qlink_iff]; exact ⟨hxrun, hxst⟩
    have hwf1 := sync_preserves_wf db r now h
    have hle1 := links_filter_q_le_one hwf1.2 s
    rw [hqs] at hle1
    unfold qs_final at hle1
    rw [filter_map_swap, List.filter_congr (fun y _ => qlink_of_fields
      (fun q => ⟨(demote_one_fields _ _ _ _ _).2.1,
        (demote_one_fields _ _ _ _ _).2.2.1⟩) y), List.length_map] at hle1
    have hfx : (qs_after db r now).find? (qlink r s) = some x :=
      find?_of_mem_filter_le_one hxmem hqlx hle1
    have hpm_s : publish_map db r now s = some p.id := by
      unfold publish_map
      rw [hfx]
      show some x.id = some p.id
      rw [hxid]
    rw [hsaqid] at hpm2
    have haidp : aid = p.id := by
      rw [hpm2] at hpm_s
      exact Option.some_inj.mp hpm_s
    exact ⟨b, hbmem, by rw [hbqid, haidp]⟩
  · constructor
    · intro hf
      have hwq : (sync_wq db r).contains s = true := by rw [← hflag]; exact hf
      obtain ⟨ha2, hb2⟩ := sync_wq_iff.mp hwq
      exact ⟨s, hps, ha2, hb2⟩
    · rintro ⟨s2, hps2, ha2, hb2⟩
      have hseq : s2 = s := by
        rw [hps] at hps2
        exact (Option.some_inj.mp hps2).symm
      rw [hflag, ← hseq]
      exact sync_wq_iff.mpr ⟨ha2, hb2⟩

theorem sync_answer_iff_flag_witness :
    sync_wf dbW4 "r" ∧ run_coherent dbW4 "r" ∧
    ∀ p ∈ (sync_core dbW4 "r" 2).1.questions, p.run_id = "r" →
      ((∃ b ∈ (sync_core dbW4 "r" 2).1.answers, b.question_id = p.id) ↔
        p.is_approved = true) := by
  have hwf : sync_wf dbW4 "r" := by
    unfold sync_wf pk_wf links_wf
    decide
  have hco : run_coherent dbW4 "r" := by
    unfold run_coherent
    decide
  have href : ∀ b ∈ dbW4.answers, b.question_id < dbW4.next_question_id := by
    decide
  exact ⟨hwf, hco, fun p hp hpr =>
    (sync_answer_iff_flag dbW4 "r" 2 hwf hco href p hp hpr).1⟩

theorem gen_one_skip (r summ : String) (llm : String → String → String)
    (now : Nat) (st : GAPass) (q : QuestionStaging)
    (h : (st.old.filter (fun a => a.question_id == q.id)).any
      (fun a => a.is_approved != some false) = true) :
    gen_one_answer r summ llm now st q = st := by
  unfold gen_one_answer
  simp only []
  rw [h]
  simp

theorem gen_one_gen (r summ : String) (llm : String → String → String)
    (now : Nat) (st : GAPass) (q : QuestionStaging)
    (h : (st.old.filter (fun a => a.question_id == q.id)).any
      (fun a => a.is_approved != some false) = false) :
    gen_one_answer r summ llm now st q =
      { old := st.old.filter (fun a => !(a.question_id == q.id)),
        created := st.created ++
          [{ id := st.next_id, run_id := r, question_id := q.id,
             answer_text := llm q.question_text summ, is_approved := none,
             updated_at := now }],
        next_id := st.next_id + 1 } := by
  unfold gen_one_answer
  simp only []
  rw [h]
  simp

theorem gen_one_frame (r summ : String) (llm : String → String → String)
    (now : Nat) (st : GAPass) (q : QuestionStaging) {qid : Nat}
    (hne : q.id ≠ qid) :
    ((gen_one_answer r summ llm now st q).old.filter
      (fun a => a.question_id == qid) =
      st.old.filter (fun a => a.question_id == qid)) ∧
    ((gen_one_answer r summ llm now st q).created.filter
      (fun a => a.question_id == qid) =
      st.created.filter (fun a => a.question_id == qid)) := by
  cases hnr : (st.old.filter (fun a => a.question_id == q.id)).any
      (fun a => a.is_approved != some false) with
  | true => rw [gen_one_skip r summ llm now st q hnr]; exact ⟨rfl, rfl⟩
  | false =>
    rw [gen_one_gen r summ llm now st q hnr]
    constructor
    · show (st.old.filter (fun a => !(a.question_id == q.id))).filter
        (fun a => a.question_id == qid) = _
      rw [List.filter_filter]
      refine List.filter_congr (fun a _ => ?_)
      cases hqa : (a.question_id == qid) with
      | false => simp [hqa]
      | true =>
        have : a.question_id = qid := beq_iff_eq.mp hqa
        have hne2 : (a.question_id == q.id) = false :=
          beq_eq_false_iff_ne.mpr (by omega)
        simp [hqa, hne2]
    · have hone : ∀ (x : AnswerStaging), x.question_id = q.id →
          (([x] : List AnswerStaging).filter (fun a => a.question_id == qid)) = [] := by
        intro x hx
        simp only [List.filter_cons, List.filter_nil]
        rw [if_neg (by simp [beq_eq_false_iff_ne.mpr
          (show x.question_id ≠ qid by omega)])]
      simp only []
      rw [List.filter_append, hone _ rfl, List.append_nil]

theorem gen_fold_frame (r summ : String) (llm : String → String → String)
    (now : Nat) {qid : Nat} :
    ∀ {L : List QuestionStaging} {st : GAPass},
      (∀ x ∈ L, x.id ≠ qid) →
      ((L.foldl (gen_one_answer r summ llm now) st).old.filter
        (fun a => a.question_id == qid) =
        st.old.filter (fun a => a.question_id == qid)) ∧
      ((L.foldl (gen_one_answer r summ llm now) st).created.filter
        (fun a => a.question_id == qid) =
        st.created.filter (fun a => a.question_id == qid))
  | [], _, _ => ⟨rfl, rfl⟩
  | x :: L, st, h => by
    rw [List.foldl_cons]
    have hstep := gen_one_frame r summ llm now st x (h x (by simp))
    obtain ⟨h1, h2⟩ := @gen_fold_frame r summ llm now qid L
      (gen_one_answer r summ llm now st x)
      (fun y (hy : y ∈ L) => h y (by simp [hy]))
    exact ⟨by rw [h1, hstep.1], by rw [h2, hstep.2]⟩

theorem regenerates_congr {old1 old2 : List AnswerStaging} {q : QuestionStaging}
    (h : old1.filter (fun a => a.question_id == q.id) =
      old2.filter (fun a => a.question_id == q.id)) :
    regenerates old1 q = regenerates old2 q := by
  unfold regenerates
  rw [h]

theorem gen_fold_q (r summ : String) (llm : String → String → String)
    (now : Nat) :
    ∀ {L : List QuestionStaging} {st : GAPass} {q : QuestionStaging},
      (L.map (fun x => x.id)).Nodup → q ∈ L →
      (if regenerates st.old q then
        ((L.foldl (gen_one_answer r summ llm now) st).old.filter
          (fun a => a.question_id == q.id) = [] ∧
         ∃ newa, (L.foldl (gen_one_answer r summ llm now) st).created.filter
            (fun a => a.question_id == q.id) =
          st.created.filter (fun a => a.question_id == q.id) ++ [newa] ∧
          newa.run_id = r ∧ newa.question_id = q.id ∧ newa.is_approved = none ∧
          newa.answer_text = llm q.question_text summ)
      else
        ((L.foldl (gen_one_answer r summ llm now) st).old.filter
          (fun a => a.question_id == q.id) =
          st.old.filter (fun a => a.question_id == q.id) ∧
         (L.foldl (gen_one_answer r summ llm now) st).created.filter
          (fun a => a.question_id == q.id) =
          st.created.filter (fun a => a.question_id == q.id)))
  | [], _, q, _, hq => by simp at hq
  | q1 :: L, st, q, hn, hq => by
    rw [List.map_cons, List.nodup_cons] at hn
    obtain ⟨hhead, htail⟩ := hn
    rw [List.foldl_cons]
    rcases List.mem_cons.mp hq with rfl | hqL
    · have hfr : ∀ x ∈ L, x.id ≠ q.id := by
        intro x hx he
        exact hhead (he ▸ List.mem_map_of_mem (fun y => y.id) hx)
      cases hreg : regenerates st.old q with
      | true =>
        rw [if_pos rfl]
        have hany : (st.old.filter (fun a => a.question_id == q.id)).any
            (fun a => a.is_approved != some false) = false := by
          unfold regenerates at hreg
          cases hc : (st.old.filter (fun a => a.question_id == q.id)).any
              (fun a => a.is_approved != some false) with
          | false => rfl
          | true => rw [hc] at hreg; simp at hreg
        rw [gen_one_gen r summ llm now st q hany]
        obtain ⟨hfo, hfc⟩ := gen_fold_frame r summ llm now hfr
        constructor
        · rw [hfo]
          show (st.old.filter (fun a => !(a.question_id == q.id))).filter
            (fun a => a.question_id == q.id) = []
          rw [List.filter_filter]
          refine List.filter_eq_nil_iff.mpr (fun a _ => ?_)
          cases hqa : (a.question_id == q.id) with
          | false => simp [hqa]
          | true => simp [hqa]
        · refine
            ⟨{ id := st.next_id, run_id := r, question_id := q.id,
               answer_text := llm q.question_text summ, is_approved := none,
               updated_at := now },
             ?_, rfl, rfl, rfl, rfl⟩
          rw [hfc]
          simp only []
          rw [List.filter_append]
          congr 1
          simp only [List.filter_cons, List.filter_nil]
          rw [if_pos (by simp)]
      | false =>
        rw [if_neg (by simp)]
        have hany : (st.old.filter (fun a => a.question_id == q.id)).any
            (fun a => a.is_approved != some false) = true := by
          unfold regenerates at hreg
          cases hc : (st.old.filter (fun a => a.question_id == q.id)).any
              (fun a => a.is_approved != some false) with
          | true => rfl
          | false => rw [hc] at hreg; simp at hreg
        rw [gen_one_skip r summ llm now st q hany]
        exact gen_fold_frame r summ llm now hfr
    · have hne : q1.id ≠ q.id := by
        intro he
        exact hhead (he ▸ List.mem_map_of_mem (fun y => y.id) hqL)
      have hfr := gen_one_frame r summ llm now st q1 hne
      have hreg : regenerates ((gen_one_answer r summ llm now st q1).old) q =
          regenerates st.old q := regenerates_congr hfr.1
      have ih := @gen_fold_q r summ llm now L
        (gen_one_answer r summ llm now st q1) q htail hqL
      rw [hreg, hfr.1, hfr.2] at ih
      exact ih

theorem regenerates_eq_true_iff {old : List AnswerStaging} {q : QuestionStaging} :
    regenerates old q = true ↔
      ∀ a ∈ old, a.question_id = q.id → a.is_approved = some false := by
  unfold regenerates
  constructor
  · intro h a ha haq
    have hany : (old.filter (fun a => a.question_id == q.id)).any
        (fun a => a.is_approved != some false) = false := by
      cases hc : (old.filter (fun a => a.question_id == q.id)).any
          (fun a => a.is_approved != some false) with
      | false => rfl
      | true => rw [hc] at h; simp at h
    have := List.any_eq_false.mp hany a
      (List.mem_filter.mpr ⟨ha, by simp [haq]⟩)
    simpa using this
  · intro h
    have hany : (old.filter (fun a => a.question_id == q.id)).any
        (fun a => a.is_approved != some false) = false := by
      refine List.any_eq_false.mpr (fun a ha => ?_)
      obtain ⟨hmem, hq2⟩ := List.mem_filter.mp ha
      have := h a hmem (beq_iff_eq.mp hq2)
      simp [this]
    rw [hany]
    rfl

theorem generate_answers_filter (db : DB) (r : String)
    (llm : String → String → String) (now : Nat) (db' : DB)
    (out : List AnswerStaging) (q : QuestionStaging)
    (hn : (db.question_staging.map (fun x => x.id)).Nodup)
    (hgen : generate_answers db r llm now = (db', Except.ok out))
    (hq : q ∈ approved_questions_of db r) :
    (regenerates db.answer_staging q = true →
      ∃ newa, db'.answer_staging.filter (fun a => a.question_id == q.id) =
        [newa] ∧ newa.run_id = r ∧ newa.question_id = q.id ∧
        newa.is_approved = none) ∧
    (regenerates db.answer_staging q = false →
      db'.answer_staging.filter (fun a => a.question_id == q.id) =
        db.answer_staging.filter (fun a => a.question_id == q.id)) ∧
    db'.question_staging = db.question_staging ∧ db'.runs = db.runs := by
  unfold generate_answers at hgen
  cases hrun : db.runs.find? (fun ru => ru.id == r) with
  | none =>
    rw [hrun] at hgen
    exact absurd (congrArg Prod.snd hgen) (by simp)
  | some run =>
    rw [hrun] at hgen
    simp only [] at hgen
    cases hemp : (db.question_staging.filter
        (fun q => q.run_id == r && q.is_approved == some true)).isEmpty with
    | true =>
      rw [hemp, if_pos rfl] at hgen
      exact absurd (congrArg Prod.snd hgen) (by simp)
    | false =>
      rw [hemp, if_neg (by simp)] at hgen
      have hdb' := (congrArg Prod.fst hgen).symm
      simp only [] at hdb'
      have hLn : ((db.question_staging.filter
          (fun q => q.run_id == r && q.is_approved == some true)).map
          (fun x => x.id)).Nodup :=
        List.Sublist.nodup (List.Sublist.map _ (List.filter_sublist _)) hn
      have hchar := @gen_fold_q r run.summary llm now
        (db.question_staging.filter
          (fun q => q.run_id == r && q.is_approved == some true))
        ⟨db.answer_staging, [], db.next_staging_answer_id⟩ q hLn hq
      refine ⟨?_, ?_, by rw [hdb'], by rw [hdb']⟩
      · intro hre
        rw [if_pos hre] at hchar
        obtain ⟨hold, newa, hcre, hf1, hf2, hf3, _⟩ := hchar
        refine ⟨newa, ?_, hf1, hf2, hf3⟩
        rw [hdb']
        simp only []
        rw [List.filter_append, hold, hcre]
        simp
      · intro hre
        rw [if_neg (by simp [hre])] at hchar
        obtain ⟨hold, hcre⟩ := hchar
        rw [hdb']
        simp only []
        rw [List.filter_append, hold, hcre]
        simp

/- ==================== Claim C7 ==================== -/

/-- C7: answer regeneration gating.  For an approved staging question whose
existing staging answers are all rejected, generate-answers deletes them and
creates exactly one new unset staging answer for the question; when some
existing answer is unset or approved, the question's answers are left
untouched; and therefore a second call before any approval change creates no
further answer for it. -/
theorem generate_answers_gating (db : DB) (r : String)
    (llm llm2 : String → String → String) (now now2 : Nat) (db' : DB)
    (out : List AnswerStaging) (q : QuestionStaging)
    (hn : (db.question_staging.map (fun x => x.id)).Nodup)
    (hgen : generate_answers db r llm now = (db', Except.ok out))
    (hq : q ∈ approved_questions_of db r) :
    ((∀ a ∈ db.answer_staging, a.question_id = q.id → a.is_approved = some false) →
      ∃ newa, db'.answer_staging.filter (fun a => a.question_id == q.id) =
        [newa] ∧ newa.run_id = r ∧ newa.question_id = q.id ∧
        newa.is_approved = none) ∧
    ((∃ a ∈ db.answer_staging, a.question_id = q.id ∧ a.is_approved ≠ some false) →
      db'.answer_staging.filter (fun a => a.question_id == q.id) =
        db.answer_staging.filter (fun a => a.question_id == q.id)) ∧
    ((∀ a ∈ db.answer_staging, a.question_id = q.id → a.is_approved = some false) →
      ∀ db'' out2, generate_answers db' r llm2 now2 = (db'', Except.ok out2) →
        db''.answer_staging.filter (fun a => a.question_id == q.id) =
          db'.answer_staging.filter (fun a => a.question_id == q.id)) := by
  obtain ⟨hgen1, hgen2, hstq, hruns⟩ :=
    generate_answers_filter db r llm now db' out q hn hgen hq
  refine ⟨fun hall => hgen1 (regenerates_eq_true_iff.mpr hall), ?_, ?_⟩
  · rintro ⟨a, ha, haq, hne⟩
    refine hgen2 ?_
    cases hre : regenerates db.answer_staging q with
    | false => rfl
    | true => exact absurd (regenerates_eq_true_iff.mp hre a ha haq) hne
  · intro hall db'' out2 hgen'
    obtain ⟨newa, hfilter, hf1, hf2, hf3⟩ :=
      hgen1 (regenerates_eq_true_iff.mpr hall)
    have hn' : (db'.question_staging.map (fun x => x.id)).Nodup := by
      rw [hstq]
      exact hn
    have hq' : q ∈ approved_questions_of db' r := by
      unfold approved_questions_of
      rw [hstq]
      exact hq
    obtain ⟨_, hgen2', _, _⟩ :=
      generate_answers_filter db' r llm2 now2 db'' out2 q hn' hgen' hq'
    refine hgen2' ?_
    cases hre : regenerates db'.answer_staging q with
    | false => rfl
    | true =>
      exfalso
      have hmem : newa ∈ db'.answer_staging.filter
          (fun a => a.question_id == q.id) := by
        rw [hfilter]
        simp
      obtain ⟨hmem2, _⟩ := List.mem_filter.mp hmem
      have := regenerates_eq_true_iff.mp hre newa hmem2 hf2
      rw [hf3] at this
      exact absurd this (by simp)

/-- Gating scenario: an approved staging question with one rejected answer. -/
def sqW7 : QuestionStaging :=
  { id := 1, run_id := "r", question_text := "q", is_approved := some true,
    tags := [], updated_at := 0 }

def saW7 : AnswerStaging :=
  { id := 1, run_id := "r", question_id := 1, answer_text := "a",
    is_approved := some false, updated_at := 0 }

def dbW7 : DB :=
  { runs := [run0], question_staging := [sqW7], answer_staging := [saW7],
    questions := [], answers := [], tags := [],
    next_staging_question_id := 2, next_staging_answer_id := 2,
    next_question_id := 1, next_answer_id := 1, next_tag_id := 1 }

def llmW7 : String → String → String := fun _ _ => "generated"

/-- The state after the first generate-answers call. -/
def dbW7g : DB := (generate_answers dbW7 "r" llmW7 5).1

/-- The answer that call creates. -/
def saW7g : AnswerStaging :=
  { id := 2, run_id := "r", question_id := 1, answer_text := "generated",
    is_approved := none, updated_at := 5 }

theorem generate_answers_gating_witness :
    (∃ newa, dbW7g.answer_staging.filter (fun a => a.question_id == sqW7.id) =
      [newa] ∧ newa.run_id = "r" ∧ newa.question_id = sqW7.id ∧
      newa.is_approved = none) ∧
    ∀ db2 out2, generate_answers dbW7g "r" llmW7 6 = (db2, Except.ok out2) →
      db2.answer_staging.filter (fun a => a.question_id == sqW7.id) =
        dbW7g.answer_staging.filter (fun a => a.question_id == sqW7.id) := by
  have h := generate_answers_gating dbW7 "r" llmW7 llmW7 5 6 dbW7g [saW7g]
    sqW7 (by decide) rfl (by decide)
  exact ⟨h.1 (by decide), h.2.2 (by decide)⟩

theorem upd_answer_of_find_none (r : String) (now : Nat) (aq_ids : List Nat)
    (ell : Nat → Option Nat) {SA : List AnswerStaging} {b : Answer}
    (hfind : SA.find? (fun x =>
      match ans_target aq_ids ell x with
      | some aid => alink r aid x.id b
      | none => false) = none) :
    upd_answer r now aq_ids ell SA b = b := by
  unfold upd_answer
  rw [hfind]

theorem q_count_zero {r : String} {wq : List Nat} {qs0 : List Question} :
    ∀ {L : List QuestionStaging},
      (∀ sq ∈ L, ∃ t, qs0.find? (qlink r sq.id) = some t ∧
        (t.is_approved != wq.contains sq.id || !(same_id_set t.tags sq.tags)) =
          false) →
      q_count r wq qs0 L = 0
  | [], _ => rfl
  | sq :: L, h => by
    rw [q_count]
    obtain ⟨t, ht, hz⟩ := h sq (by simp)
    rw [ht]
    simp only []
    rw [if_neg (show ¬((t.is_approved != wq.contains sq.id ||
        !(same_id_set t.tags sq.tags)) = true) from by rw [hz]; simp),
      q_count_zero (fun x hx => h x (by simp [hx])), Nat.zero_add]

theorem sync_staging_stable (db : DB) (r : String) (now : Nat)
    (h : sync_wf db r) :
    approved_questions_of (sync_core db r now).1 r = approved_questions_of db r ∧
    approved_answers_of (sync_core db r now).1 r = approved_answers_of db r ∧
    sync_aq (sync_core db r now).1 r = sync_aq db r ∧
    sync_aa (sync_core db r now).1 r = sync_aa db r ∧
    sync_wq (sync_core db r now).1 r = sync_wq db r := by
  obtain ⟨_, _, _, _, hstq, hsta, _⟩ := sync_core_spec db r now h
  have h1 : approved_questions_of (sync_core db r now).1 r =
      approved_questions_of db r := by
    unfold approved_questions_of
    rw [hstq]
  have h2 : approved_answers_of (sync_core db r now).1 r =
      approved_answers_of db r := by
    unfold approved_answers_of
    rw [hsta]
  have h3 : sync_aq (sync_core db r now).1 r = sync_aq db r := by
    unfold sync_aq
    rw [h1]
  have h4 : sync_aa (sync_core db r now).1 r = sync_aa db r := by
    unfold sync_aa
    rw [h2]
  have h5 : sync_wq (sync_core db r now).1 r = sync_wq db r := by
    unfold sync_wq
    rw [h2, h3]
  exact ⟨h1, h2, h3, h4, h5⟩

theorem qs_final_filter_le_one (db : DB) (r : String) (now : Nat)
    (h : sync_wf db r) (s : Nat) :
    ((qs_final db r now).filter (qlink r s)).length ≤ 1 := by
  have hle1 := links_filter_q_le_one (sync_preserves_wf db r now h).2 s
  obtain ⟨hqs, _⟩ := sync_core_spec db r now h
  rwa [hqs] at hle1

theorem resync_new_questions_nil (db : DB) (r : String) (now now2 : Nat)
    (h : sync_wf db r) {wq2 : List Nat} {n2 : Nat} :
    new_questions r now2 wq2 (qs_final db r now) n2
      (approved_questions_of db r) = [] := by
  refine new_questions_nil_of_any (fun sq hsq => ?_)
  obtain ⟨t, htf, _⟩ := sync_target db r now h hsq
  exact any_of_find?_some htf

theorem qcontent_ext {a b : Question} (h1 : a.id = b.id) (h2 : a.run_id = b.run_id)
    (h3 : a.staging_id = b.staging_id) (h4 : a.question_text = b.question_text)
    (h5 : a.is_approved = b.is_approved) (h6 : a.tags = b.tags) :
    a.content = b.content := by
  unfold Question.content
  rw [h1, h2, h3, h4, h5, h6]

theorem resync_question_content (db : DB) (r : String) (now now2 : Nat)
    (h : sync_wf db r) :
    ∀ q ∈ qs_final db r now,
      ((demote_one r (sync_aq db r) (sync_wq db r) now2
        (upd_question r now2 (sync_wq db r) (approved_questions_of db r) q)).1).content
        = q.content ∧
      (demote_one r (sync_aq db r) (sync_wq db r) now2
        (upd_question r now2 (sync_wq db r) (approved_questions_of db r) q)).2 = 0 := by
  intro q hq
  by_cases hrun : q.run_id = r
  · cases hst : q.staging_id with
    | none =>
      rw [upd_question_of_none r now2 _ _ hst, demote_one_of_none r _ _ now2 hst]
      exact ⟨rfl, rfl⟩
    | some s =>
      by_cases hs0 : s = 0
      · subst hs0
        have hfn : (approved_questions_of db r).find? (fun x => x.id == 0) = none := by
          refine find?_id_none_of_not_mem ?_
          intro hmem
          obtain ⟨x, hx, hx0⟩ := List.mem_map.mp hmem
          have := h.1.2.1 x (List.mem_of_mem_filter hx)
          omega
        rw [upd_question_of_find_none r now2 _ hst hfn,
          demote_one_of_zero r _ _ now2 hst]
        exact ⟨rfl, rfl⟩
      · cases hfind : (approved_questions_of db r).find? (fun x => x.id == s) with
        | none =>
          rw [upd_question_of_find_none r now2 _ hst hfind]
          have haqf : (sync_aq db r).contains s = false := by
            cases hc : (sync_aq db r).contains s with
            | false => rfl
            | true =>
              obtain ⟨sq', hf', _⟩ := approved_find_of_contains h hc
              rw [hf'] at hfind
              exact absurd hfind (by simp)
          have hflagf : q.is_approved = false :=
            qs_final_stale_flag hq hrun hst hs0 (Or.inl haqf)
          have hstale := demote_one_of_stale r (sync_aq db r) (sync_wq db r) now2
            hrun hst hs0 (Or.inl haqf)
          rw [hstale]
          constructor
          · refine qcontent_ext rfl rfl rfl rfl ?_ rfl
            rw [hflagf]
          · simp only []
            rw [hflagf]
            simp
        | some sq =>
          have hsq_mem : sq ∈ approved_questions_of db r :=
            List.mem_of_find?_eq_some hfind
          have hsqid : sq.id = s := by
            have := List.find?_some hfind
            simpa using this
          obtain ⟨t, htf, htrun, htst, htext, httags, htflag, _, _⟩ :=
            sync_target db r now h hsq_mem
          rw [hsqid] at htf htflag
          have hql : qlink r s q = true := qlink_iff.mpr ⟨hrun, hst⟩
          have hfq : (qs_final db r now).find? (qlink r s) = some q :=
            find?_of_mem_filter_le_one hq hql (qs_final_filter_le_one db r now h s)
          have hqt : q = t := by
            rw [hfq] at htf
            exact Option.some_inj.mp htf
          have hqtext : q.question_text = sq.question_text := by rw [hqt]; exact htext
          have hqtags : q.tags = sq.tags := by rw [hqt]; exact httags
          have hqflag : q.is_approved = (sync_wq db r).contains s := by
            rw [hqt]
            exact htflag
          have haq : (sync_aq db r).contains s = true := by
            rw [← hsqid]
            exact contains_iff_mem.mpr (List.mem_map_of_mem _ hsq_mem)
          have hupd := upd_question_of_link r now2 (sync_wq db r) hrun hst hfind
          have hfld := upd_question_fields r now2 (sync_wq db r)
            (approved_questions_of db r) q
          have hxs : (upd_question r now2 (sync_wq db r)
              (approved_questions_of db r) q).staging_id = some s := by
            rw [hfld.2.2]
            exact hst
          have hxr : (upd_question r now2 (sync_wq db r)
              (approved_questions_of db r) q).run_id = r := by
            rw [hfld.2.1]
            exact hrun
          have hxflag : (upd_question r now2 (sync_wq db r)
              (approved_questions_of db r) q).is_approved =
              (sync_wq db r).contains s := by
            rw [hupd]
          have hxtext : (upd_question r now2 (sync_wq db r)
              (approved_questions_of db r) q).question_text =
              sq.question_text := by
            rw [hupd]
          have hxtags : (upd_question r now2 (sync_wq db r)
              (approved_questions_of db r) q).tags = sq.tags := by
            rw [hupd]
          cases hwq : (sync_wq db r).contains s with
          | true =>
            have hlive := demote_one_of_live r (sync_aq db r) (sync_wq db r) now2
              hxs haq hwq
            rw [hlive]
            exact ⟨qcontent_ext hfld.1 (hxr.trans hrun.symm)
              (hxs.trans hst.symm) (hxtext.trans hqtext.symm)
              (hxflag.trans hqflag.symm) (hxtags.trans hqtags.symm), rfl⟩
          | false =>
            have hstale := demote_one_of_stale r (sync_aq db r) (sync_wq db r) now2
              hxr hxs hs0 (Or.inr hwq)
            rw [hstale]
            constructor
            · refine qcontent_ext hfld.1 (hxr.trans hrun.symm)
                (hxs.trans hst.symm) (hxtext.trans hqtext.symm) ?_
                (hxtags.trans hqtags.symm)
              show false = q.is_approved
              rw [hqflag, hwq]
            · simp only []
              rw [hxflag, hwq]
              simp
  · rw [upd_question_of_not_run r now2 _ _ hrun,
      demote_one_of_not_run r _ _ now2 hrun]
    exact ⟨rfl, rfl⟩

theorem acontent_ext {a b : Answer} (h1 : a.id = b.id) (h2 : a.run_id = b.run_id)
    (h3 : a.question_id = b.question_id) (h4 : a.staging_id = b.staging_id)
    (h5 : a.answer_text = b.answer_text) : a.content = b.content := by
  unfold Answer.content
  rw [h1, h2, h3, h4, h5]

theorem should_delete_congr {aq aa : List Nat} {qs : List Question}
    {b b2 : Answer} (h1 : b.staging_id = b2.staging_id)
    (h2 : b.question_id = b2.question_id) :
    should_delete aq aa qs b = should_delete aq aa qs b2 := by
  unfold should_delete
  rw [h1, h2]

theorem find?_qid_map {k : Nat} {f : Question → Question}
    (hf : ∀ x, (f x).id = x.id) (l : List Question) :
    (l.map f).find? (fun x => x.id == k) =
      Option.map f (l.find? (fun x => x.id == k)) := by
  rw [List.find?_map f l]
  simp only [Function.comp_def]
  rw [find?_congr (fun x _ => by rw [hf x])]

theorem resync_qs_after (db : DB) (r : String) (now now2 : Nat)
    (h : sync_wf db r) :
    qs_after (sync_core db r now).1 r now2 =
      (qs_final db r now).map (upd_question r now2 (sync_wq db r)
        (approved_questions_of db r)) := by
  obtain ⟨hqs, _⟩ := sync_core_spec db r now h
  obtain ⟨hL, _, _, _, hwq⟩ := sync_staging_stable db r now h
  unfold qs_after
  rw [hL, hwq, hqs, resync_new_questions_nil db r now now2 h, List.append_nil]

theorem resync_qs_final (db : DB) (r : String) (now now2 : Nat)
    (h : sync_wf db r) :
    qs_final (sync_core db r now).1 r now2 =
      (qs_final db r now).map (fun q =>
        (demote_one r (sync_aq db r) (sync_wq db r) now2
          (upd_question r now2 (sync_wq db r)
            (approved_questions_of db r) q)).1) := by
  obtain ⟨_, _, haq, _, hwq⟩ := sync_staging_stable db r now h
  unfold qs_final
  rw [resync_qs_after db r now now2 h, haq, hwq, List.map_map]
  rfl

theorem resync_target (db : DB) (r : String) (now now2 : Nat) (h : sync_wf db r)
    {sq : QuestionStaging} (hsq : sq ∈ approved_questions_of db r) :
    ∃ t, (qs_final db r now).find? (qlink r sq.id) = some t ∧
      publish_map (sync_core db r now).1 r now2 sq.id = some t.id ∧
      publish_map db r now sq.id = some t.id ∧ 1 ≤ t.id := by
  obtain ⟨t, htf, _, _, _, _, _, htid, hpm⟩ := sync_target db r now h hsq
  refine ⟨t, htf, ?_, hpm, htid⟩
  unfold publish_map
  rw [resync_qs_after db r now now2 h]
  rw [find?_qlink_map (fun q => ⟨(upd_question_fields _ _ _ _ q).2.1,
    (upd_question_fields _ _ _ _ q).2.2⟩), htf]
  show some (upd_question r now2 (sync_wq db r)
    (approved_questions_of db r) t).id = some t.id
  rw [(upd_question_fields _ _ _ _ t).1]

theorem resync_answers_new_nil (db : DB) (r : String) (now now2 : Nat)
    (h : sync_wf db r) :
    answers_new (sync_core db r now).1 r now2 = [] := by
  obtain ⟨hqs, has, _⟩ := sync_core_spec db r now h
  obtain ⟨hL, hSA, haq, haa, hwq⟩ := sync_staging_stable db r now h
  unfold answers_new
  rw [hSA, haq]
  refine new_answers_nil (fun sa hsa aid htgt => ?_)
  obtain ⟨hcont, hell, hz⟩ := ans_target_some_iff.mp htgt
  obtain ⟨sq, hsqmem, hsqid⟩ := List.mem_map.mp (contains_iff_mem.mp hcont)
  obtain ⟨t, htf, hpm1, hpm0, htid⟩ := resync_target db r now now2 h hsqmem
  rw [hsqid] at hpm1 hpm0
  have haid : aid = t.id := by
    rw [hell] at hpm1
    exact Option.some_inj.mp hpm1
  obtain ⟨aid0, b, hpm2, haid0, hbmem, hbrun, hbqid, hbst, hbtext⟩ :=
    sync_answer_published db r now h hsa hcont
  have haid0t : aid0 = t.id := by
    rw [hpm0] at hpm2
    exact (Option.some_inj.mp hpm2).symm
  rw [List.any_eq_true]
  refine ⟨b, by rw [has]; exact hbmem, ?_⟩
  rw [alink_iff]
  exact ⟨hbrun, by omega, hbst⟩

theorem synced_answer_text (db : DB) (r : String) (now : Nat) (h : sync_wf db r)
    {b : Answer} (hb : b ∈ answers_final db r now) {sa : AnswerStaging}
    (hsa : sa ∈ approved_answers_of db r) (hbst : b.staging_id = some sa.id)
    (hbrun : b.run_id = r) {aid : Nat} (hbq : b.question_id = aid)
    (haidz : (aid == 0) = false)
    (hpm : publish_map db r now sa.question_id = some aid)
    (haq : (sync_aq db r).contains sa.question_id = true) :
    b.answer_text = sa.answer_text := by
  have hSAn : ((approved_answers_of db r).map (fun a => a.id)).Nodup :=
    List.Sublist.nodup (List.Sublist.map _ (List.filter_sublist _)) h.1.2.2.1
  rcases List.mem_append.mp hb with hdel | hnew
  · unfold delete_pass at hdel
    have hup : b ∈ answers_upd db r now := List.mem_of_mem_filter hdel
    obtain ⟨b00, hb00, hbeq⟩ := List.mem_map.mp hup
    cases hf1 : (approved_answers_of db r).find? (fun x =>
        match ans_target (sync_aq db r) (publish_map db r now) x with
        | some a => alink r a x.id b00
        | none => false) with
    | none =>
      have hid := upd_answer_of_find_none r now (sync_aq db r)
        (publish_map db r now) hf1
      rw [hid] at hbeq
      have htgt : ans_target (sync_aq db r) (publish_map db r now) sa = some aid :=
        ans_target_some_iff.mpr ⟨haq, hpm, haidz⟩
      have hpred : (fun x =>
          match ans_target (sync_aq db r) (publish_map db r now) x with
          | some a => alink r a x.id b00
          | none => false) sa = true := by
        simp only [htgt]
        rw [alink_iff]
        rw [hbeq]
        exact ⟨hbrun, hbq, hbst⟩
      exact absurd hpred (List.find?_eq_none.mp hf1 sa hsa)
    | some sa1 =>
      have hupd := upd_answer_of_find r now (sync_aq db r)
        (publish_map db r now) hf1
      rw [hupd] at hbeq
      have hpred1 := List.find?_some hf1
      simp only [] at hpred1
      cases ht1 : ans_target (sync_aq db r) (publish_map db r now) sa1 with
      | none => rw [ht1] at hpred1; simp at hpred1
      | some a1 =>
        rw [ht1] at hpred1
        simp only [] at hpred1
        have hb00st := (alink_iff.mp hpred1).2.2
        have hbst1 : b.staging_id = some sa1.id := by
          rw [← hbeq]
          exact hb00st
        rw [hbst] at hbst1
        have hsa_eq : sa1 = sa :=
          eq_of_nodup_key hSAn (List.mem_of_find?_eq_some hf1) hsa
            (Option.some_inj.mp hbst1).symm
        rw [← hbeq, ← hsa_eq]
  · obtain ⟨sa2, hsa2, a2, htg2, hrun2, hqid2, hst2, htext2, _⟩ :=
      new_answers_mem hnew
    rw [hbst] at hst2
    have hsa_eq : sa2 = sa :=
      eq_of_nodup_key hSAn hsa2 hsa (Option.some_inj.mp hst2).symm
    rw [htext2, hsa_eq]

theorem resync_no_delete (db : DB) (r : String) (now now2 : Nat)
    (h : sync_wf db r) {b0 : Answer} (hb0 : b0 ∈ answers_final db r now)
    (hrun : b0.run_id = r) :
    should_delete (sync_aq db r) (sync_aa db r)
      (qs_final (sync_core db r now).1 r now2) b0 = false := by
  have hFid : ∀ x : Question,
      ((demote_one r (sync_aq db r) (sync_wq db r) now2
        (upd_question r now2 (sync_wq db r)
          (approved_questions_of db r) x)).1).id = x.id := by
    intro x
    rw [(demote_one_fields _ _ _ _ _).1, (upd_question_fields _ _ _ _ _).1]
  have hFst : ∀ x : Question,
      ((demote_one r (sync_aq db r) (sync_wq db r) now2
        (upd_question r now2 (sync_wq db r)
          (approved_questions_of db r) x)).1).staging_id = x.staging_id := by
    intro x
    rw [(demote_one_fields _ _ _ _ _).2.2.1, (upd_question_fields _ _ _ _ _).2.2]
  have hsurv : b0 ∈ delete_pass r (sync_aq db r) (sync_aa db r)
      (qs_final db r now) (answers_upd db r now) →
      should_delete (sync_aq db r) (sync_aa db r) (qs_final db r now) b0 =
        false := by
    intro hdel
    unfold delete_pass at hdel
    obtain ⟨_, hcond⟩ := List.mem_filter.mp hdel
    cases hsd : should_delete (sync_aq db r) (sync_aa db r)
        (qs_final db r now) b0 with
    | false => rfl
    | true =>
      rw [hsd, show (b0.run_id == r) = true from by simp [hrun]] at hcond
      simp at hcond
  unfold should_delete
  rw [Bool.or_eq_false_iff]
  constructor
  · cases hbst : b0.staging_id with
    | none => rfl
    | some k =>
      simp only []
      by_cases hk0 : k = 0
      · subst hk0
        simp
      · have hkaa : (sync_aa db r).contains k = true := by
          rcases List.mem_append.mp hb0 with hdel | hnew
          · exact (should_delete_false_parts (hsurv hdel)).1 k hbst hk0
          · obtain ⟨sa2, hsa2, a2, _, _, _, hst2, _⟩ := new_answers_mem hnew
            rw [hbst] at hst2
            rw [Option.some_inj.mp hst2]
            exact contains_iff_mem.mpr (List.mem_map_of_mem _ hsa2)
        rw [hkaa]
        simp
  · by_cases hq0 : b0.question_id = 0
    · rw [if_neg (by simp [hq0])]
    · rw [if_pos (bne_iff_ne.mpr hq0)]
      rw [resync_qs_final db r now now2 h, find?_qid_map hFid (qs_final db r now)]
      cases hfo : (qs_final db r now).find? (fun x => x.id == b0.question_id) with
      | none => rfl
      | some q1 =>
        rw [show Option.map (fun x =>
            (demote_one r (sync_aq db r) (sync_wq db r) now2
              (upd_question r now2 (sync_wq db r)
                (approved_questions_of db r) x)).1) (some q1) =
          some ((demote_one r (sync_aq db r) (sync_wq db r) now2
            (upd_question r now2 (sync_wq db r)
              (approved_questions_of db r) q1)).1) from rfl]
        simp only []
        rw [hFst q1]
        cases hq1st : q1.staging_id with
        | none => rfl
        | some s2 =>
          simp only []
          by_cases hs20 : s2 = 0
          · subst hs20
            simp
          · have hcont : (sync_aq db r).contains s2 = true := by
              rcases List.mem_append.mp hb0 with hdel | hnew
              · exact (should_delete_false_parts (hsurv hdel)).2 q1 hfo hq0 s2
                  hq1st hs20
              · obtain ⟨sa2, hsa2, a2, htg2, hrun2, hqid2, hst2, _⟩ :=
                  new_answers_mem hnew
                obtain ⟨hcont2, hell2, hz2⟩ := ans_target_some_iff.mp htg2
                unfold publish_map at hell2
                cases hfq : (qs_after db r now).find? (qlink r sa2.question_id) with
                | none => rw [hfq] at hell2; simp at hell2
                | some trow =>
                  rw [hfq] at hell2
                  have htrowid : trow.id = a2 := by
                    have h2 : some trow.id = some a2 := hell2
                    exact Option.some_inj.mp h2
                  obtain ⟨htr_run, htr_st⟩ := qlink_iff.mp (List.find?_some hfq)
                  have hdmem : (demote_one r (sync_aq db r) (sync_wq db r) now
                      trow).1 ∈ qs_final db r now := by
                    unfold qs_final
                    exact List.mem_map_of_mem _ (List.mem_of_find?_eq_some hfq)
                  have hdid : (demote_one r (sync_aq db r) (sync_wq db r) now
                      trow).1.id = b0.question_id := by
                    rw [(demote_one_fields _ _ _ _ _).1, htrowid, ← hqid2]
                  have hq1mem : q1 ∈ qs_final db r now :=
                    List.mem_of_find?_eq_some hfo
                  have hq1id : q1.id = b0.question_id := by
                    simpa using List.find?_some hfo
                  have hq1eq : q1 = (demote_one r (sync_aq db r) (sync_wq db r)
                      now trow).1 :=
                    eq_of_nodup_key (qs_final_pk db r now h.1).1 hq1mem hdmem
                      (by omega)
                  have hq1s : q1.staging_id = some sa2.question_id := by
                    rw [hq1eq, (demote_one_fields _ _ _ _ _).2.2.1, htr_st]
                  rw [hq1st] at hq1s
                  rw [Option.some_inj.mp hq1s]
                  exact hcont2
            rw [hcont]
            simp

theorem resync_questions (db : DB) (r : String) (now now2 : Nat)
    (h : sync_wf db r) :
    (sync_core (sync_core db r now).1 r now2).1.questions.map Question.content =
      (sync_core db r now).1.questions.map Question.content := by
  have h1 := sync_preserves_wf db r now h
  obtain ⟨hqs0, _⟩ := sync_core_spec db r now h
  obtain ⟨hqs1, _⟩ := sync_core_spec (sync_core db r now).1 r now2 h1
  rw [hqs1, resync_qs_final db r now now2 h, hqs0, List.map_map]
  refine List.map_congr_left (fun q hq => ?_)
  simp only [Function.comp_def]
  exact (resync_question_content db r now now2 h q hq).1

theorem resync_answers (db : DB) (r : String) (now now2 : Nat)
    (h : sync_wf db r) :
    (sync_core (sync_core db r now).1 r now2).1.answers.map Answer.content =
      (sync_core db r now).1.answers.map Answer.content := by
  have h1 := sync_preserves_wf db r now h
  obtain ⟨hqs0, has0, _⟩ := sync_core_spec db r now h
  obtain ⟨hqs1, has1, _⟩ := sync_core_spec (sync_core db r now).1 r now2 h1
  obtain ⟨hL, hSA, haq, haa, hwq⟩ := sync_staging_stable db r now h
  rw [has1]
  unfold answers_final
  rw [resync_answers_new_nil db r now now2 h, List.append_nil, haq, haa]
  have hdel : delete_pass r (sync_aq db r) (sync_aa db r)
      (qs_final (sync_core db r now).1 r now2)
      (answers_upd (sync_core db r now).1 r now2) =
      answers_upd (sync_core db r now).1 r now2 := by
    unfold delete_pass
    refine List.filter_eq_self.mpr (fun b hb => ?_)
    unfold answers_upd at hb
    obtain ⟨b0, hb0, hbeq⟩ := List.mem_map.mp hb
    rw [has0] at hb0
    have hst_eq : b.staging_id = b0.staging_id := by
      rw [← hbeq, (upd_answer_fields _ _ _ _ _ b0).2.2.2]
    have hq_eq : b.question_id = b0.question_id := by
      rw [← hbeq, (upd_answer_fields _ _ _ _ _ b0).2.2.1]
    have hr_eq : b.run_id = b0.run_id := by
      rw [← hbeq, (upd_answer_fields _ _ _ _ _ b0).2.1]
    cases hrb : (b.run_id == r) with
    | false => simp [hrb]
    | true =>
      have hb0run : b0.run_id = r := by
        rw [← hr_eq]
        exact beq_iff_eq.mp hrb
      have hsd2 : should_delete (sync_aq db r) (sync_aa db r)
          (qs_final (sync_core db r now).1 r now2) b = false := by
        rw [should_delete_congr hst_eq hq_eq]
        exact resync_no_delete db r now now2 h hb0 hb0run
      rw [hsd2]
      simp
  rw [hdel]
  unfold answers_upd
  rw [List.map_map]
  refine List.map_congr_left (fun b hb => ?_)
  have hbf : b ∈ answers_final db r now := by
    rw [← has0]
    exact hb
  simp only [Function.comp_def]
  rw [haq, hSA]
  cases hf2 : (approved_answers_of db r).find? (fun x =>
      match ans_target (sync_aq db r)
        (publish_map (sync_core db r now).1 r now2) x with
      | some a => alink r a x.id b
      | none => false) with
  | none => rw [upd_answer_of_find_none r now2 _ _ hf2]
  | some sa =>
    rw [upd_answer_of_find r now2 _ _ hf2]
    have hpred := List.find?_some hf2
    simp only [] at hpred
    cases ht : ans_target (sync_aq db r)
        (publish_map (sync_core db r now).1 r now2) sa with
    | none => rw [ht] at hpred; simp at hpred
    | some a =>
      rw [ht] at hpred
      simp only [] at hpred
      obtain ⟨hbr, hbq, hbs⟩ := alink_iff.mp hpred
      obtain ⟨hcont, hell, hz⟩ := ans_target_some_iff.mp ht
      obtain ⟨sq, hsqmem, hsqid⟩ := List.mem_map.mp (contains_iff_mem.mp hcont)
      obtain ⟨t, htf, hpm1, hpm0, htid⟩ := resync_target db r now now2 h hsqmem
      rw [hsqid] at hpm1 hpm0
      have hat : a = t.id := by
        rw [hell] at hpm1
        exact Option.some_inj.mp hpm1
      have hsa_mem : sa ∈ approved_answers_of db r :=
        List.mem_of_find?_eq_some hf2
      have hpm : publish_map db r now sa.question_id = some a := by
        rw [hat]
        exact hpm0
      have htext := synced_answer_text db r now h hbf hsa_mem hbs hbr hbq hz
        hpm hcont
      exact acontent_ext rfl rfl rfl rfl htext.symm

theorem resync_count (db : DB) (r : String) (now now2 : Nat)
    (h : sync_wf db r) :
    (sync_core (sync_core db r now).1 r now2).2 = 0 := by
  have h1 := sync_preserves_wf db r now h
  obtain ⟨hqs0, has0, _⟩ := sync_core_spec db r now h
  obtain ⟨_, _, hcnt1, _⟩ := sync_core_spec (sync_core db r now).1 r now2 h1
  rw [hcnt1]
  unfold sync_cnt
  obtain ⟨hL, hSA, haq, haa, hwq⟩ := sync_staging_stable db r now h
  have hqc : q_count r (sync_wq (sync_core db r now).1 r)
      (sync_core db r now).1.questions
      (approved_questions_of (sync_core db r now).1 r) = 0 := by
    rw [hwq, hL, hqs0]
    refine q_count_zero (fun sq hsq => ?_)
    obtain ⟨t, htf, _, _, _, httags, htflag, _, _⟩ := sync_target db r now h hsq
    refine ⟨t, htf, ?_⟩
    rw [htflag, httags, same_id_set_refl]
    simp
  have hdc : demote_cnt (sync_core db r now).1 r now2 = 0 := by
    unfold demote_cnt
    rw [resync_qs_after db r now now2 h, haq, hwq, List.map_map]
    refine List.sum_eq_zero (fun x hx => ?_)
    obtain ⟨q, hqmem, hqeq⟩ := List.mem_map.mp hx
    rw [← hqeq]
    simp only [Function.comp_def]
    exact (resync_question_content db r now now2 h q hqmem).2
  rw [hqc, hdc]

/- ==================== Claim C1 ==================== -/

/-- C1: the sync engine is idempotent.  After one sync pass, a second pass with
no intervening staging mutation leaves every published question and every
published answer with identical reviewer-visible content — id, run, staging
link, text, `has_approved_answer` flag and tag set (everything except the
`updated_at` audit stamp) — and the second pass reports
`questions_synced = 0`. -/
theorem sync_idempotent (db : DB) (r : String) (now now2 : Nat)
    (h : sync_wf db r) :
    ((sync_core (sync_core db r now).1 r now2).1.questions.map Question.content =
      (sync_core db r now).1.questions.map Question.content) ∧
    ((sync_core (sync_core db r now).1 r now2).1.answers.map Answer.content =
      (sync_core db r now).1.answers.map Answer.content) ∧
    (sync_core (sync_core db r now).1 r now2).2 = 0 :=
  ⟨resync_questions db r now now2 h, resync_answers db r now now2 h,
   resync_count db r now now2 h⟩

theorem sync_idempotent_witness :
    sync_wf dbW4 "r" ∧
    ((sync_core (sync_core dbW4 "r" 2).1 "r" 3).1.questions.map Question.content =
      (sync_core dbW4 "r" 2).1.questions.map Question.content) ∧
    ((sync_core (sync_core dbW4 "r" 2).1 "r" 3).1.answers.map Answer.content =
      (sync_core dbW4 "r" 2).1.answers.map Answer.content) ∧
    (sync_core (sync_core dbW4 "r" 2).1 "r" 3).2 = 0 := by
  have hwf : sync_wf dbW4 "r" := by
    unfold sync_wf pk_wf links_wf
    decide
  exact ⟨hwf, (sync_idempotent dbW4 "r" 2 3 hwf).1,
    (sync_idempotent dbW4 "r" 2 3 hwf).2.1, (sync_idempotent dbW4 "r" 2 3 hwf).2.2⟩

/- ==================== Claim C5 ==================== -/

/-- C5: demotion counting.  When the run's only approved staging question has
lost every approved staging answer and its published question still carries
`has_approved_answer = true`, a sync reports `questions_synced = 1` — the
demotion is counted exactly once, in the flag flip of step 2 — and a further
sync with no staging change reports 0; and a question whose flag is already
false is never counted by the demotion step. -/
theorem demotion_counted_once (db : DB) (r : String) (now now2 : Nat)
    (h : sync_wf db r) (sq : QuestionStaging) (p : Question)
    (happ : approved_questions_of db r = [sq])
    (hnoans : ¬ staging_q_has_approved_answer db r sq.id)
    (hp : p ∈ db.questions) (hql : qlink r sq.id p = true)
    (hflag : p.is_approved = true)
    (honly : ∀ q ∈ db.questions, q.run_id = r → q.is_approved = true → q = p) :
    (sync_core db r now).2 = 1 ∧
    (sync_core (sync_core db r now).1 r now2).2 = 0 ∧
    (∀ q : Question, q.is_approved = false →
      (demote_one r (sync_aq db r) (sync_wq db r) now q).2 = 0) := by
  obtain ⟨_, _, hcnt, _⟩ := sync_core_spec db r now h
  have hsq_appr : sq ∈ approved_questions_of db r := by rw [happ]; simp
  have hsqpos : 1 ≤ sq.id := h.1.2.1 sq (List.mem_of_mem_filter hsq_appr)
  have hwqf : (sync_wq db r).contains sq.id = false := by
    cases hc : (sync_wq db r).contains sq.id with
    | false => rfl
    | true => exact absurd (sync_wq_iff.mp hc).2 hnoans
  have hfp : db.questions.find? (qlink r sq.id) = some p :=
    find?_of_mem_filter_le_one hp hql (links_filter_q_le_one h.2 sq.id)
  have hpst : p.staging_id = some sq.id := (qlink_iff.mp hql).2
  refine ⟨?_, resync_count db r now now2 h, ?_⟩
  · rw [hcnt]
    unfold sync_cnt
    have hqc : q_count r (sync_wq db r) db.questions
        (approved_questions_of db r) = 1 := by
      rw [happ, q_count, hfp]
      simp only []
      rw [hflag, hwqf, if_pos (by simp), q_count]
    have hdc : demote_cnt db r now = 0 := by
      unfold demote_cnt
      refine List.sum_eq_zero (fun x hx => ?_)
      obtain ⟨q, hqmem, hqeq⟩ := List.mem_map.mp hx
      rw [← hqeq]
      unfold qs_after at hqmem
      rcases List.mem_append.mp hqmem with hold | hnewm
      · obtain ⟨q0, hq0, hueq⟩ := List.mem_map.mp hold
        rw [← hueq]
        by_cases hq0run : q0.run_id = r
        · cases hq0st : q0.staging_id with
          | none =>
            rw [upd_question_of_none r now _ _ hq0st,
              demote_one_of_none r _ _ now hq0st]
          | some s =>
            by_cases hs_eq : s = sq.id
            · subst hs_eq
              have hfind : (approved_questions_of db r).find?
                  (fun x => x.id == sq.id) = some sq := by
                rw [happ]
                simp
              have hupd := upd_question_of_link r now (sync_wq db r) hq0run
                hq0st hfind
              have hfld := upd_question_fields r now (sync_wq db r)
                (approved_questions_of db r) q0
              have hxs : (upd_question r now (sync_wq db r)
                  (approved_questions_of db r) q0).staging_id = some sq.id := by
                rw [hfld.2.2]
                exact hq0st
              have hxr : (upd_question r now (sync_wq db r)
                  (approved_questions_of db r) q0).run_id = r := by
                rw [hfld.2.1]
                exact hq0run
              rw [demote_one_of_stale r _ _ now hxr hxs (by omega) (Or.inr hwqf)]
              simp only []
              rw [hupd]
              show (if (sync_wq db r).contains sq.id = true then 1 else 0) = 0
              rw [hwqf]
              simp
            · have hfn : (approved_questions_of db r).find?
                  (fun x => x.id == s) = none := by
                rw [happ]
                simp only [List.find?_cons, List.find?_nil]
                rw [show (sq.id == s) = false from
                  beq_eq_false_iff_ne.mpr (fun he => hs_eq he.symm)]
              rw [upd_question_of_find_none r now _ hq0st hfn]
              by_cases hs0 : s = 0
              · subst hs0
                rw [demote_one_of_zero r _ _ now hq0st]
              · have haqf : (sync_aq db r).contains s = false := by
                  cases hc : (sync_aq db r).contains s with
                  | false => rfl
                  | true =>
                    have := contains_iff_mem.mp hc
                    unfold sync_aq at this
                    rw [happ] at this
                    simp at this
                    exact absurd this.symm (fun he => hs_eq he.symm)
                rw [demote_one_of_stale r _ _ now hq0run hq0st hs0 (Or.inl haqf)]
                simp only []
                have hq0flag : q0.is_approved = false := by
                  cases hcf : q0.is_approved with
                  | false => rfl
                  | true =>
                    exfalso
                    have hq0p := honly q0 hq0 hq0run hcf
                    rw [hq0p, hpst] at hq0st
                    exact hs_eq (Option.some_inj.mp hq0st).symm
                rw [hq0flag]
                simp
        · rw [upd_question_of_not_run r now _ _ hq0run,
            demote_one_of_not_run r _ _ now hq0run]
      · exfalso
        rw [happ, new_questions, if_pos (by rw [any_of_find?_some hfp]),
          new_questions] at hnewm
        simp at hnewm
    rw [hqc, hdc]
  · intro q hqf
    by_cases hr2 : q.run_id = r
    · cases hst2 : q.staging_id with
      | none => rw [demote_one_of_none r _ _ now hst2]
      | some s =>
        by_cases hs0 : s = 0
        · subst hs0
          rw [demote_one_of_zero r _ _ now hst2]
        · cases ha2 : (sync_aq db r).contains s with
          | false =>
            rw [demote_one_of_stale r _ _ now hr2 hst2 hs0 (Or.inl ha2)]
            simp [hqf]
          | true =>
            cases hw2 : (sync_wq db r).contains s with
            | false =>
              rw [demote_one_of_stale r _ _ now hr2 hst2 hs0 (Or.inr hw2)]
              simp [hqf]
            | true => rw [demote_one_of_live r _ _ now hst2 ha2 hw2]
    · rw [demote_one_of_not_run r _ _ now hr2]

/-- The scenario of the claim: the only approved staging question kept its
approval, but its one staging answer is rejected, while the published question
still says `has_approved_answer = true`. -/
def sqW5 : QuestionStaging :=
  { id := 1, run_id := "r", question_text := "q", is_approved := some true,
    tags := [], updated_at := 0 }

def saW5 : AnswerStaging :=
  { id := 1, run_id := "r", question_id := 1, answer_text := "a",
    is_approved := some false, updated_at := 0 }

def pW5 : Question :=
  { id := 1, run_id := "r", staging_id := some 1, question_text := "q",
    is_approved := true, tags := [], updated_at := 0 }

def dbW5 : DB :=
  { runs := [run0], question_staging := [sqW5], answer_staging := [saW5],
    questions := [pW5], answers := [], tags := [],
    next_staging_question_id := 2, next_staging_answer_id := 2,
    next_question_id := 2, next_answer_id := 1, next_tag_id := 1 }

theorem demotion_counted_once_witness :
    sync_wf dbW5 "r" ∧ (sync_core dbW5 "r" 4).2 = 1 ∧
    (sync_core (sync_core dbW5 "r" 4).1 "r" 5).2 = 0 := by
  have hwf : sync_wf dbW5 "r" := by
    unfold sync_wf pk_wf links_wf
    decide
  have h := demotion_counted_once dbW5 "r" 4 5 hwf sqW5 pW5 (by decide)
    (by unfold staging_q_has_approved_answer; decide) (by decide) (by decide)
    rfl (by decide)
  exact ⟨hwf, h.1, h.2.1⟩

/- ==================== Claim C6 ==================== -/

def llmqC6 : String → Nat → List String := fun _ _ => ["generated question"]

/-- C6 (code-bug evidence): the generation endpoints commit staging mutations
without updating the owning run's `last_staging_change_at`.  Both
generate-questions (which adds a staging question) and generate-answers (which
replaces a rejected staging answer) leave the runs table — and so the
`last_staging_change_at` column — entirely untouched. -/
theorem generation_skips_staging_stamp :
    (generate_questions dbW7 "r" 1 llmqC6 7).1.question_staging.length =
      dbW7.question_staging.length + 1 ∧
    (generate_questions dbW7 "r" 1 llmqC6 7).1.runs = dbW7.runs ∧
    (generate_answers dbW7 "r" llmW7 7).1.answer_staging ≠ dbW7.answer_staging ∧
    (generate_answers dbW7 "r" llmW7 7).1.runs = dbW7.runs ∧
    ∀ ru ∈ dbW7.runs, ru.last_staging_change_at = none :=
  ⟨by decide, by decide, by decide, by decide, by decide⟩

end QGen
